import Mathlib

/-!
# Palette utilities of `src/common/utility/palette.cpp`

A shallow embedding of the palette routines (`BestColor`, `MakeRemap`,
`DoBlending`, `DoBlending_SSE2`) and theorems about them.

Conventions of the embedding.

* A `uint32_t` is a natural number; a buffer reached through a pointer is a
  function from element index to the stored value, so `pal i` is `pal[i]`.
* `int` values that may be negative are integers; the ranges of the claims keep
  every intermediate value far inside 32 bits, so no wrap-around is modelled
  for them.
* Loops carry an explicit iteration budget that is always at least the number
  of iterations the C loop can make, so each routine is a total function.
-/

namespace Palette

/-! ## Packed colours (`palentry.h`) -/

/-- Modelled from the spec: `palentry.h` is not among the sources. The blue
channel of a packed entry is its lowest byte. -/
def PalEntry.b (d : Nat) : Nat := d % 256

/-- Modelled from the spec: `palentry.h` is not among the sources. The green
channel of a packed entry is its second byte. -/
def PalEntry.g (d : Nat) : Nat := d / 256 % 256

/-- Modelled from the spec: `palentry.h` is not among the sources. The red
channel of a packed entry is its third byte. -/
def PalEntry.r (d : Nat) : Nat := d / 65536 % 256

/-- Modelled from the spec: `palentry.h` is not among the sources. The high
byte of a packed entry, which carries no colour. -/
def PalEntry.a (d : Nat) : Nat := d / 16777216 % 256

/-! ## `BestColor` -/

/-- The value `dist` computed in the body of the loop of `BestColor` for the
palette index `color`. -/
def BestColor.dist (pal : Nat → Nat) (r g b : Int) (color : Nat) : Int :=
  let x := r - (PalEntry.r (pal color) : Int)
  let y := g - (PalEntry.g (pal color) : Int)
  let z := b - (PalEntry.b (pal color) : Int)
  x * x + y * y + z * z

/-- The `for (color = first; color < num; color++)` loop of `BestColor`, with
the loop variable `color` and the locals `bestcolor` and `bestdist` as
arguments. The first argument bounds the number of iterations. -/
def BestColor.loop (pal : Nat → Nat) (r g b : Int) (num : Nat) :
    Nat → Nat → Nat → Int → Nat
  | 0, _, bestcolor, _ => bestcolor
  | fuel + 1, color, bestcolor, bestdist =>
    if color < num then
      let dist := BestColor.dist pal r g b color
      if dist < bestdist then
        if dist = 0 then color
        else BestColor.loop pal r g b num fuel (color + 1) color dist
      else BestColor.loop pal r g b num fuel (color + 1) bestcolor bestdist
    else bestcolor

/-- `int BestColor (const uint32_t *pal_in, int r, int g, int b, int first, int num)`. -/
def BestColor (pal : Nat → Nat) (r g b : Int) (first num : Nat) : Nat :=
  BestColor.loop pal r g b num (num - first) first first
    (257 * 257 + 257 * 257 + 257 * 257)

/-- The index `k` lies in `[first, hi)`, no index of `[first, hi)` is nearer to
the query than `k`, and every index of the range below `k` is strictly
farther. -/
def IsNearest (pal : Nat → Nat) (r g b : Int) (first hi k : Nat) : Prop :=
  first ≤ k ∧ k < hi ∧
  (∀ j, first ≤ j → j < hi → BestColor.dist pal r g b k ≤ BestColor.dist pal r g b j) ∧
  (∀ j, first ≤ j → j < k → BestColor.dist pal r g b k < BestColor.dist pal r g b j)

/-- The grey ramp `pal[i] = (i, i, i)`. -/
def greyRamp (i : Nat) : Nat := i * 65536 + i * 256 + i

/-- Palette with the colour `(1,2,3)` at the indices 5 and 9 and black
elsewhere. -/
def twoMatches (i : Nat) : Nat := if i = 5 ∨ i = 9 then 66051 else 0

/-! ## `MakeRemap` -/

/-- Modelled from the spec: the macro `RPART` of `palentry.h`, which is not
among the sources; the red byte of a packed colour. -/
def RPART (c : Nat) : Nat := c / 65536 % 256

/-- Modelled from the spec: the macro `GPART` of `palentry.h`, which is not
among the sources; the green byte of a packed colour. -/
def GPART (c : Nat) : Nat := c / 256 % 256

/-- Modelled from the spec: the macro `BPART` of `palentry.h`, which is not
among the sources; the blue byte of a packed colour. -/
def BPART (c : Nat) : Nat := c % 256

/-- `struct RemappingWork`; `Foreign` and `PalEntry` are `uint8_t`. -/
structure RemappingWork where
  Color : Nat
  Foreign : Nat
  PalEntry : Nat
deriving DecidableEq

/-- `static int sortforremap2(const void* a, const void* b)`. The difference of
the two `uint32_t` colours is taken modulo `2^32` and read as an `int`. -/
def sortforremap2 (ap bp : RemappingWork) : Int :=
  if ap.Color = bp.Color then
    (bp.Foreign : Int) - (ap.Foreign : Int)
  else
    Int.bmod ((ap.Color : Int) - (bp.Color : Int)) 4294967296

/-- The locals of `MakeRemap` that its loops change, and the `remap` buffer.
`workspace` holds the entries `workspace[0 .. j)` that have been filled in. -/
structure MakeRemap.State where
  workspace : List RemappingWork
  remap : Nat → Nat
  j : Nat
  k : Int

/-- The test `useful == NULL || useful[i] != 0`; `none` is the null pointer. -/
def MakeRemap.isUseful (useful : Option (Nat → Nat)) (i : Nat) : Bool :=
  match useful with
  | none => true
  | some u => u i != 0

/-- The workspace after the first loop of `MakeRemap`,
`for (i = 1; i < 256; ++i)`: the entries `workspace[i - 1]` for the base colours
1 to 255. -/
def MakeRemap.fillBase (BaseColors : Nat → Nat) : List RemappingWork :=
  (List.range 255).map fun t =>
    { Color := BaseColors (t + 1) &&& 0xFFFFFF, Foreign := 0, PalEntry := (t + 1) % 256 }

/-- The entry written to `workspace[j]` for the foreign index `i`. -/
def MakeRemap.foreignItem (colors : Nat → Nat) (i : Nat) : RemappingWork :=
  { Color := colors i &&& 0xFFFFFF, Foreign := 1, PalEntry := i % 256 }

/-- The body of the second loop of `MakeRemap` at the foreign index `i`. -/
def MakeRemap.fillStep (colors : Nat → Nat) (useful : Option (Nat → Nat))
    (st : MakeRemap.State) (i : Nat) : MakeRemap.State :=
  if MakeRemap.isUseful useful i then
    { workspace := st.workspace ++ [MakeRemap.foreignItem colors i]
      remap := st.remap
      j := st.j + 1
      k := st.k + 1 }
  else
    { st with remap := Function.update st.remap i 0 }

/-- The state of `MakeRemap` when it calls `qsort`: both filling loops have
run, the second one as `for (i = k = 0, j = 255; i < numcolors; ++i)`. -/
def MakeRemap.filled (BaseColors colors remap : Nat → Nat) (useful : Option (Nat → Nat))
    (numcolors : Nat) : MakeRemap.State :=
  (List.range numcolors).foldl (MakeRemap.fillStep colors useful)
    { workspace := MakeRemap.fillBase BaseColors, remap := remap, j := 255, k := 0 }

/-- The loop `for (i = 0; i < j; ++i)` that finds the exact matches, with the
loop variable `i` as an argument. The first argument bounds the number of
iterations. -/
def MakeRemap.exactLoop (j : Nat) : Nat → Nat → MakeRemap.State → MakeRemap.State
  | 0, _, st => st
  | fuel + 1, i, st =>
    if i < j then
      let wi := st.workspace.getD i ⟨0, 0, 0⟩
      let wn := st.workspace.getD (i + 1) ⟨0, 0, 0⟩
      if wi.Foreign ≠ 0 then
        if wn.Foreign = 0 ∧ wi.Color = wn.Color then
          MakeRemap.exactLoop j fuel (i + 1 + 1)
            { st with
              remap := Function.update st.remap wi.PalEntry wn.PalEntry
              workspace := st.workspace.set i { wi with Foreign := 2 }
              k := st.k - 1 }
        else MakeRemap.exactLoop j fuel (i + 1) st
      else MakeRemap.exactLoop j fuel (i + 1) st
    else st

/-- The loop `for (i = 0; i <= j; ++i)` that finds the near matches; the `int`
that `BestColor` returns is stored in a `uint8_t`. The first argument bounds
the number of iterations. -/
def MakeRemap.nearLoop (BaseColors : Nat → Nat) (j : Nat) :
    Nat → Nat → MakeRemap.State → MakeRemap.State
  | 0, _, st => st
  | fuel + 1, i, st =>
    if i ≤ j then
      let wi := st.workspace.getD i ⟨0, 0, 0⟩
      if wi.Foreign = 1 then
        MakeRemap.nearLoop BaseColors j fuel (i + 1)
          { st with
            remap := Function.update st.remap wi.PalEntry
              (BestColor BaseColors (RPART wi.Color) (GPART wi.Color) (BPART wi.Color) 1 255
                % 256) }
      else MakeRemap.nearLoop BaseColors j fuel (i + 1) st
    else st

/-- `void MakeRemap(uint32_t* BaseColors, const uint32_t* colors, uint8_t* remap,
const uint8_t* useful, int numcolors)`; the result is the `remap` buffer after
the call. The library routine `qsort` is an argument: the C standard fixes its
result only up to the order of entries that compare equal. -/
def MakeRemap (qsort : List RemappingWork → List RemappingWork)
    (BaseColors colors remap : Nat → Nat) (useful : Option (Nat → Nat)) (numcolors : Nat) :
    Nat → Nat :=
  let st0 := MakeRemap.filled BaseColors colors remap useful numcolors
  let st1 := { st0 with workspace := qsort st0.workspace }
  let st2 := { st1 with j := st1.j - 1 }
  let st3 := MakeRemap.exactLoop st2.j st2.j 0 st2
  if st3.k > 0 then (MakeRemap.nearLoop BaseColors st3.j (st3.j + 1) 0 st3).remap
  else st3.remap

/-- The entry `workspace[p]` as the loops of `MakeRemap` read it. -/
def MakeRemap.entry (ws : List RemappingWork) (p : Nat) : RemappingWork :=
  ws.getD p ⟨0, 0, 0⟩

/-- The test of the exact-match loop succeeds at position `p` of the sorted
workspace `ws`: there is a next entry, `ws[p]` is foreign, and the next entry
is a base entry of the same colour. -/
def MakeRemap.Matched (ws : List RemappingWork) (p : Nat) : Prop :=
  p + 1 < ws.length ∧ (MakeRemap.entry ws p).Foreign ≠ 0 ∧
    (MakeRemap.entry ws (p + 1)).Foreign = 0 ∧
    (MakeRemap.entry ws p).Color = (MakeRemap.entry ws (p + 1)).Color

instance MakeRemap.decidableMatched (ws : List RemappingWork) (p : Nat) :
    Decidable (MakeRemap.Matched ws p) := by
  unfold MakeRemap.Matched
  infer_instance

/-- The state of the exact-match loop when it is about to look at position `i`
of a workspace that was `ws` after sorting, the `remap` buffer having been
`remap0` then. -/
def MakeRemap.ExactInv (ws : List RemappingWork) (remap0 : Nat → Nat) (i : Nat)
    (st : MakeRemap.State) : Prop :=
  st.workspace.length = ws.length ∧
  (∀ p, MakeRemap.entry st.workspace p =
    if p < i ∧ MakeRemap.Matched ws p then { MakeRemap.entry ws p with Foreign := 2 }
    else MakeRemap.entry ws p) ∧
  (∀ p, p < i → MakeRemap.Matched ws p →
    st.remap (MakeRemap.entry ws p).PalEntry = (MakeRemap.entry ws (p + 1)).PalEntry) ∧
  (∀ x, (∀ p, p < i → MakeRemap.Matched ws p → (MakeRemap.entry ws p).PalEntry ≠ x) →
    st.remap x = remap0 x) ∧
  st.k = (st.workspace.countP (fun x => x.Foreign == 1) : Int)

/-- The colour that the near-match loop stores for a workspace entry. -/
def MakeRemap.nearest (BaseColors : Nat → Nat) (w : RemappingWork) : Nat :=
  BestColor BaseColors (RPART w.Color) (GPART w.Color) (BPART w.Color) 1 255 % 256

/-- The state of the near-match loop when it is about to look at position `i`
of the workspace `w`, the `remap` buffer having been `remap3` when the loop
started. -/
def MakeRemap.NearInv (BaseColors : Nat → Nat) (w : List RemappingWork)
    (remap3 : Nat → Nat) (i : Nat) (st : MakeRemap.State) : Prop :=
  st.workspace = w ∧
  (∀ p, p < i → (MakeRemap.entry w p).Foreign = 1 →
    st.remap (MakeRemap.entry w p).PalEntry =
      MakeRemap.nearest BaseColors (MakeRemap.entry w p)) ∧
  (∀ x, (∀ p, p < i → (MakeRemap.entry w p).Foreign = 1 →
      (MakeRemap.entry w p).PalEntry ≠ x) →
    st.remap x = remap3 x)

/-- What the C standard promises of `qsort` with the comparator
`sortforremap2`: on entries with 24-bit colours, where the comparator is a
consistent order, the result is a rearrangement of the input in which no entry
compares greater than a later one. -/
def SortsForRemap2 (qsort : List RemappingWork → List RemappingWork) : Prop :=
  ∀ l : List RemappingWork, (∀ x ∈ l, x.Color < 16777216) →
    (qsort l).Perm l ∧ (qsort l).Pairwise (fun a b => sortforremap2 a b ≤ 0)

/-- A reference implementation of `qsort` with `sortforremap2`: insertion
sort. -/
def refQsort (l : List RemappingWork) : List RemappingWork :=
  l.insertionSort (fun a b => decide (sortforremap2 a b ≤ 0) = true)

/-- The two packed entries have the same red, green and blue bytes. -/
def SameRGB (x y : Nat) : Prop :=
  PalEntry.r x = PalEntry.r y ∧ PalEntry.g x = PalEntry.g y ∧ PalEntry.b x = PalEntry.b y

instance decidableSameRGB (x y : Nat) : Decidable (SameRGB x y) := by
  unfold SameRGB
  infer_instance

/-- A useful mask that marks the foreign indices 0 and 2. -/
def maskZeroTwo (i : Nat) : Nat := if i = 0 ∨ i = 2 then 1 else 0

/-- A foreign palette all of whose entries are the colour `(1, 0, 0)`. -/
def allDarkRed (_ : Nat) : Nat := 65536

/-- The palette whose entry `i` is the colour `(0, 0, i)`. -/
def blueRamp (i : Nat) : Nat := i % 256

/-- A foreign palette all of whose entries are the colour `(0, 0, 255)`. -/
def allBlue (_ : Nat) : Nat := 255

/-! ## `DoBlending` -/

/-- Modelled from the spec: the macro `MAKERGB` of `palentry.h`, which is not
among the sources; the packed colour with a zero high byte. -/
def MAKERGB (r g b : Nat) : Nat := ((r <<< 16) ||| (g <<< 8) ||| b) % 4294967296

/-- The packed entry with the bytes `a`, `r`, `g`, `b`, from the high byte
down. -/
def PalEntry.pack (a r g b : Nat) : Nat := a * 16777216 + r * 65536 + g * 256 + b

/-- The assignment `p->r = v` of an `int` to the `uint8_t` field `r` of the
entry `d`. -/
def PalEntry.setR (d : Nat) (v : Int) : Nat :=
  PalEntry.pack (PalEntry.a d) (v % 256).toNat (PalEntry.g d) (PalEntry.b d)

/-- The assignment `p->g = v` of an `int` to the `uint8_t` field `g` of the
entry `d`. -/
def PalEntry.setG (d : Nat) (v : Int) : Nat :=
  PalEntry.pack (PalEntry.a d) (PalEntry.r d) (v % 256).toNat (PalEntry.b d)

/-- The assignment `p->b = v` of an `int` to the `uint8_t` field `b` of the
entry `d`. -/
def PalEntry.setB (d : Nat) (v : Int) : Nat :=
  PalEntry.pack (PalEntry.a d) (PalEntry.r d) (PalEntry.g d) (v % 256).toNat

/-- The compilation targets that the preprocessor conditions of `palette.cpp`
tell apart: 32-bit x86, 64-bit x86, and every other processor. -/
inductive Target where
  | other
  | ia32
  | amd64
deriving DecidableEq

/-! ### The SSE2 operations

A 128-bit value is held either as its 16 bytes or as its 8 lanes of 16 bits,
lowest first; every operation below is used by `DoBlending_SSE2` in one of
the two readings only. -/

/-- The four 16-bit lanes of a 64-bit value, lowest first. -/
def lanes64 (q : Nat) : List Nat :=
  [q % 65536, q / 65536 % 65536, q / 4294967296 % 65536, q / 281474976710656 % 65536]

/-- The two 16-bit lanes of a 32-bit value, lowest first. -/
def lanes32 (x : Nat) : List Nat := [x % 65536, x / 65536 % 65536]

/-- The intrinsic `_mm_set_epi64x(e1, e0)`, as 16-bit lanes. -/
def mm_set_epi64x (e1 e0 : Nat) : List Nat := lanes64 e0 ++ lanes64 e1

/-- The intrinsic `_mm_set_epi32(e3, e2, e1, e0)`, as 16-bit lanes. -/
def mm_set_epi32 (e3 e2 e1 e0 : Nat) : List Nat :=
  lanes32 e0 ++ lanes32 e1 ++ lanes32 e2 ++ lanes32 e3

/-- The intrinsic `_mm_setzero_si128()`, as bytes. -/
def mm_setzero_si128 : List Nat := List.replicate 16 0

/-- The intrinsic `_mm_mullo_epi16`: the low 16 bits of each product. -/
def mm_mullo_epi16 (x y : List Nat) : List Nat :=
  List.zipWith (fun u v => u * v % 65536) x y

/-- The intrinsic `_mm_subs_epu16`: unsigned subtraction that stops at 0. -/
def mm_subs_epu16 (x y : List Nat) : List Nat :=
  List.zipWith (fun u v => u - v) x y

/-- The intrinsic `_mm_adds_epu16`: unsigned addition that stops at 65535. -/
def mm_adds_epu16 (x y : List Nat) : List Nat :=
  List.zipWith (fun u v => min (u + v) 65535) x y

/-- The intrinsic `_mm_srli_epi16`: logical shift right of each lane. -/
def mm_srli_epi16 (x : List Nat) (imm : Nat) : List Nat :=
  x.map (fun u => u >>> imm)

/-- The intrinsic `_mm_unpacklo_epi8`: the low 8 bytes of `x` interleaved with
the low 8 bytes of `y`, read as 16-bit lanes. -/
def mm_unpacklo_epi8 (x y : List Nat) : List Nat :=
  List.zipWith (fun u v => u + 256 * v) (x.take 8) (y.take 8)

/-- The intrinsic `_mm_unpackhi_epi8`: the high 8 bytes of `x` interleaved with
the high 8 bytes of `y`, read as 16-bit lanes. -/
def mm_unpackhi_epi8 (x y : List Nat) : List Nat :=
  List.zipWith (fun u v => u + 256 * v) (x.drop 8) (y.drop 8)

/-- The intrinsic `_mm_packus_epi16`: each lane, read as a signed 16-bit
number, is clamped to `[0, 255]`; the lanes of `x` give the low 8 bytes. -/
def mm_packus_epi16 (x y : List Nat) : List Nat :=
  (x ++ y).map (fun u => if 32768 ≤ u then 0 else min u 255)

/-- The four bytes of a 32-bit word in memory order (little-endian). -/
def bytesOfWord (d : Nat) : List Nat :=
  [d % 256, d / 256 % 256, d / 65536 % 256, d / 16777216 % 256]

/-- The 32-bit word that bytes `4 * k .. 4 * k + 3` of `v` spell. -/
def wordOfBytes (v : List Nat) (k : Nat) : Nat :=
  v.getD (4 * k) 0 + 256 * v.getD (4 * k + 1) 0 + 65536 * v.getD (4 * k + 2) 0 +
    16777216 * v.getD (4 * k + 3) 0

/-- The intrinsic `_mm_loadu_si128` at the pixel address `p`: the 16 bytes of
four consecutive pixels. -/
def mm_loadu_si128 (mem : Nat → Nat) (p : Nat) : List Nat :=
  bytesOfWord (mem p) ++ bytesOfWord (mem (p + 1)) ++ bytesOfWord (mem (p + 2)) ++
    bytesOfWord (mem (p + 3))

/-- The intrinsic `_mm_load_si128`, which reads what `_mm_loadu_si128` reads
and requires an aligned address. -/
def mm_load_si128 (mem : Nat → Nat) (p : Nat) : List Nat := mm_loadu_si128 mem p

/-- The intrinsic `_mm_storeu_si128` at the pixel address `p`: 16 bytes are
written over four consecutive pixels. -/
def mm_storeu_si128 (mem : Nat → Nat) (p : Nat) (v : List Nat) : Nat → Nat :=
  Function.update
    (Function.update
      (Function.update
        (Function.update mem p (wordOfBytes v 0))
        (p + 1) (wordOfBytes v 1))
      (p + 2) (wordOfBytes v 2))
    (p + 3) (wordOfBytes v 3)

/-- The intrinsic `_mm_store_si128`, which writes what `_mm_storeu_si128`
writes and requires an aligned address. -/
def mm_store_si128 (mem : Nat → Nat) (p : Nat) (v : List Nat) : Nat → Nat :=
  mm_storeu_si128 mem p v

/-- The body of the two loops of `DoBlending_SSE2`, which differ in the load
and the store they use: four pixels are read at `src` (`from`) and four pixels
are written at `dst` (`to`). The pixel memory `mem` is addressed in pixels. -/
def DoBlending_SSE2.body (load : (Nat → Nat) → Nat → List Nat)
    (store : (Nat → Nat) → Nat → List Nat → Nat → Nat)
    (blendcolor blendalpha zero : List Nat) (mem : Nat → Nat) (src dst : Nat) : Nat → Nat :=
  let color1 := load mem src
  let color2 := mm_unpackhi_epi8 color1 zero
  let color1 := mm_unpacklo_epi8 color1 zero
  let color1 := mm_mullo_epi16 blendalpha color1
  let color2 := mm_mullo_epi16 blendalpha color2
  let color1 := mm_adds_epu16 blendcolor color1
  let color2 := mm_adds_epu16 blendcolor color2
  let color1 := mm_srli_epi16 color1 8
  let color2 := mm_srli_epi16 color2 8
  store mem dst (mm_packus_epi16 color1 color2)

/-- One of the two loops `for (count >>= 2; count > 0; --count)` of
`DoBlending_SSE2`, with `from += 4` and `to += 4` in every pass. -/
def DoBlending_SSE2.loop (load : (Nat → Nat) → Nat → List Nat)
    (store : (Nat → Nat) → Nat → List Nat → Nat → Nat)
    (blendcolor blendalpha zero : List Nat) : Nat → Nat → Nat → (Nat → Nat) → Nat → Nat
  | 0, _, _, mem => mem
  | count + 1, src, dst, mem =>
    DoBlending_SSE2.loop load store blendcolor blendalpha zero count (src + 4) (dst + 4)
      (DoBlending_SSE2.body load store blendcolor blendalpha zero mem src dst)

/-- The register `blending256` of `DoBlending_SSE2`. -/
def DoBlending_SSE2.blending256 : Target → List Nat
  | Target.amd64 => mm_set_epi64x 0x10001000100 0x10001000100
  | _ => mm_set_epi32 0x100 0x1000100 0x100 0x1000100

/-- The register that `DoBlending_SSE2` builds from three values `x`, `y`, `z`:
`blendcolor` from `r`, `g`, `b` and `blendalpha` from `a`, `a`, `a`. -/
def DoBlending_SSE2.splat (target : Target) (x y z : Nat) : List Nat :=
  match target with
  | Target.amd64 =>
    let color := (x <<< 32) ||| (y <<< 16) ||| z
    mm_set_epi64x color color
  | _ =>
    let color := (y <<< 16) ||| z
    mm_set_epi32 x color x color

/-- `static void DoBlending_SSE2(const PalEntry *from, PalEntry *to, int count,
int r, int g, int b, int a)` on the pixel memory `mem`, with `from` and `to` as
the pixel addresses `src` and `dst` (byte addresses `4 * src` and `4 * dst`);
the result is the memory after the call. The arguments are non-negative. -/
def DoBlending_SSE2 (target : Target) (mem : Nat → Nat) (src dst count r g b a : Nat) :
    Nat → Nat :=
  let unaligned := ((4 * src) ||| (4 * dst)) &&& 0xF
  let blending256 := DoBlending_SSE2.blending256 target
  let blendcolor := DoBlending_SSE2.splat target r g b
  let blendalpha := DoBlending_SSE2.splat target a a a
  let blendcolor := mm_mullo_epi16 blendcolor blendalpha
  let blendalpha := mm_subs_epu16 blending256 blendalpha
  let zero := mm_setzero_si128
  if unaligned ≠ 0 then
    DoBlending_SSE2.loop mm_loadu_si128 mm_storeu_si128 blendcolor blendalpha zero
      (count >>> 2) src dst mem
  else
    DoBlending_SSE2.loop mm_load_si128 mm_store_si128 blendcolor blendalpha zero
      (count >>> 2) src dst mem

/-- The call `memcpy(to, from, count * sizeof(uint32_t))` on buffers that do not
overlap. -/
def memcpy (mem : Nat → Nat) (dst src count : Nat) : Nat → Nat :=
  fun x => if dst ≤ x ∧ x < dst + count then mem (src + (x - dst)) else mem x

/-- The body of the scalar loop of `DoBlending`: the three assignments to
`to->r`, `to->g` and `to->b`, one after the other; `r`, `g`, `b` are the colour
already multiplied by `a`. -/
def DoBlending.scalarBody (r g b ia : Int) (mem : Nat → Nat) (src dst : Nat) : Nat → Nat :=
  let mem1 := Function.update mem dst
    (PalEntry.setR (mem dst) ((r + (PalEntry.r (mem src) : Int) * ia) >>> (8 : Nat)))
  let mem2 := Function.update mem1 dst
    (PalEntry.setG (mem1 dst) ((g + (PalEntry.g (mem1 src) : Int) * ia) >>> (8 : Nat)))
  Function.update mem2 dst
    (PalEntry.setB (mem2 dst) ((b + (PalEntry.b (mem2 src) : Int) * ia) >>> (8 : Nat)))

/-- The scalar loop `for (i = count; i > 0; i--, to++, from++)` of
`DoBlending`. -/
def DoBlending.scalarLoop (r g b ia : Int) : Nat → Nat → Nat → (Nat → Nat) → Nat → Nat
  | 0, _, _, mem => mem
  | i + 1, src, dst, mem =>
    DoBlending.scalarLoop r g b ia i (src + 1) (dst + 1)
      (DoBlending.scalarBody r g b ia mem src dst)

/-- The last part of `DoBlending`, from `ia = 256 - a` on. -/
def DoBlending.scalar (mem : Nat → Nat) (src dst count r g b a : Nat) : Nat → Nat :=
  let ia : Int := 256 - (a : Int)
  DoBlending.scalarLoop ((r : Int) * a) ((g : Int) * a) ((b : Int) * a) ia count src dst mem

/-- `void DoBlending (const PalEntry *from, PalEntry *to, int count, int r, int g,
int b, int a)` on the pixel memory `mem`, with `from` and `to` as the pixel
addresses `src` and `dst`; the result is the memory after the call. The
arguments are non-negative; `count & ~3` is `count - (count & 3)`. -/
def DoBlending (target : Target) (mem : Nat → Nat) (src dst count r g b a : Nat) :
    Nat → Nat :=
  if a = 0 then
    if src ≠ dst then memcpy mem dst src count else mem
  else if a = 256 then
    let t := MAKERGB r g b
    (List.range count).foldl (fun m i => Function.update m (dst + i) t) mem
  else if target ≠ Target.other ∧ count ≥ 4 then
    let not3count := count - (count &&& 3)
    let mem1 := DoBlending_SSE2 target mem src dst not3count r g b a
    let count1 := count &&& 3
    if count1 ≤ 0 then mem1
    else DoBlending.scalar mem1 (src + not3count) (dst + not3count) count1 r g b a
  else DoBlending.scalar mem src dst count r g b a

/-- The blend of one colour channel: `((c * a) + (s * (256 - a))) >> 8`. -/
def blendChannel (c a s : Nat) : Nat := (c * a + s * (256 - a)) / 256

/-- The buffers of `n` pixels at `src` and `dst` are the same buffer or do not
overlap. -/
def SameOrDisjoint (src dst n : Nat) : Prop :=
  src = dst ∨ src + n ≤ dst ∨ dst + n ≤ src

/-- The memory `mem2` comes from `mem` by a pixel-wise operation on the `n`
pixels at `dst` that reads the `n` pixels at `src`: `P new old source` holds of
every new destination pixel, of what the destination pixel was and of the
source pixel, and no other pixel changes. -/
def MapsPixels (P : Nat → Nat → Nat → Prop) (mem mem2 : Nat → Nat) (src dst n : Nat) : Prop :=
  (∀ x, x < dst ∨ dst + n ≤ x → mem2 x = mem x) ∧
  (∀ i, i < n → P (mem2 (dst + i)) (mem (dst + i)) (mem (src + i)))

/-- What the scalar loop makes of a pixel: the three colour bytes are blended
from the source pixel, the fourth byte stays. -/
def ScalarPixel (r g b a : Nat) (new old source : Nat) : Prop :=
  new = PalEntry.pack (PalEntry.a old) (blendChannel r a (PalEntry.r source))
    (blendChannel g a (PalEntry.g source)) (blendChannel b a (PalEntry.b source))

/-- What the vector loop makes of a pixel: the three colour bytes are blended
from the source pixel, the fourth byte becomes 0. -/
def VectorPixel (r g b a : Nat) (new _old source : Nat) : Prop :=
  new = PalEntry.pack 0 (blendChannel r a (PalEntry.r source))
    (blendChannel g a (PalEntry.g source)) (blendChannel b a (PalEntry.b source))

/-- The three colour bytes of the new pixel are blended from the source
pixel. -/
def BlendedRGB (r g b a : Nat) (new _old source : Nat) : Prop :=
  PalEntry.r new = blendChannel r a (PalEntry.r source) ∧
  PalEntry.g new = blendChannel g a (PalEntry.g source) ∧
  PalEntry.b new = blendChannel b a (PalEntry.b source)

/-- A pixel memory whose pixel `x` is `0xFF000000 + 0x010203 * x`: every pixel
has the fourth byte 255. -/
def opaqueRamp (x : Nat) : Nat := 4278190080 + 66051 * (x % 64)

/-- A foreign palette all of whose entries are the colour `(0, 1, 255)`. -/
def nearBlue (_ : Nat) : Nat := 511

/-! ## `PTM_BestColor`

The routine computes with `double` and `float`. The embedding is over a type
`α` of table entries, ordered and with an addition and a zero, and a type `γ`
of exponents; the library function `pow` and the constant `DBL_MAX` are
arguments. -/

/-- The static locals of `PTM_BestColor`. -/
structure PTM_BestColor.Statics (γ α : Type) where
  powtable : Nat → α
  firstTime : Bool
  trackpowtable : γ

/-- The static locals of `PTM_BestColor` before its first call. -/
def PTM_BestColor.initial (γ α : Type) [Zero γ] [Zero α] : PTM_BestColor.Statics γ α :=
  { powtable := fun _ => 0, firstTime := true, trackpowtable := 0 }

/-- The value `fdist` computed in the body of the loop of `PTM_BestColor` for
the palette index `color`. -/
def PTM_BestColor.fdist {α : Type} [Add α] (pal : Nat → Nat) (r g b : Int)
    (powtable : Nat → α) (color : Nat) : α :=
  let x := powtable (Int.natAbs (r - (PalEntry.r (pal color) : Int)))
  let y := powtable (Int.natAbs (g - (PalEntry.g (pal color) : Int)))
  let z := powtable (Int.natAbs (b - (PalEntry.b (pal color) : Int)))
  x + y + z

/-- The `for (color = first; color < num; color++)` loop of `PTM_BestColor`,
with the loop variable `color` and the locals `fbestdist` and `bestcolor` as
arguments. The first argument bounds the number of iterations. -/
def PTM_BestColor.loop {α : Type} [LinearOrder α] [Add α] [Zero α] (pal : Nat → Nat)
    (r g b : Int) (reverselookup : Bool) (powtable : Nat → α) (first num : Nat) :
    Nat → Nat → α → Nat → Nat
  | 0, _, _, bestcolor => bestcolor
  | fuel + 1, color, fbestdist, bestcolor =>
    if color < num then
      let fdist := PTM_BestColor.fdist pal r g b powtable color
      if color = first ∨ (if reverselookup then fdist ≤ fbestdist else fdist < fbestdist) then
        if fdist = 0 ∧ reverselookup = false then color
        else PTM_BestColor.loop pal r g b reverselookup powtable first num fuel (color + 1)
          fdist color
      else PTM_BestColor.loop pal r g b reverselookup powtable first num fuel (color + 1)
        fbestdist bestcolor
    else bestcolor

/-- The loop `for (int x = 0; x < 256; x++) powtable[x] = pow((double)x/255,
(double)pt)`; `pow x pt` stands for the value of the library call. -/
def PTM_BestColor.rebuild {γ α : Type} (pow : Nat → γ → α) (pt : γ) (powtable : Nat → α) :
    Nat → α :=
  (List.range 256).foldl (fun t x => Function.update t x (pow x pt)) powtable

/-- `int PTM_BestColor (const uint32_t *pal_in, int r, int g, int b, bool
reverselookup, float powtable_val, int first, int num)` with its static locals
as an argument `st`; the result is the value returned and the static locals
after the call. -/
def PTM_BestColor {γ α : Type} [DecidableEq γ] [LinearOrder α] [Add α] [Zero α]
    (pow : Nat → γ → α) (dblMax : α) (st : PTM_BestColor.Statics γ α) (pal : Nat → Nat)
    (r g b : Int) (reverselookup : Bool) (powtable_val : γ) (first num : Nat) :
    Nat × PTM_BestColor.Statics γ α :=
  let st1 : PTM_BestColor.Statics γ α :=
    if st.firstTime = true ∨ st.trackpowtable ≠ powtable_val then
      { powtable := PTM_BestColor.rebuild pow powtable_val st.powtable
        firstTime := false
        trackpowtable := powtable_val }
    else st
  (PTM_BestColor.loop pal r g b reverselookup st1.powtable first num (num - first) first
    dblMax 0, st1)

/-- The index `k` lies in `[first, hi)`, no index of `[first, hi)` has a
smaller cost, and every index of the range below `k` has a larger cost. -/
def IsFirstMin {α : Type} [LinearOrder α] (cost : Nat → α) (first hi k : Nat) : Prop :=
  first ≤ k ∧ k < hi ∧ (∀ j, first ≤ j → j < hi → cost k ≤ cost j) ∧
    (∀ j, first ≤ j → j < k → cost k < cost j)

/-- The index `k` lies in `[first, hi)`, no index of `[first, hi)` has a
smaller cost, and every index of the range above `k` has a larger cost. -/
def IsLastMin {α : Type} [LinearOrder α] (cost : Nat → α) (first hi k : Nat) : Prop :=
  first ≤ k ∧ k < hi ∧ (∀ j, first ≤ j → j < hi → cost k ≤ cost j) ∧
    (∀ j, k < j → j < hi → cost k < cost j)

/-- The arguments of one call of `PTM_BestColor`. -/
structure PTM_BestColor.Args (γ : Type) where
  pal : Nat → Nat
  r : Int
  g : Int
  b : Int
  reverselookup : Bool
  powtable_val : γ
  first : Nat
  num : Nat

/-- One call of `PTM_BestColor` with the arguments `c`. -/
def PTM_BestColor.call {γ α : Type} [DecidableEq γ] [LinearOrder α] [Add α] [Zero α]
    (pow : Nat → γ → α) (dblMax : α) (st : PTM_BestColor.Statics γ α)
    (c : PTM_BestColor.Args γ) : Nat × PTM_BestColor.Statics γ α :=
  PTM_BestColor pow dblMax st c.pal c.r c.g c.b c.reverselookup c.powtable_val c.first c.num

/-- The static locals of `PTM_BestColor` after the calls `cs`, made one after
the other since the start of the program. -/
def PTM_BestColor.after {γ α : Type} [DecidableEq γ] [Zero γ] [LinearOrder α] [Add α] [Zero α]
    (pow : Nat → γ → α) (dblMax : α) (cs : List (PTM_BestColor.Args γ)) :
    PTM_BestColor.Statics γ α :=
  cs.foldl (fun st c => (PTM_BestColor.call pow dblMax st c).2) (PTM_BestColor.initial γ α)

/-- The power table for the exponent `pt`: `pow((double)x/255, (double)pt)` in
the 256 elements of the array. -/
def PTM_BestColor.table {γ α : Type} [Zero α] (pow : Nat → γ → α) (pt : γ) : Nat → α :=
  fun x => if x < 256 then pow x pt else 0

/-- The value that a call with the arguments `c` returns when the power table
is the one for the exponent of the call. -/
def PTM_BestColor.stateless {γ α : Type} [LinearOrder α] [Add α] [Zero α]
    (pow : Nat → γ → α) (dblMax : α) (c : PTM_BestColor.Args γ) : Nat :=
  PTM_BestColor.loop c.pal c.r c.g c.b c.reverselookup (PTM_BestColor.table pow c.powtable_val)
    c.first c.num (c.num - c.first) c.first dblMax 0

/-- The static locals are as some sequence of calls leaves them: nothing
outside the 256 elements of the table was written, and once a call has been
made the table is the one for the exponent last used. -/
def PTM_BestColor.Valid {γ α : Type} [Zero α] (pow : Nat → γ → α)
    (st : PTM_BestColor.Statics γ α) : Prop :=
  (∀ x, 256 ≤ x → st.powtable x = 0) ∧
  (st.firstTime = false → ∀ x, x < 256 → st.powtable x = pow x st.trackpowtable)

/-- The constant `DBL_MAX` of `<float.h>` for IEEE doubles, as a rational number. -/
def DBL_MAX : ℚ := 2 ^ 1024 - 2 ^ 971

/-- The value `pow((double)x/255, (double)powtable_val)` in exact arithmetic,
for an exponent that is a natural number. -/
def PTM_BestColor.powQ (x : Nat) (powtable_val : Nat) : ℚ := ((x : ℚ) / 255) ^ powtable_val

/-! ## `MakeGoodRemap`

`qsort` is an argument of the model, as for `MakeRemap`. The buffer `Remap`
holds bytes, `BaseColors` holds 32-bit words, and `PalEntry` converts to and
from `uint32_t` without changing the word. -/

/-- `static int sortforremap(const void* a, const void* b)`. The difference of
the two masked `uint32_t` words is taken modulo `2^32` and read as an `int`. -/
def sortforremap (a b : Nat) : Int :=
  Int.bmod (((a &&& 0xFFFFFF : Nat) : Int) - ((b &&& 0xFFFFFF : Nat) : Int)) 4294967296

/-- The two buffers that `MakeGoodRemap` writes. -/
structure MakeGoodRemap.Buffers where
  BaseColors : Nat → Nat
  Remap : Nat → Nat

/-- `for (int i = 0; i < 256; i++) Remap[i] = i;` -/
def MakeGoodRemap.identity (Remap : Nat → Nat) : Nat → Nat :=
  (List.range 256).foldl (fun m i => Function.update m i (i % 256)) Remap

/-- The loop `for (i = 1; i < 256; ++i)` that looks for `color0` and breaks at
the first index that holds it. -/
def MakeGoodRemap.firstLoop (BaseColors : Nat → Nat) (color0 : Nat) :
    Nat → Nat → (Nat → Nat) → (Nat → Nat)
  | 0, _, Remap => Remap
  | fuel + 1, i, Remap =>
    if i < 256 then
      if BaseColors i = color0 then Function.update Remap 0 (i % 256)
      else MakeGoodRemap.firstLoop BaseColors color0 fuel (i + 1) Remap
    else Remap

/-- The word `BaseColors[i] | (i << 24)`; the shifted `int` is converted to
`uint32_t` for the `|`. -/
def MakeGoodRemap.packed (BaseColors : Nat → Nat) (i : Nat) : Nat :=
  BaseColors i ||| ((i <<< 24) % 4294967296)

/-- The array `sortcopy` as the filling loop leaves it:
`sortcopy[i] = BaseColors[i] | (i << 24)`. -/
def MakeGoodRemap.sortcopy (BaseColors : Nat → Nat) : List Nat :=
  (List.range 256).map (MakeGoodRemap.packed BaseColors)

/-- The loop `for (i = 255; i > 0; --i)` over the sorted `sortcopy`, started at
`i`: at the first `i` whose entry has the 24-bit colour of the entry before it,
the two buffers are written and the loop breaks. -/
def MakeGoodRemap.scan (sortcopy : List Nat) (color0 : Nat) :
    Nat → MakeGoodRemap.Buffers → MakeGoodRemap.Buffers
  | 0, s => s
  | i + 1, s =>
    if sortcopy.getD (i + 1) 0 &&& 0xFFFFFF = sortcopy.getD i 0 &&& 0xFFFFFF then
      let new0 := PalEntry.a (sortcopy.getD (i + 1) 0)
      let dup := PalEntry.a (sortcopy.getD i 0)
      let new1 := if new0 > dup then dup else new0
      let dup1 := if new0 > dup then new0 else dup
      { BaseColors := Function.update s.BaseColors new1 color0,
        Remap := Function.update (Function.update s.Remap 0 (new1 % 256)) new1 (dup1 % 256) }
    else MakeGoodRemap.scan sortcopy color0 i s

/-- `void MakeGoodRemap(uint32_t* BaseColors, uint8_t* Remap)`, with the two
buffers after the call as the result. -/
def MakeGoodRemap (qsort : List Nat → List Nat) (BaseColors Remap : Nat → Nat) :
    MakeGoodRemap.Buffers :=
  let Remap1 := MakeGoodRemap.identity Remap
  let color0 := BaseColors 0
  let Remap2 := MakeGoodRemap.firstLoop BaseColors color0 255 1 Remap1
  if Remap2 0 = 0 then
    MakeGoodRemap.scan (qsort (MakeGoodRemap.sortcopy BaseColors)) color0 255
      ⟨BaseColors, Remap2⟩
  else ⟨BaseColors, Remap2⟩

/-- What the C standard promises of `qsort` with the comparator `sortforremap`:
the result is a rearrangement of the input in which no entry compares greater
than a later one. -/
def SortsForRemap (qsort : List Nat → List Nat) : Prop :=
  ∀ l : List Nat, (qsort l).Perm l ∧ (qsort l).Pairwise (fun a b => sortforremap a b ≤ 0)

/-- A reference implementation of `qsort` with `sortforremap`: insertion
sort. -/
def refQsort32 (l : List Nat) : List Nat :=
  l.insertionSort (fun a b => decide (sortforremap a b ≤ 0) = true)

/-- A palette with zero high bytes whose only two entries of the same colour
are 209 and 229, as in the PLAYPAL of Hexen. -/
def hexenLike (i : Nat) : Nat := if i = 229 then 209 else i % 256

/-- A palette whose entry 1 has the red, green and blue bytes of entry 0 and
the high byte 255; the other entries have colours of their own and the high
byte 0. -/
def highByteTwin (i : Nat) : Nat := if i = 0 then 0 else if i = 1 then 4278190080 else i % 256

/-- A palette with zero high bytes whose entry 7 is black like entry 0; the
other entries have colours of their own. -/
def blackAtSeven (i : Nat) : Nat := if i = 7 then 0 else i % 256

/-! ## Colour space conversion

`RGBtoHSV` and `HSVtoRGB` compute in `float`. A finite `float` is modelled by
the rational number it stands for, and every operation rounds its exact result
to the nearest IEEE binary32 number, ties to even, one operation at a time. An
operation whose result is not a finite number (overflow, division by zero) and
a conversion to `int` that is out of range give `none`. -/

/-- The power `2^e` for an integer `e`. -/
def Binary32.pow2 (e : Int) : ℚ :=
  if 0 ≤ e then ((2 ^ e.toNat : Nat) : ℚ) else 1 / ((2 ^ (-e).toNat : Nat) : ℚ)

/-- The absolute value of a rational number. -/
def Binary32.abs (x : ℚ) : ℚ := if x < 0 then -x else x

/-- The number of times that `n` can be halved before it is below 2, which is
the binary logarithm of `n ≥ 1` rounded down; `fuel ≥ n` is enough. -/
def Binary32.log2 : Nat → Nat → Nat
  | 0, _ => 0
  | fuel + 1, n => if n < 2 then 0 else Binary32.log2 fuel (n / 2) + 1

/-- The binary exponent of `x ≠ 0`: the `e` with `2^e ≤ |x| < 2^(e+1)`. -/
def Binary32.exponent (x : ℚ) : Int :=
  let e0 : Int := (Binary32.log2 x.num.natAbs x.num.natAbs : Int) -
    (Binary32.log2 x.den x.den : Int)
  if Binary32.pow2 e0 ≤ Binary32.abs x then e0 else e0 - 1

/-- The integer nearest to `q`, the even one when two are equally near. -/
def Binary32.roundEven (q : ℚ) : Int :=
  let n : Int := Int.floor q
  let d : ℚ := q - n
  if d < 1 / 2 then n
  else if 1 / 2 < d then n + 1
  else if n % 2 = 0 then n
  else n + 1

/-- The binary32 number nearest to `x`, ties to even: 24 significant bits, the
least exponent `-126` (below it the numbers are the multiples of `2^-149`), and
no finite result from `2^128` on. -/
def Binary32.round (x : ℚ) : Option ℚ :=
  if x = 0 then some 0
  else
    let e : Int := max (Binary32.exponent x) (-126)
    let ulp : ℚ := Binary32.pow2 (e - 23)
    let y : ℚ := (Binary32.roundEven (x / ulp) : ℚ) * ulp
    if Binary32.abs y < Binary32.pow2 128 then some y else none

/-- The sum `a + b` of two `float`. -/
def Binary32.add (a b : ℚ) : Option ℚ := Binary32.round (a + b)

/-- The difference `a - b` of two `float`. -/
def Binary32.sub (a b : ℚ) : Option ℚ := Binary32.round (a - b)

/-- The product `a * b` of two `float`. -/
def Binary32.mul (a b : ℚ) : Option ℚ := Binary32.round (a * b)

/-- The quotient `a / b` of two `float`. -/
def Binary32.div (a b : ℚ) : Option ℚ := if b = 0 then none else Binary32.round (a / b)

/-- `void RGBtoHSV (float r, float g, float b, float *h, float *s, float *v)`;
the result is `(h, s, v)`. -/
def RGBtoHSV (r g b : ℚ) : Option (ℚ × ℚ × ℚ) :=
  if r = g ∧ g = b then some (0, 0, r)
  else
    let foo := if r < g then r else g
    let min := if foo < b then foo else b
    let foo := if r > g then r else g
    let max := if foo > b then foo else b
    let v := max
    (Binary32.sub max min).bind fun delta =>
    (Binary32.div delta max).bind fun s =>
    (if r = max then
        (Binary32.sub g b).bind fun x => Binary32.div x delta
      else if g = max then
        (Binary32.sub b r).bind fun x => (Binary32.div x delta).bind fun y => Binary32.add 2 y
      else
        (Binary32.sub r g).bind fun x =>
          (Binary32.div x delta).bind fun y => Binary32.add 4 y).bind fun h =>
    (Binary32.mul h 60).bind fun h =>
    (if h < 0 then Binary32.add h 360 else some h).bind fun h =>
    some (h, s, v)

/-- The `switch (i)` of `HSVtoRGB`. -/
def HSVtoRGB.sector (i : Int) (v p q t : ℚ) : ℚ × ℚ × ℚ :=
  if i = 0 then (v, t, p)
  else if i = 1 then (q, v, p)
  else if i = 2 then (p, v, t)
  else if i = 3 then (p, q, v)
  else if i = 4 then (t, p, v)
  else (v, p, q)

/-- `void HSVtoRGB (float *r, float *g, float *b, float h, float s, float v)`;
the result is `(r, g, b)`. -/
def HSVtoRGB (h s v : ℚ) : Option (ℚ × ℚ × ℚ) :=
  if s = 0 then some (v, v, v)
  else
    (Binary32.div h 60).bind fun h =>
    let i : Int := Int.floor h
    if i < -2147483648 ∨ 2147483647 < i then none
    else
      (Binary32.round (i : ℚ)).bind fun fi =>
      (Binary32.sub h fi).bind fun f =>
      (Binary32.sub 1 s).bind fun x =>
      (Binary32.mul v x).bind fun p =>
      (Binary32.mul s f).bind fun x =>
      (Binary32.sub 1 x).bind fun x =>
      (Binary32.mul v x).bind fun q =>
      (Binary32.sub 1 f).bind fun x =>
      (Binary32.mul s x).bind fun x =>
      (Binary32.sub 1 x).bind fun x =>
      (Binary32.mul v x).bind fun t =>
      some (HSVtoRGB.sector i v p q t)

/-! # Theorems -/

/-! ### Facts about `BestColor` -/

theorem PalEntry.r_lt (d : Nat) : PalEntry.r d < 256 := Nat.mod_lt _ (by norm_num)
theorem PalEntry.g_lt (d : Nat) : PalEntry.g d < 256 := Nat.mod_lt _ (by norm_num)
theorem PalEntry.b_lt (d : Nat) : PalEntry.b d < 256 := Nat.mod_lt _ (by norm_num)

theorem BestColor.dist_nonneg (pal : Nat → Nat) (r g b : Int) (i : Nat) :
    0 ≤ BestColor.dist pal r g b i := by
  unfold BestColor.dist
  exact add_nonneg (add_nonneg (mul_self_nonneg _) (mul_self_nonneg _)) (mul_self_nonneg _)

theorem BestColor.dist_eq_zero_iff (pal : Nat → Nat) (r g b : Int) (i : Nat) :
    BestColor.dist pal r g b i = 0 ↔
      (PalEntry.r (pal i) : Int) = r ∧ (PalEntry.g (pal i) : Int) = g ∧
        (PalEntry.b (pal i) : Int) = b := by
  unfold BestColor.dist
  constructor
  · intro h
    have hx := mul_self_nonneg (r - (PalEntry.r (pal i) : Int))
    have hy := mul_self_nonneg (g - (PalEntry.g (pal i) : Int))
    have hz := mul_self_nonneg (b - (PalEntry.b (pal i) : Int))
    have h1 : (r - (PalEntry.r (pal i) : Int)) * (r - (PalEntry.r (pal i) : Int)) = 0 := by
      simp only at h; omega
    have h2 : (g - (PalEntry.g (pal i) : Int)) * (g - (PalEntry.g (pal i) : Int)) = 0 := by
      simp only at h; omega
    have h3 : (b - (PalEntry.b (pal i) : Int)) * (b - (PalEntry.b (pal i) : Int)) = 0 := by
      simp only at h; omega
    rw [mul_self_eq_zero] at h1 h2 h3
    omega
  · rintro ⟨h1, h2, h3⟩
    simp [h1, h2, h3]

/-- With the query in `[0,255]` every distance is below the initial
`bestdist`. -/
theorem BestColor.dist_lt_init (pal : Nat → Nat) (r g b : Int) (i : Nat)
    (hr : 0 ≤ r ∧ r ≤ 255) (hg : 0 ≤ g ∧ g ≤ 255) (hb : 0 ≤ b ∧ b ≤ 255) :
    BestColor.dist pal r g b i < 257 * 257 + 257 * 257 + 257 * 257 := by
  unfold BestColor.dist
  have h1 := PalEntry.r_lt (pal i)
  have h2 := PalEntry.g_lt (pal i)
  have h3 := PalEntry.b_lt (pal i)
  have sq : ∀ x : Int, -255 ≤ x → x ≤ 255 → x * x ≤ 255 * 255 := by
    intro x h h'
    nlinarith
  have hx := sq (r - (PalEntry.r (pal i) : Int)) (by omega) (by omega)
  have hy := sq (g - (PalEntry.g (pal i) : Int)) (by omega) (by omega)
  have hz := sq (b - (PalEntry.b (pal i) : Int)) (by omega) (by omega)
  simp only
  omega

/-- The loop of `BestColor` started in a state that is either the initial one
or holds the best index of the part scanned so far ends with the best index of
the whole range. -/
theorem BestColor.loop_isNearest (pal : Nat → Nat) (r g b : Int) (first num : Nat)
    (hfn : first < num)
    (hinit : ∀ j, BestColor.dist pal r g b j < 257 * 257 + 257 * 257 + 257 * 257) :
    ∀ (fuel color bestcolor : Nat) (bestdist : Int),
      first ≤ color → color + fuel = num → 0 < bestdist →
      ((color = first ∧ bestcolor = first ∧
          bestdist = 257 * 257 + 257 * 257 + 257 * 257) ∨
        (IsNearest pal r g b first color bestcolor ∧
          bestdist = BestColor.dist pal r g b bestcolor)) →
      IsNearest pal r g b first num
        (BestColor.loop pal r g b num fuel color bestcolor bestdist) := by
  intro fuel
  induction fuel with
  | zero =>
    intro color bestcolor bestdist hfc hcn _ hst
    have hcn' : color = num := by omega
    subst hcn'
    rcases hst with ⟨h, _, _⟩ | ⟨h, _⟩
    · omega
    · simpa [BestColor.loop] using h
  | succ fuel ih =>
    intro color bestcolor bestdist hfc hcn hpos hst
    have hlt : color < num := by omega
    have h0 := BestColor.dist_nonneg pal r g b color
    simp only [BestColor.loop, hlt, if_true]
    by_cases hd : BestColor.dist pal r g b color < bestdist
    · simp only [hd, if_true]
      have hbelow : ∀ j, first ≤ j → j < color →
          BestColor.dist pal r g b color < BestColor.dist pal r g b j := by
        intro j hj1 hj2
        rcases hst with ⟨h, _, _⟩ | ⟨⟨_, _, hmin, _⟩, hbd⟩
        · omega
        · have := hmin j hj1 hj2
          omega
      by_cases hz : BestColor.dist pal r g b color = 0
      · simp only [hz, if_true]
        refine ⟨hfc, hlt, ?_, ?_⟩
        · intro j _ _
          have := BestColor.dist_nonneg pal r g b j
          omega
        · intro j hj1 hj2
          have := hbelow j hj1 hj2
          omega
      · simp only [hz, if_false]
        refine ih (color + 1) color _ (by omega) (by omega) (by omega) (Or.inr ⟨?_, rfl⟩)
        refine ⟨hfc, by omega, ?_, hbelow⟩
        intro j hj1 hj2
        by_cases hjc : j = color
        · subst hjc; exact le_refl _
        · exact le_of_lt (hbelow j hj1 (by omega))
    · simp only [hd, if_false]
      rcases hst with ⟨_, _, hbd⟩ | ⟨⟨hb1, hb2, hmin, hlow⟩, hbd⟩
      · have := hinit color
        omega
      · refine ih (color + 1) bestcolor bestdist (by omega) (by omega) hpos
          (Or.inr ⟨⟨hb1, by omega, ?_, hlow⟩, hbd⟩)
        intro j hj1 hj2
        by_cases hjc : j = color
        · subst hjc; omega
        · exact hmin j hj1 (by omega)

/-- On a non-empty range, with every distance below the initial `bestdist`,
`BestColor` returns the lowest nearest index of the range. -/
theorem BestColor.isNearest_of_init (pal : Nat → Nat) (r g b : Int) (first num : Nat)
    (hfn : first < num)
    (hinit : ∀ j, BestColor.dist pal r g b j < 257 * 257 + 257 * 257 + 257 * 257) :
    IsNearest pal r g b first num (BestColor pal r g b first num) := by
  unfold BestColor
  exact BestColor.loop_isNearest pal r g b first num hfn hinit (num - first) first first _
    (le_refl _) (by omega) (by norm_num) (Or.inl ⟨rfl, rfl, rfl⟩)

/-- C1: for a query in `[0,255]³` and a range `0 ≤ first < num ≤ 256`,
`BestColor` returns an index of `[first, num)` whose squared RGB distance to the
query is minimal over the range, and it is the lowest index of the range that
attains the minimum. -/
theorem BestColor_nearest_lowest (pal : Nat → Nat) (r g b : Int) (first num : Nat)
    (hr : 0 ≤ r ∧ r ≤ 255) (hg : 0 ≤ g ∧ g ≤ 255) (hb : 0 ≤ b ∧ b ≤ 255)
    (hfn : first < num) (hnum : num ≤ 256) :
    first ≤ BestColor pal r g b first num ∧ BestColor pal r g b first num < num ∧
    (∀ j, first ≤ j → j < num →
      BestColor.dist pal r g b (BestColor pal r g b first num) ≤ BestColor.dist pal r g b j) ∧
    (∀ j, first ≤ j → j < num →
      BestColor.dist pal r g b j ≤ BestColor.dist pal r g b (BestColor pal r g b first num) →
      BestColor pal r g b first num ≤ j) := by
  have _ := hnum
  obtain ⟨h1, h2, h3, h4⟩ := BestColor.isNearest_of_init pal r g b first num hfn
    (fun j => BestColor.dist_lt_init pal r g b j hr hg hb)
  refine ⟨h1, h2, h3, ?_⟩
  intro j hj1 _ hle
  by_contra hlt
  have := h4 j hj1 (by omega)
  omega

set_option maxRecDepth 100000 in
/-- C1, the scenario of the grey ramp: the query `(128,130,127)` over the whole
ramp is answered with index 128, which is the lowest nearest index. -/
theorem BestColor_nearest_lowest_witness :
    BestColor greyRamp 128 130 127 0 256 = 128 ∧
    (0 ≤ BestColor greyRamp 128 130 127 0 256 ∧ BestColor greyRamp 128 130 127 0 256 < 256 ∧
    (∀ j, 0 ≤ j → j < 256 →
      BestColor.dist greyRamp 128 130 127 (BestColor greyRamp 128 130 127 0 256) ≤
        BestColor.dist greyRamp 128 130 127 j) ∧
    (∀ j, 0 ≤ j → j < 256 →
      BestColor.dist greyRamp 128 130 127 j ≤
        BestColor.dist greyRamp 128 130 127 (BestColor greyRamp 128 130 127 0 256) →
      BestColor greyRamp 128 130 127 0 256 ≤ j)) :=
  ⟨by decide, BestColor_nearest_lowest greyRamp 128 130 127 0 256 (by decide) (by decide)
    (by decide) (by decide) (by decide)⟩

/-- C2: if some index of `[first, num)` holds exactly the colour `(r,g,b)`, then
`BestColor` returns the lowest index of `[first, num)` that holds exactly that
colour. -/
theorem BestColor_exact_lowest (pal : Nat → Nat) (r g b : Int) (first num j : Nat)
    (hj1 : first ≤ j) (hj2 : j < num)
    (hj : (PalEntry.r (pal j) : Int) = r ∧ (PalEntry.g (pal j) : Int) = g ∧
      (PalEntry.b (pal j) : Int) = b) :
    first ≤ BestColor pal r g b first num ∧ BestColor pal r g b first num < num ∧
    ((PalEntry.r (pal (BestColor pal r g b first num)) : Int) = r ∧
      (PalEntry.g (pal (BestColor pal r g b first num)) : Int) = g ∧
      (PalEntry.b (pal (BestColor pal r g b first num)) : Int) = b) ∧
    (∀ i, first ≤ i → i < num →
      ((PalEntry.r (pal i) : Int) = r ∧ (PalEntry.g (pal i) : Int) = g ∧
        (PalEntry.b (pal i) : Int) = b) →
      BestColor pal r g b first num ≤ i) := by
  have hr := PalEntry.r_lt (pal j)
  have hg := PalEntry.g_lt (pal j)
  have hb := PalEntry.b_lt (pal j)
  obtain ⟨h1, h2, h3, h4⟩ := BestColor.isNearest_of_init pal r g b first num (by omega)
    (fun i => BestColor.dist_lt_init pal r g b i (by omega) (by omega) (by omega))
  have hzero : BestColor.dist pal r g b (BestColor pal r g b first num) = 0 := by
    have h := h3 j hj1 hj2
    rw [(BestColor.dist_eq_zero_iff pal r g b j).2 hj] at h
    have := BestColor.dist_nonneg pal r g b (BestColor pal r g b first num)
    omega
  refine ⟨h1, h2, (BestColor.dist_eq_zero_iff pal r g b _).1 hzero, ?_⟩
  intro i hi1 _ hi
  by_contra hlt
  have h := h4 i hi1 (by omega)
  rw [(BestColor.dist_eq_zero_iff pal r g b i).2 hi, hzero] at h
  omega

/-- C2 at a palette holding the colour `(1,2,3)` at the indices 5 and 9 only:
the search over `[2, 12)` returns 5. -/
theorem BestColor_exact_lowest_witness :
    BestColor twoMatches 1 2 3 2 12 = 5 ∧
    (2 ≤ BestColor twoMatches 1 2 3 2 12 ∧ BestColor twoMatches 1 2 3 2 12 < 12 ∧
    ((PalEntry.r (twoMatches (BestColor twoMatches 1 2 3 2 12)) : Int) = 1 ∧
      (PalEntry.g (twoMatches (BestColor twoMatches 1 2 3 2 12)) : Int) = 2 ∧
      (PalEntry.b (twoMatches (BestColor twoMatches 1 2 3 2 12)) : Int) = 3) ∧
    (∀ i, 2 ≤ i → i < 12 →
      ((PalEntry.r (twoMatches i) : Int) = 1 ∧ (PalEntry.g (twoMatches i) : Int) = 2 ∧
        (PalEntry.b (twoMatches i) : Int) = 3) →
      BestColor twoMatches 1 2 3 2 12 ≤ i)) :=
  ⟨by decide, BestColor_exact_lowest twoMatches 1 2 3 2 12 9 (by decide) (by decide)
    (by decide)⟩

/-! ### The filling loops of `MakeRemap` -/

/-- The foreign entries that the second loop appends to the workspace. -/
theorem MakeRemap.filled_spec (BaseColors colors remap : Nat → Nat)
    (useful : Option (Nat → Nat)) (n : Nat) :
    (MakeRemap.filled BaseColors colors remap useful n).workspace =
        MakeRemap.fillBase BaseColors ++
          ((List.range n).filter (MakeRemap.isUseful useful)).map
            (MakeRemap.foreignItem colors) ∧
      (∀ x, (MakeRemap.filled BaseColors colors remap useful n).remap x =
        if x < n ∧ MakeRemap.isUseful useful x = false then 0 else remap x) ∧
      (MakeRemap.filled BaseColors colors remap useful n).j =
        255 + ((List.range n).filter (MakeRemap.isUseful useful)).length ∧
      (MakeRemap.filled BaseColors colors remap useful n).k =
        (((List.range n).filter (MakeRemap.isUseful useful)).length : Int) := by
  induction n with
  | zero => simp [MakeRemap.filled]
  | succ n ih =>
    obtain ⟨h1, h2, h3, h4⟩ := ih
    have hstep : MakeRemap.filled BaseColors colors remap useful (n + 1) =
        MakeRemap.fillStep colors useful
          (MakeRemap.filled BaseColors colors remap useful n) n := by
      simp [MakeRemap.filled, List.range_succ, List.foldl_append]
    rw [hstep]
    by_cases hu : MakeRemap.isUseful useful n = true
    · simp only [MakeRemap.fillStep, hu, if_true, List.range_succ, List.filter_append,
        List.filter_cons, List.filter_nil, List.map_append, List.map_cons, List.map_nil,
        List.length_append, List.length_cons, List.length_nil, h1, h3, h4]
      refine ⟨by simp, ?_, by omega, by push_cast; ring⟩
      intro x
      rw [h2 x]
      by_cases hx : x = n
      · subst hx; simp [hu]
      · have : (x < n + 1) = (x < n) := by
          apply propext; omega
        simp only [this]
    · simp only [Bool.not_eq_true] at hu
      simp only [MakeRemap.fillStep, hu, List.range_succ, List.filter_append,
        List.filter_cons, List.filter_nil, List.append_nil, h1, h3, h4]
      refine ⟨by simp, ?_, by simp, by simp⟩
      intro x
      by_cases hx : x = n
      · subst hx; simp [hu]
      · have : (x < n + 1) = (x < n) := by
          apply propext; omega
        simp only [Bool.false_eq_true, if_false, this]
        rw [Function.update_noteq hx, h2 x]

/-! ### The exact-match loop of `MakeRemap` -/

theorem MakeRemap.entry_set (l : List RemappingWork) (i p : Nat) (a : RemappingWork)
    (hi : i < l.length) :
    MakeRemap.entry (l.set i a) p = if p = i then a else MakeRemap.entry l p := by
  unfold MakeRemap.entry
  simp only [List.getD_eq_getElem?_getD, List.getElem?_set]
  by_cases h : p = i
  · subst h; simp [hi]
  · have h' : ¬ i = p := fun e => h e.symm
    simp [h, h']

theorem MakeRemap.entry_eq_getElem (l : List RemappingWork) (p : Nat) (hp : p < l.length) :
    MakeRemap.entry l p = l[p] := by
  unfold MakeRemap.entry
  exact List.getD_eq_getElem _ _ hp

theorem MakeRemap.entry_mem (l : List RemappingWork) (p : Nat) (hp : p < l.length) :
    MakeRemap.entry l p ∈ l := by
  rw [MakeRemap.entry_eq_getElem l p hp]
  exact List.getElem_mem hp

theorem MakeRemap.entry_of_le (l : List RemappingWork) (p : Nat) (hp : l.length ≤ p) :
    MakeRemap.entry l p = ⟨0, 0, 0⟩ := by
  unfold MakeRemap.entry
  simp [List.getD_eq_getElem?_getD, List.getElem?_eq_none hp]

/-- Changing a foreign entry's flag from 1 to 2 lowers the number of entries
flagged 1 by one. -/
theorem MakeRemap.countP_set_flag (l : List RemappingWork) (i : Nat) (hi : i < l.length)
    (h1 : (MakeRemap.entry l i).Foreign = 1) :
    (((l.set i { MakeRemap.entry l i with Foreign := 2 }).countP
        (fun x => x.Foreign == 1) : Nat) : Int) =
      ((l.countP (fun x => x.Foreign == 1) : Nat) : Int) - 1 := by
  rw [List.countP_set _ _ _ _ hi]
  have hmem : l[i] ∈ l := List.getElem_mem hi
  have hli : l[i].Foreign = 1 := by
    rw [← MakeRemap.entry_eq_getElem l i hi]; exact h1
  have hpos : 0 < l.countP (fun x => x.Foreign == 1) :=
    List.countP_pos_iff.2 ⟨l[i], hmem, by simp [hli]⟩
  simp only [hli, beq_self_eq_true, if_true]
  have : ((2 : Nat) == 1) = false := by decide
  simp only [this, Bool.false_eq_true, if_false]
  omega

/-- One pass of the exact-match loop from position `i` to the end keeps
`MakeRemap.ExactInv`. -/
theorem MakeRemap.exactLoop_inv (ws : List RemappingWork) (remap0 : Nat → Nat) (j : Nat)
    (hj : j + 1 = ws.length)
    (hF : ∀ p, (MakeRemap.entry ws p).Foreign = 0 ∨ (MakeRemap.entry ws p).Foreign = 1)
    (hinj : ∀ p q, (MakeRemap.entry ws p).Foreign = 1 → (MakeRemap.entry ws q).Foreign = 1 →
      (MakeRemap.entry ws p).PalEntry = (MakeRemap.entry ws q).PalEntry → p = q) :
    ∀ (fuel i : Nat) (st : MakeRemap.State), j ≤ i + fuel →
      MakeRemap.ExactInv ws remap0 i st →
      ∃ i', j ≤ i' ∧ MakeRemap.ExactInv ws remap0 i' (MakeRemap.exactLoop j fuel i st) := by
  intro fuel
  induction fuel with
  | zero =>
    intro i st hle hinv
    exact ⟨i, by omega, by simpa [MakeRemap.exactLoop] using hinv⟩
  | succ fuel ih =>
    intro i st hle hinv
    by_cases hij : i < j
    · obtain ⟨hlen, hent, hR1, hR2, hK⟩ := hinv
      have hwi : MakeRemap.entry st.workspace i = MakeRemap.entry ws i := by
        rw [hent i]; simp
      have hwn : MakeRemap.entry st.workspace (i + 1) = MakeRemap.entry ws (i + 1) := by
        rw [hent (i + 1)]; simp
      have hwi' : st.workspace.getD i ⟨0, 0, 0⟩ = MakeRemap.entry ws i := hwi
      have hwn' : st.workspace.getD (i + 1) ⟨0, 0, 0⟩ = MakeRemap.entry ws (i + 1) := hwn
      by_cases hm : MakeRemap.Matched ws i
      · -- the test succeeds at `i`
        obtain ⟨_, hm1, hm2, hm3⟩ := id hm
        have hstep : MakeRemap.exactLoop j (fuel + 1) i st =
            MakeRemap.exactLoop j fuel (i + 1 + 1)
              { st with
                remap := Function.update st.remap (MakeRemap.entry ws i).PalEntry
                  (MakeRemap.entry ws (i + 1)).PalEntry
                workspace := st.workspace.set i { MakeRemap.entry ws i with Foreign := 2 }
                k := st.k - 1 } := by
          simp only [MakeRemap.exactLoop, hij, if_true, hwi', hwn', hm1, hm2, hm3, ne_eq,
            not_false_eq_true, and_self]
        rw [hstep]
        have hfi : (MakeRemap.entry ws i).Foreign = 1 := by
          rcases hF i with h | h
          · exact absurd h hm1
          · exact h
        have hnm : ¬ MakeRemap.Matched ws (i + 1) := fun h => h.2.1 hm2
        apply ih (i + 1 + 1) _ (by omega)
        refine ⟨by simpa using hlen, ?_, ?_, ?_, ?_⟩
        · intro p
          show MakeRemap.entry (st.workspace.set i _) p = _
          rw [MakeRemap.entry_set _ _ _ _ (by omega)]
          by_cases hp : p = i
          · subst hp
            have : p < p + 1 + 1 := by omega
            simp [hm, this]
          · by_cases hp1 : p = i + 1
            · subst hp1; simp [hnm, hwn]
            · simp only [hp, if_false, hent p]
              have : (p < i + 1 + 1) = (p < i) := by
                apply propext; omega
              simp only [this]
        · intro p hp hpm
          show Function.update st.remap _ _ _ = _
          by_cases hpi : p = i
          · subst hpi; simp
          · have hpi1 : p ≠ i + 1 := fun e => hnm (e ▸ hpm)
            have hfp : (MakeRemap.entry ws p).Foreign = 1 := by
              rcases hF p with h | h
              · exact absurd h hpm.2.1
              · exact h
            have hne : (MakeRemap.entry ws p).PalEntry ≠ (MakeRemap.entry ws i).PalEntry :=
              fun e => hpi (hinj p i hfp hfi e)
            rw [Function.update_noteq hne]
            exact hR1 p (by omega) hpm
        · intro x hx
          show Function.update st.remap _ _ _ = _
          have hne : x ≠ (MakeRemap.entry ws i).PalEntry := fun e => hx i (by omega) hm e.symm
          rw [Function.update_noteq hne]
          exact hR2 x (fun p hp hpm => hx p (by omega) hpm)
        · show st.k - 1 = _
          rw [hK]
          have := MakeRemap.countP_set_flag st.workspace i (by omega) (by rw [hwi]; exact hfi)
          rw [hwi] at this
          exact this.symm
      · -- the test fails at `i`
        have hstep : MakeRemap.exactLoop j (fuel + 1) i st =
            MakeRemap.exactLoop j fuel (i + 1) st := by
          simp only [MakeRemap.exactLoop, hij, if_true, hwi', hwn']
          by_cases h1 : (MakeRemap.entry ws i).Foreign ≠ 0
          · have h2 : ¬ ((MakeRemap.entry ws (i + 1)).Foreign = 0 ∧
                (MakeRemap.entry ws i).Color = (MakeRemap.entry ws (i + 1)).Color) :=
              fun h => hm ⟨by omega, h1, h.1, h.2⟩
            simp only [h1, h2, if_true, if_false, ne_eq, not_false_eq_true]
          · simp only [h1, if_false]
        rw [hstep]
        apply ih (i + 1) st (by omega)
        refine ⟨hlen, ?_, ?_, ?_, hK⟩
        · intro p
          rw [hent p]
          by_cases hp : p = i
          · subst hp; simp [hm]
          · have : (p < i + 1) = (p < i) := by
              apply propext; omega
            simp only [this]
        · intro p hp hpm
          have hpi : p ≠ i := fun e => hm (e ▸ hpm)
          exact hR1 p (by omega) hpm
        · intro x hx
          exact hR2 x (fun p hp hpm => hx p (by omega) hpm)
    · refine ⟨i, by omega, ?_⟩
      simpa [MakeRemap.exactLoop, hij] using hinv

theorem MakeRemap.exactLoop_j (j : Nat) :
    ∀ (fuel i : Nat) (st : MakeRemap.State), (MakeRemap.exactLoop j fuel i st).j = st.j := by
  intro fuel
  induction fuel with
  | zero => intro i st; rfl
  | succ fuel ih =>
    intro i st
    simp only [MakeRemap.exactLoop]
    split
    · split
      · split
        · rw [ih]
        · rw [ih]
      · rw [ih]
    · rfl

/-! ### The near-match loop of `MakeRemap` -/

/-- One pass of the near-match loop from position `i` to the end keeps
`MakeRemap.NearInv`. -/
theorem MakeRemap.nearLoop_inv (BaseColors : Nat → Nat) (w : List RemappingWork)
    (remap3 : Nat → Nat) (j : Nat)
    (hinj : ∀ p q, (MakeRemap.entry w p).Foreign = 1 → (MakeRemap.entry w q).Foreign = 1 →
      (MakeRemap.entry w p).PalEntry = (MakeRemap.entry w q).PalEntry → p = q) :
    ∀ (fuel i : Nat) (st : MakeRemap.State), j + 1 ≤ i + fuel →
      MakeRemap.NearInv BaseColors w remap3 i st →
      ∃ i', j + 1 ≤ i' ∧
        MakeRemap.NearInv BaseColors w remap3 i' (MakeRemap.nearLoop BaseColors j fuel i st) := by
  intro fuel
  induction fuel with
  | zero =>
    intro i st hle hinv
    exact ⟨i, by omega, by simpa [MakeRemap.nearLoop] using hinv⟩
  | succ fuel ih =>
    intro i st hle hinv
    by_cases hij : i ≤ j
    · obtain ⟨hw, hN1, hN2⟩ := hinv
      have hwi : st.workspace.getD i ⟨0, 0, 0⟩ = MakeRemap.entry w i := by
        rw [hw]; rfl
      by_cases hf : (MakeRemap.entry w i).Foreign = 1
      · have hstep : MakeRemap.nearLoop BaseColors j (fuel + 1) i st =
            MakeRemap.nearLoop BaseColors j fuel (i + 1)
              { st with
                remap := Function.update st.remap (MakeRemap.entry w i).PalEntry
                  (MakeRemap.nearest BaseColors (MakeRemap.entry w i)) } := by
          simp only [MakeRemap.nearLoop, hij, if_true, hwi, hf, MakeRemap.nearest]
        rw [hstep]
        apply ih (i + 1) _ (by omega)
        refine ⟨hw, ?_, ?_⟩
        · intro p hp hpf
          show Function.update st.remap _ _ _ = _
          by_cases hpi : p = i
          · subst hpi; simp
          · have hne : (MakeRemap.entry w p).PalEntry ≠ (MakeRemap.entry w i).PalEntry :=
              fun e => hpi (hinj p i hpf hf e)
            rw [Function.update_noteq hne]
            exact hN1 p (by omega) hpf
        · intro x hx
          show Function.update st.remap _ _ _ = _
          have hne : x ≠ (MakeRemap.entry w i).PalEntry := fun e => hx i (by omega) hf e.symm
          rw [Function.update_noteq hne]
          exact hN2 x (fun p hp hpf => hx p (by omega) hpf)
      · have hstep : MakeRemap.nearLoop BaseColors j (fuel + 1) i st =
            MakeRemap.nearLoop BaseColors j fuel (i + 1) st := by
          simp only [MakeRemap.nearLoop, hij, if_true, hwi, hf, if_false]
        rw [hstep]
        apply ih (i + 1) st (by omega)
        refine ⟨hw, ?_, ?_⟩
        · intro p hp hpf
          have hpi : p ≠ i := fun e => hf (e ▸ hpf)
          exact hN1 p (by omega) hpf
        · intro x hx
          exact hN2 x (fun p hp hpf => hx p (by omega) hpf)
    · refine ⟨i, by omega, ?_⟩
      simpa [MakeRemap.nearLoop, hij] using hinv

/-! ### Both matching loops of `MakeRemap` -/

theorem MakeRemap.entry_foreign_lt (l : List RemappingWork) (p : Nat)
    (h : (MakeRemap.entry l p).Foreign = 1) : p < l.length := by
  by_contra hp
  rw [MakeRemap.entry_of_le l p (by omega)] at h
  exact absurd h (by decide)

/-- What the exact-match loop followed by the near-match loop leaves in `remap`,
for a sorted workspace `ws` whose foreign entries have distinct palette
indices: a foreign entry that is directly followed by a base entry of its
colour gets that base entry, any other foreign entry gets the result of
`BestColor`, and no other element of `remap` changes. -/
theorem MakeRemap.loops_spec (BaseColors : Nat → Nat) (ws : List RemappingWork)
    (remap0 : Nat → Nat) (j : Nat) (k0 : Int)
    (hj : j + 1 = ws.length)
    (hk : k0 = (ws.countP (fun x => x.Foreign == 1) : Int))
    (hF : ∀ p, (MakeRemap.entry ws p).Foreign = 0 ∨ (MakeRemap.entry ws p).Foreign = 1)
    (hinj : ∀ p q, (MakeRemap.entry ws p).Foreign = 1 → (MakeRemap.entry ws q).Foreign = 1 →
      (MakeRemap.entry ws p).PalEntry = (MakeRemap.entry ws q).PalEntry → p = q)
    (R : Nat → Nat)
    (hR : R =
      if (MakeRemap.exactLoop j j 0 ⟨ws, remap0, j, k0⟩).k > 0 then
        (MakeRemap.nearLoop BaseColors (MakeRemap.exactLoop j j 0 ⟨ws, remap0, j, k0⟩).j
          ((MakeRemap.exactLoop j j 0 ⟨ws, remap0, j, k0⟩).j + 1) 0
          (MakeRemap.exactLoop j j 0 ⟨ws, remap0, j, k0⟩)).remap
      else (MakeRemap.exactLoop j j 0 ⟨ws, remap0, j, k0⟩).remap) :
    (∀ p, (MakeRemap.entry ws p).Foreign = 1 →
      R (MakeRemap.entry ws p).PalEntry =
        if MakeRemap.Matched ws p then (MakeRemap.entry ws (p + 1)).PalEntry
        else MakeRemap.nearest BaseColors (MakeRemap.entry ws p)) ∧
    (∀ x, (∀ p, (MakeRemap.entry ws p).Foreign = 1 → (MakeRemap.entry ws p).PalEntry ≠ x) →
      R x = remap0 x) := by
  have hinit : MakeRemap.ExactInv ws remap0 0 ⟨ws, remap0, j, k0⟩ := by
    refine ⟨rfl, ?_, ?_, ?_, hk⟩
    · intro p; simp
    · intro p hp; omega
    · intro x _; rfl
  obtain ⟨i', hi', hlen, hent, hR1, hR2, hK⟩ :=
    MakeRemap.exactLoop_inv ws remap0 j hj hF hinj j 0 _ (by omega) hinit
  have hj3 := MakeRemap.exactLoop_j j j 0 ⟨ws, remap0, j, k0⟩
  generalize MakeRemap.exactLoop j j 0 ⟨ws, remap0, j, k0⟩ = st3 at *
  have hlt : ∀ p, MakeRemap.Matched ws p → p < i' := fun p hm => by
    have := hm.1; omega
  have hfm : ∀ p, MakeRemap.Matched ws p → (MakeRemap.entry ws p).Foreign = 1 := by
    intro p hm
    rcases hF p with h | h
    · exact absurd h hm.2.1
    · exact h
  -- the entries of the workspace after the exact-match loop
  have hent' : ∀ p, MakeRemap.entry st3.workspace p =
      if MakeRemap.Matched ws p then { MakeRemap.entry ws p with Foreign := 2 }
      else MakeRemap.entry ws p := by
    intro p
    rw [hent p]
    by_cases hm : MakeRemap.Matched ws p
    · simp [hm, hlt p hm]
    · simp [hm]
  have hw1 : ∀ p, (MakeRemap.entry st3.workspace p).Foreign = 1 →
      (MakeRemap.entry ws p).Foreign = 1 ∧ ¬ MakeRemap.Matched ws p ∧
        MakeRemap.entry st3.workspace p = MakeRemap.entry ws p := by
    intro p h
    rw [hent' p] at h ⊢
    by_cases hm : MakeRemap.Matched ws p
    · simp [hm] at h
    · simp only [hm, if_false] at h ⊢
      exact ⟨h, not_false, trivial⟩
  have hw2 : ∀ p, (MakeRemap.entry ws p).Foreign = 1 → ¬ MakeRemap.Matched ws p →
      MakeRemap.entry st3.workspace p = MakeRemap.entry ws p := by
    intro p _ hm
    rw [hent' p]; simp [hm]
  have hinjw : ∀ p q, (MakeRemap.entry st3.workspace p).Foreign = 1 →
      (MakeRemap.entry st3.workspace q).Foreign = 1 →
      (MakeRemap.entry st3.workspace p).PalEntry = (MakeRemap.entry st3.workspace q).PalEntry →
      p = q := by
    intro p q hp hq he
    obtain ⟨hp1, _, hp3⟩ := hw1 p hp
    obtain ⟨hq1, _, hq3⟩ := hw1 q hq
    rw [hp3, hq3] at he
    exact hinj p q hp1 hq1 he
  by_cases hkpos : st3.k > 0
  · rw [if_pos hkpos, hj3] at hR
    have hninit : MakeRemap.NearInv BaseColors st3.workspace st3.remap 0 st3 :=
      ⟨rfl, fun p hp => by omega, fun x _ => rfl⟩
    obtain ⟨i'', hi'', _, hN1, hN2⟩ :=
      MakeRemap.nearLoop_inv BaseColors st3.workspace st3.remap j hinjw (j + 1) 0 st3
        (by omega) hninit
    rw [← hR] at hN1 hN2
    constructor
    · intro p hp
      by_cases hm : MakeRemap.Matched ws p
      · rw [if_pos hm, ← hR1 p (hlt p hm) hm]
        apply hN2
        intro q _ hq he
        obtain ⟨hq1, hq2, hq3⟩ := hw1 q hq
        rw [hq3] at he
        have := hinj q p hq1 hp he
        subst this
        exact hq2 hm
      · rw [if_neg hm]
        have hpl := MakeRemap.entry_foreign_lt ws p hp
        have h := hN1 p (by omega) (by rw [hw2 p hp hm]; exact hp)
        rw [hw2 p hp hm] at h
        exact h
    · intro x hx
      rw [hN2 x (fun q _ hq he => hx q (hw1 q hq).1 (by rw [← (hw1 q hq).2.2]; exact he))]
      exact hR2 x (fun q _ hm => hx q (hfm q hm))
  · rw [if_neg hkpos] at hR
    have hzero : st3.workspace.countP (fun x => x.Foreign == 1) = 0 := by
      rw [hK] at hkpos
      omega
    have hall : ∀ p, (MakeRemap.entry ws p).Foreign = 1 → MakeRemap.Matched ws p := by
      intro p hp
      by_contra hm
      have hpl := MakeRemap.entry_foreign_lt ws p hp
      have hmem := MakeRemap.entry_mem st3.workspace p (by omega)
      have hpos : 0 < st3.workspace.countP (fun x => x.Foreign == 1) :=
        List.countP_pos_iff.2 ⟨_, hmem, by rw [hw2 p hp hm]; simp [hp]⟩
      omega
    rw [hR]
    constructor
    · intro p hp
      rw [if_pos (hall p hp)]
      exact hR1 p (hlt p (hall p hp)) (hall p hp)
    · intro x hx
      exact hR2 x (fun q _ hm => hx q (hfm q hm))

/-! ### The workspace that `MakeRemap` sorts -/

theorem MakeRemap.mem_fillBase (BaseColors : Nat → Nat) (x : RemappingWork) :
    x ∈ MakeRemap.fillBase BaseColors ↔
      ∃ t, 1 ≤ t ∧ t ≤ 255 ∧ x = ⟨BaseColors t &&& 0xFFFFFF, 0, t⟩ := by
  unfold MakeRemap.fillBase
  simp only [List.mem_map, List.mem_range]
  constructor
  · rintro ⟨t, ht, rfl⟩
    exact ⟨t + 1, by omega, by omega, by rw [Nat.mod_eq_of_lt (by omega)]⟩
  · rintro ⟨t, ht1, ht2, rfl⟩
    refine ⟨t - 1, by omega, ?_⟩
    have : t - 1 + 1 = t := by omega
    rw [this, Nat.mod_eq_of_lt (by omega)]

theorem MakeRemap.mem_filled (BaseColors colors remap : Nat → Nat)
    (useful : Option (Nat → Nat)) (n : Nat) (x : RemappingWork) :
    x ∈ (MakeRemap.filled BaseColors colors remap useful n).workspace ↔
      (∃ t, 1 ≤ t ∧ t ≤ 255 ∧ x = ⟨BaseColors t &&& 0xFFFFFF, 0, t⟩) ∨
      (∃ i, i < n ∧ MakeRemap.isUseful useful i = true ∧ x = MakeRemap.foreignItem colors i) := by
  rw [(MakeRemap.filled_spec BaseColors colors remap useful n).1, List.mem_append,
    MakeRemap.mem_fillBase]
  simp only [List.mem_map, List.mem_filter, List.mem_range]
  constructor
  · rintro (h | ⟨i, ⟨hi, hu⟩, rfl⟩)
    · exact Or.inl h
    · exact Or.inr ⟨i, hi, hu, rfl⟩
  · rintro (h | ⟨i, hi, hu, rfl⟩)
    · exact Or.inl h
    · exact Or.inr ⟨i, ⟨hi, hu⟩, rfl⟩

theorem MakeRemap.nodup_filled (BaseColors colors remap : Nat → Nat)
    (useful : Option (Nat → Nat)) (n : Nat) (hn : n ≤ 256) :
    (MakeRemap.filled BaseColors colors remap useful n).workspace.Nodup := by
  rw [(MakeRemap.filled_spec BaseColors colors remap useful n).1]
  refine List.Nodup.append ?_ ?_ ?_
  · unfold MakeRemap.fillBase
    refine List.Nodup.map_on ?_ (List.nodup_range 255)
    intro a ha b hb hab
    simp only [List.mem_range] at ha hb
    have h := congrArg RemappingWork.PalEntry hab
    simp only at h
    rw [Nat.mod_eq_of_lt (by omega), Nat.mod_eq_of_lt (by omega)] at h
    omega
  · refine List.Nodup.map_on ?_ ((List.nodup_range n).filter _)
    intro a ha b hb hab
    simp only [List.mem_filter, List.mem_range] at ha hb
    have h := congrArg RemappingWork.PalEntry hab
    simp only [MakeRemap.foreignItem] at h
    rw [Nat.mod_eq_of_lt (by omega), Nat.mod_eq_of_lt (by omega)] at h
    exact h
  · intro x hx hx'
    rw [MakeRemap.mem_fillBase] at hx
    obtain ⟨t, _, _, rfl⟩ := hx
    simp only [List.mem_map] at hx'
    obtain ⟨i, _, hi⟩ := hx'
    have h := congrArg RemappingWork.Foreign hi
    simp [MakeRemap.foreignItem] at h

theorem MakeRemap.countP_filled (BaseColors colors remap : Nat → Nat)
    (useful : Option (Nat → Nat)) (n : Nat) :
    (MakeRemap.filled BaseColors colors remap useful n).workspace.countP
        (fun x => x.Foreign == 1) =
      ((List.range n).filter (MakeRemap.isUseful useful)).length := by
  rw [(MakeRemap.filled_spec BaseColors colors remap useful n).1, List.countP_append]
  have h1 : (MakeRemap.fillBase BaseColors).countP (fun x => x.Foreign == 1) = 0 := by
    rw [List.countP_eq_zero]
    intro x hx
    rw [MakeRemap.mem_fillBase] at hx
    obtain ⟨t, _, _, rfl⟩ := hx
    simp
  have h2 : ∀ l : List Nat, (l.map (MakeRemap.foreignItem colors)).countP
      (fun x => x.Foreign == 1) = l.length := by
    intro l
    induction l with
    | nil => rfl
    | cons a l ih => simp [List.countP_cons, ih, MakeRemap.foreignItem]
  rw [h1, h2]
  omega

theorem MakeRemap.length_filled (BaseColors colors remap : Nat → Nat)
    (useful : Option (Nat → Nat)) (n : Nat) :
    (MakeRemap.filled BaseColors colors remap useful n).workspace.length =
      (MakeRemap.filled BaseColors colors remap useful n).j := by
  obtain ⟨h1, _, h3, _⟩ := MakeRemap.filled_spec BaseColors colors remap useful n
  rw [h1, h3]
  simp [MakeRemap.fillBase]

/-! ### `MakeRemap` as a whole -/

/-- In a list without repetitions, equal entries sit at equal positions. -/
theorem MakeRemap.entry_inj (l : List RemappingWork) (hnd : l.Nodup) (p q : Nat)
    (hp : p < l.length) (hq : q < l.length)
    (h : MakeRemap.entry l p = MakeRemap.entry l q) : p = q := by
  rw [MakeRemap.entry_eq_getElem l p hp, MakeRemap.entry_eq_getElem l q hq] at h
  exact (hnd.getElem_inj_iff).1 h

/-- What `MakeRemap` leaves in `remap`, told by the positions of the sorted
workspace, whenever `qsort` returned a rearrangement of the workspace. -/
theorem MakeRemap.result_spec (qsort : List RemappingWork → List RemappingWork)
    (BaseColors colors remap : Nat → Nat) (useful : Option (Nat → Nat)) (n : Nat)
    (hn : n ≤ 256)
    (hperm : (qsort (MakeRemap.filled BaseColors colors remap useful n).workspace).Perm
      (MakeRemap.filled BaseColors colors remap useful n).workspace) :
    (∀ p, (MakeRemap.entry
          (qsort (MakeRemap.filled BaseColors colors remap useful n).workspace) p).Foreign = 1 →
      MakeRemap qsort BaseColors colors remap useful n
          (MakeRemap.entry
            (qsort (MakeRemap.filled BaseColors colors remap useful n).workspace) p).PalEntry =
        if MakeRemap.Matched
            (qsort (MakeRemap.filled BaseColors colors remap useful n).workspace) p then
          (MakeRemap.entry
            (qsort (MakeRemap.filled BaseColors colors remap useful n).workspace) (p + 1)).PalEntry
        else MakeRemap.nearest BaseColors (MakeRemap.entry
          (qsort (MakeRemap.filled BaseColors colors remap useful n).workspace) p)) ∧
    (∀ x, (∀ p, (MakeRemap.entry
          (qsort (MakeRemap.filled BaseColors colors remap useful n).workspace) p).Foreign = 1 →
        (MakeRemap.entry
          (qsort (MakeRemap.filled BaseColors colors remap useful n).workspace) p).PalEntry ≠ x) →
      MakeRemap qsort BaseColors colors remap useful n x =
        (MakeRemap.filled BaseColors colors remap useful n).remap x) := by
  have hlen := MakeRemap.length_filled BaseColors colors remap useful n
  have hj := (MakeRemap.filled_spec BaseColors colors remap useful n).2.2.1
  have hk := (MakeRemap.filled_spec BaseColors colors remap useful n).2.2.2
  have hcnt := MakeRemap.countP_filled BaseColors colors remap useful n
  have hnd := MakeRemap.nodup_filled BaseColors colors remap useful n hn
  have hmem := MakeRemap.mem_filled BaseColors colors remap useful n
  generalize hws : qsort (MakeRemap.filled BaseColors colors remap useful n).workspace = ws
    at hperm ⊢
  have hwsmem : ∀ x, x ∈ ws ↔ _ := fun x => (hperm.mem_iff).trans (hmem x)
  have hforeign : ∀ p, (MakeRemap.entry ws p).Foreign = 1 →
      ∃ i, i < n ∧ MakeRemap.isUseful useful i = true ∧
        MakeRemap.entry ws p = MakeRemap.foreignItem colors i := by
    intro p hp
    have hpl := MakeRemap.entry_foreign_lt ws p hp
    rcases (hwsmem _).1 (MakeRemap.entry_mem ws p hpl) with ⟨t, _, _, ht⟩ | h
    · rw [ht] at hp
      simp at hp
    · exact h
  apply MakeRemap.loops_spec BaseColors ws
    (MakeRemap.filled BaseColors colors remap useful n).remap
    ((MakeRemap.filled BaseColors colors remap useful n).j - 1)
    (MakeRemap.filled BaseColors colors remap useful n).k
  · rw [hperm.length_eq, hlen]
    omega
  · rw [hperm.countP_eq, hcnt, hk]
  · intro p
    by_cases hpl : p < ws.length
    · rcases (hwsmem _).1 (MakeRemap.entry_mem ws p hpl) with ⟨t, _, _, ht⟩ | ⟨i, _, _, hi⟩
      · left; rw [ht]
      · right; rw [hi]; rfl
    · left
      rw [MakeRemap.entry_of_le ws p (by omega)]
  · intro p q hp hq he
    obtain ⟨i, hi, _, hpi⟩ := hforeign p hp
    obtain ⟨i', hi', _, hqi⟩ := hforeign q hq
    rw [hpi, hqi] at he
    simp only [MakeRemap.foreignItem] at he
    rw [Nat.mod_eq_of_lt (by omega), Nat.mod_eq_of_lt (by omega)] at he
    subst he
    exact MakeRemap.entry_inj ws ((hperm.nodup_iff).2 hnd) p q
      (MakeRemap.entry_foreign_lt ws p hp) (MakeRemap.entry_foreign_lt ws q hq)
      (by rw [hpi, hqi])
  · unfold MakeRemap
    simp only [hws]

theorem and_mask_eq_mod (x : Nat) : x &&& 0xFFFFFF = x % 16777216 :=
  Nat.and_pow_two_sub_one_eq_mod x 24

theorem MakeRemap.foreignItem_color_lt (colors : Nat → Nat) (i : Nat) :
    (MakeRemap.foreignItem colors i).Color < 16777216 := by
  simp only [MakeRemap.foreignItem, and_mask_eq_mod]
  omega

theorem MakeRemap.filled_color_lt (BaseColors colors remap : Nat → Nat)
    (useful : Option (Nat → Nat)) (n : Nat) :
    ∀ x ∈ (MakeRemap.filled BaseColors colors remap useful n).workspace,
      x.Color < 16777216 := by
  intro x hx
  rcases (MakeRemap.mem_filled BaseColors colors remap useful n x).1 hx with
    ⟨t, _, _, rfl⟩ | ⟨i, _, _, rfl⟩
  · simp only [and_mask_eq_mod]
    omega
  · exact MakeRemap.foreignItem_color_lt colors i

/-- On 24-bit colours `sortforremap2` orders by colour and, within one colour,
puts the larger `Foreign` flag first. -/
theorem sortforremap2_le_iff (a b : RemappingWork) (ha : a.Color < 16777216)
    (hb : b.Color < 16777216) :
    sortforremap2 a b ≤ 0 ↔
      a.Color < b.Color ∨ (a.Color = b.Color ∧ b.Foreign ≤ a.Foreign) := by
  unfold sortforremap2
  by_cases h : a.Color = b.Color
  · rw [if_pos h]
    constructor
    · intro h'
      exact Or.inr ⟨h, by omega⟩
    · rintro (h' | ⟨_, h'⟩)
      · omega
      · omega
  · rw [if_neg h]
    have hbmod : Int.bmod ((a.Color : Int) - (b.Color : Int)) 4294967296 =
        (a.Color : Int) - (b.Color : Int) := by
      unfold Int.bmod
      dsimp only
      split_ifs <;> omega
    rw [hbmod]
    constructor
    · intro h'
      exact Or.inl (by omega)
    · rintro (h' | ⟨h', _⟩)
      · omega
      · exact absurd h' h

/-- The entry that `MakeRemap` makes for a useful foreign index is found in
the sorted workspace, and `remap` is set from its position. -/
theorem MakeRemap.useful_spec (qsort : List RemappingWork → List RemappingWork)
    (BaseColors colors remap : Nat → Nat) (useful : Option (Nat → Nat)) (n : Nat)
    (hn : n ≤ 256)
    (hperm : (qsort (MakeRemap.filled BaseColors colors remap useful n).workspace).Perm
      (MakeRemap.filled BaseColors colors remap useful n).workspace)
    (i : Nat) (hi : i < n) (hu : MakeRemap.isUseful useful i = true) :
    ∃ p, p < (qsort (MakeRemap.filled BaseColors colors remap useful n).workspace).length ∧
      MakeRemap.entry (qsort (MakeRemap.filled BaseColors colors remap useful n).workspace) p =
        MakeRemap.foreignItem colors i ∧
      MakeRemap qsort BaseColors colors remap useful n i =
        if MakeRemap.Matched
            (qsort (MakeRemap.filled BaseColors colors remap useful n).workspace) p then
          (MakeRemap.entry
            (qsort (MakeRemap.filled BaseColors colors remap useful n).workspace) (p + 1)).PalEntry
        else MakeRemap.nearest BaseColors (MakeRemap.foreignItem colors i) := by
  have hmem : MakeRemap.foreignItem colors i ∈
      qsort (MakeRemap.filled BaseColors colors remap useful n).workspace :=
    (hperm.mem_iff).2
      ((MakeRemap.mem_filled BaseColors colors remap useful n _).2 (Or.inr ⟨i, hi, hu, rfl⟩))
  obtain ⟨p, hp, hpe⟩ := List.getElem_of_mem hmem
  have hent : MakeRemap.entry
      (qsort (MakeRemap.filled BaseColors colors remap useful n).workspace) p =
      MakeRemap.foreignItem colors i := by
    rw [MakeRemap.entry_eq_getElem _ p hp, hpe]
  refine ⟨p, hp, hent, ?_⟩
  have h := (MakeRemap.result_spec qsort BaseColors colors remap useful n hn hperm).1 p
    (by rw [hent]; rfl)
  rw [hent] at h
  have hpal : (MakeRemap.foreignItem colors i).PalEntry = i := by
    simp only [MakeRemap.foreignItem]
    exact Nat.mod_eq_of_lt (by omega)
  rw [hpal] at h
  exact h

/-- A foreign index that is not useful is mapped to 0. -/
theorem MakeRemap.not_useful_spec (qsort : List RemappingWork → List RemappingWork)
    (BaseColors colors remap : Nat → Nat) (useful : Option (Nat → Nat)) (n : Nat)
    (hn : n ≤ 256)
    (hperm : (qsort (MakeRemap.filled BaseColors colors remap useful n).workspace).Perm
      (MakeRemap.filled BaseColors colors remap useful n).workspace)
    (i : Nat) (hi : i < n) (hu : MakeRemap.isUseful useful i = false) :
    MakeRemap qsort BaseColors colors remap useful n i = 0 := by
  rw [(MakeRemap.result_spec qsort BaseColors colors remap useful n hn hperm).2 i,
    (MakeRemap.filled_spec BaseColors colors remap useful n).2.1 i]
  · simp [hi, hu]
  · intro p hp he
    have hpl := MakeRemap.entry_foreign_lt _ p hp
    rcases (MakeRemap.mem_filled BaseColors colors remap useful n _).1
      ((hperm.mem_iff).1 (MakeRemap.entry_mem _ p hpl)) with ⟨t, _, _, ht⟩ | ⟨i', hi', hu', hi''⟩
    · rw [ht] at hp
      simp at hp
    · rw [hi''] at he
      simp only [MakeRemap.foreignItem] at he
      rw [Nat.mod_eq_of_lt (by omega)] at he
      subst he
      rw [hu] at hu'
      exact absurd hu' (by decide)

/-- The entry after a position where the exact-match test succeeds is the
entry of a base index in `1..255`. -/
theorem MakeRemap.matched_target (qsort : List RemappingWork → List RemappingWork)
    (BaseColors colors remap : Nat → Nat) (useful : Option (Nat → Nat)) (n : Nat)
    (hperm : (qsort (MakeRemap.filled BaseColors colors remap useful n).workspace).Perm
      (MakeRemap.filled BaseColors colors remap useful n).workspace)
    (p : Nat)
    (hm : MakeRemap.Matched
      (qsort (MakeRemap.filled BaseColors colors remap useful n).workspace) p) :
    ∃ t, 1 ≤ t ∧ t ≤ 255 ∧
      MakeRemap.entry (qsort (MakeRemap.filled BaseColors colors remap useful n).workspace)
        (p + 1) = ⟨BaseColors t &&& 0xFFFFFF, 0, t⟩ := by
  obtain ⟨hlt, _, hf, _⟩ := hm
  rcases (MakeRemap.mem_filled BaseColors colors remap useful n _).1
    ((hperm.mem_iff).1 (MakeRemap.entry_mem _ (p + 1) hlt)) with h | ⟨i, _, _, hi⟩
  · exact h
  · rw [hi] at hf
    simp [MakeRemap.foreignItem] at hf

/-- The near match of a workspace entry is the result of `BestColor`, which
fits the `uint8_t` it is stored in. -/
theorem MakeRemap.nearest_eq (BaseColors : Nat → Nat) (w : RemappingWork) :
    MakeRemap.nearest BaseColors w =
      BestColor BaseColors (RPART w.Color) (GPART w.Color) (BPART w.Color) 1 255 := by
  unfold MakeRemap.nearest
  have h := BestColor.isNearest_of_init BaseColors (RPART w.Color) (GPART w.Color)
    (BPART w.Color) 1 255 (by norm_num)
    (fun j => BestColor.dist_lt_init BaseColors _ _ _ j
      (by unfold RPART; omega) (by unfold GPART; omega) (by unfold BPART; omega))
  exact Nat.mod_eq_of_lt (by have := h.2.1; omega)

/-- The near match of a workspace entry is an index of `[1, 255)`. -/
theorem MakeRemap.nearest_range (BaseColors : Nat → Nat) (w : RemappingWork) :
    1 ≤ MakeRemap.nearest BaseColors w ∧ MakeRemap.nearest BaseColors w < 255 := by
  rw [MakeRemap.nearest_eq]
  have h := BestColor.isNearest_of_init BaseColors (RPART w.Color) (GPART w.Color)
    (BPART w.Color) 1 255 (by norm_num)
    (fun j => BestColor.dist_lt_init BaseColors _ _ _ j
      (by unfold RPART; omega) (by unfold GPART; omega) (by unfold BPART; omega))
  exact ⟨h.1, h.2.1⟩

/-! ### The reference `qsort` -/

/-- Inserting into a sorted list keeps it sorted, when the relation is total
and transitive as far as the new element and the list are concerned. -/
theorem pairwise_orderedInsert {α : Type} (r : α → α → Prop) [DecidableRel r] (a : α) :
    ∀ l : List α, l.Pairwise r → (∀ b ∈ l, ¬ r a b → r b a) →
      (∀ b ∈ l, ∀ c ∈ l, r a b → r b c → r a c) → (l.orderedInsert r a).Pairwise r := by
  intro l
  induction l with
  | nil => intro _ _ _; simp
  | cons b l ih =>
    intro hl htot htrans
    rw [List.orderedInsert]
    have hbl := List.pairwise_cons.1 hl
    by_cases h : r a b
    · rw [if_pos h]
      refine List.pairwise_cons.2 ⟨?_, hl⟩
      intro c hc
      rcases List.mem_cons.1 hc with rfl | hc'
      · exact h
      · exact htrans b (List.mem_cons_self _ _) c (List.mem_cons_of_mem _ hc') h (hbl.1 c hc')
    · rw [if_neg h]
      refine List.pairwise_cons.2 ⟨?_, ?_⟩
      · intro c hc
        rcases (List.mem_orderedInsert r).1 hc with rfl | hc'
        · exact htot b (List.mem_cons_self _ _) h
        · exact hbl.1 c hc'
      · exact ih hbl.2 (fun c hc => htot c (List.mem_cons_of_mem _ hc))
          (fun c hc d hd => htrans c (List.mem_cons_of_mem _ hc) d (List.mem_cons_of_mem _ hd))

/-- Insertion sort meets what is asked of `qsort`. -/
theorem refQsort_sorts : SortsForRemap2 refQsort := by
  intro l hl
  refine ⟨List.perm_insertionSort _ l, ?_⟩
  have key : (refQsort l).Pairwise (fun a b => decide (sortforremap2 a b ≤ 0) = true) := by
    unfold refQsort
    induction l with
    | nil => simp
    | cons a l ih =>
      rw [List.insertionSort]
      have hl' : ∀ x ∈ l, x.Color < 16777216 := fun x hx => hl x (List.mem_cons_of_mem _ hx)
      have ha := hl a (List.mem_cons_self _ _)
      have hmem : ∀ x ∈ List.insertionSort
          (fun a b => decide (sortforremap2 a b ≤ 0) = true) l, x.Color < 16777216 :=
        fun x hx => hl' x ((List.perm_insertionSort _ l).mem_iff.1 hx)
      apply pairwise_orderedInsert _ a _ (ih hl')
      · intro b hb hab
        have hb' := hmem b hb
        simp only [decide_eq_true_eq] at hab ⊢
        rw [sortforremap2_le_iff a b ha hb'] at hab
        rw [sortforremap2_le_iff b a hb' ha]
        omega
      · intro b hb c hc hab hbc
        have hb' := hmem b hb
        have hc' := hmem c hc
        simp only [decide_eq_true_eq] at hab hbc ⊢
        rw [sortforremap2_le_iff a b ha hb'] at hab
        rw [sortforremap2_le_iff b c hb' hc'] at hbc
        rw [sortforremap2_le_iff a c ha hc']
        omega
  exact key.imp (fun h => of_decide_eq_true h)

/-- For a `qsort` that sorts, the sorted workspace of `MakeRemap` is a
rearrangement of the filled one. -/
theorem MakeRemap.perm_of_sorts (qsort : List RemappingWork → List RemappingWork)
    (hq : SortsForRemap2 qsort) (BaseColors colors remap : Nat → Nat)
    (useful : Option (Nat → Nat)) (n : Nat) :
    (qsort (MakeRemap.filled BaseColors colors remap useful n).workspace).Perm
      (MakeRemap.filled BaseColors colors remap useful n).workspace :=
  (hq _ (MakeRemap.filled_color_lt BaseColors colors remap useful n)).1

/-! ### What sorting gives the exact-match loop -/

theorem MakeRemap.nearest_foreignItem (BaseColors colors : Nat → Nat) (i : Nat) :
    MakeRemap.nearest BaseColors (MakeRemap.foreignItem colors i) =
      BestColor BaseColors (RPART (colors i)) (GPART (colors i)) (BPART (colors i)) 1 255 := by
  rw [MakeRemap.nearest_eq]
  unfold MakeRemap.foreignItem
  simp only [and_mask_eq_mod]
  have h1 : RPART (colors i % 16777216) = RPART (colors i) := by unfold RPART; omega
  have h2 : GPART (colors i % 16777216) = GPART (colors i) := by unfold GPART; omega
  have h3 : BPART (colors i % 16777216) = BPART (colors i) := by unfold BPART; omega
  rw [h1, h2, h3]

theorem and_mask_eq_iff (x y : Nat) : x &&& 0xFFFFFF = y &&& 0xFFFFFF ↔ SameRGB x y := by
  rw [and_mask_eq_mod, and_mask_eq_mod]
  unfold SameRGB PalEntry.r PalEntry.g PalEntry.b
  omega

theorem MakeRemap.sorted_entries (ws : List RemappingWork)
    (hs : ws.Pairwise (fun a b => sortforremap2 a b ≤ 0)) (p q : Nat) (hpq : p < q)
    (hq : q < ws.length) :
    sortforremap2 (MakeRemap.entry ws p) (MakeRemap.entry ws q) ≤ 0 := by
  rw [MakeRemap.entry_eq_getElem ws p (by omega), MakeRemap.entry_eq_getElem ws q hq]
  exact List.pairwise_iff_getElem.1 hs p q (by omega) hq hpq

/-- In a sorted workspace, a foreign entry that has another foreign entry of
its colour somewhere behind it fails the exact-match test. -/
theorem MakeRemap.not_matched_of_later (ws : List RemappingWork)
    (hs : ws.Pairwise (fun a b => sortforremap2 a b ≤ 0)) (p q : Nat) (hpq : p < q)
    (hq : (MakeRemap.entry ws q).Foreign = 1)
    (hc : (MakeRemap.entry ws p).Color = (MakeRemap.entry ws q).Color) :
    ¬ MakeRemap.Matched ws p := by
  rintro ⟨_, _, hf, hc'⟩
  have hql := MakeRemap.entry_foreign_lt ws q hq
  have hne : p + 1 ≠ q := by
    intro e
    rw [e, hq] at hf
    exact absurd hf (by decide)
  have h := MakeRemap.sorted_entries ws hs (p + 1) q (by omega) hql
  unfold sortforremap2 at h
  rw [if_pos (by rw [← hc', hc]), hq, hf] at h
  exact absurd h (by decide)

/-- Of two useful foreign indices with the same colour, at least one is given
the result of `BestColor`. -/
theorem MakeRemap.near_of_shared (qsort : List RemappingWork → List RemappingWork)
    (hq : SortsForRemap2 qsort) (BaseColors colors remap : Nat → Nat)
    (useful : Option (Nat → Nat)) (n : Nat) (hn : n ≤ 256)
    (a b : Nat) (ha : a < n) (hb : b < n) (hua : MakeRemap.isUseful useful a = true)
    (hub : MakeRemap.isUseful useful b = true) (hab : a ≠ b)
    (hc : SameRGB (colors a) (colors b)) :
    MakeRemap qsort BaseColors colors remap useful n a =
        BestColor BaseColors (RPART (colors a)) (GPART (colors a)) (BPART (colors a)) 1 255 ∨
      MakeRemap qsort BaseColors colors remap useful n b =
        BestColor BaseColors (RPART (colors b)) (GPART (colors b)) (BPART (colors b)) 1 255 := by
  have hperm := MakeRemap.perm_of_sorts qsort hq BaseColors colors remap useful n
  have hsorted := (hq _ (MakeRemap.filled_color_lt BaseColors colors remap useful n)).2
  obtain ⟨pa, hpa, henta, hRa⟩ :=
    MakeRemap.useful_spec qsort BaseColors colors remap useful n hn hperm a ha hua
  obtain ⟨pb, hpb, hentb, hRb⟩ :=
    MakeRemap.useful_spec qsort BaseColors colors remap useful n hn hperm b hb hub
  have hceq : colors a &&& 0xFFFFFF = colors b &&& 0xFFFFFF := (and_mask_eq_iff _ _).2 hc
  have hne : pa ≠ pb := by
    intro e
    rw [e, hentb] at henta
    have h := congrArg RemappingWork.PalEntry henta
    simp only [MakeRemap.foreignItem] at h
    rw [Nat.mod_eq_of_lt (by omega), Nat.mod_eq_of_lt (by omega)] at h
    exact hab h.symm
  rcases Nat.lt_or_gt_of_ne hne with hlt | hgt
  · left
    have hm := MakeRemap.not_matched_of_later _ hsorted pa pb hlt
      (by rw [hentb]; rfl) (by rw [henta, hentb]; exact hceq)
    rw [hRa, if_neg hm, MakeRemap.nearest_foreignItem]
  · right
    have hm := MakeRemap.not_matched_of_later _ hsorted pb pa hgt
      (by rw [henta]; rfl) (by rw [henta, hentb]; exact hceq.symm)
    rw [hRb, if_neg hm, MakeRemap.nearest_foreignItem]

/-! ### Claims about `MakeRemap` -/

/-- The sorted workspace does not depend on the initial contents of `remap`. -/
theorem MakeRemap.filled_workspace_remap (BaseColors colors remap remap' : Nat → Nat)
    (useful : Option (Nat → Nat)) (n : Nat) :
    (MakeRemap.filled BaseColors colors remap' useful n).workspace =
      (MakeRemap.filled BaseColors colors remap useful n).workspace := by
  rw [(MakeRemap.filled_spec BaseColors colors remap useful n).1,
    (MakeRemap.filled_spec BaseColors colors remap' useful n).1]

/-- C4: after `MakeRemap` on at most 256 foreign colours, every foreign index
that is not marked useful has `remap[i] = 0`, and every foreign index that is
marked useful has `remap[i]` in `[1,255]`; that value is assigned by the call,
whatever `remap` held before. -/
theorem MakeRemap_useful_range (qsort : List RemappingWork → List RemappingWork)
    (hq : SortsForRemap2 qsort) (BaseColors colors remap : Nat → Nat)
    (useful : Option (Nat → Nat)) (numcolors : Nat) (hn : numcolors ≤ 256) :
    ∀ i, i < numcolors →
      (MakeRemap.isUseful useful i = false →
        MakeRemap qsort BaseColors colors remap useful numcolors i = 0) ∧
      (MakeRemap.isUseful useful i = true →
        1 ≤ MakeRemap qsort BaseColors colors remap useful numcolors i ∧
        MakeRemap qsort BaseColors colors remap useful numcolors i ≤ 255 ∧
        ∀ remap' : Nat → Nat,
          MakeRemap qsort BaseColors colors remap' useful numcolors i =
            MakeRemap qsort BaseColors colors remap useful numcolors i) := by
  intro i hi
  have hperm := MakeRemap.perm_of_sorts qsort hq BaseColors colors remap useful numcolors
  refine ⟨MakeRemap.not_useful_spec qsort BaseColors colors remap useful numcolors hn hperm i hi,
    ?_⟩
  intro hu
  obtain ⟨p, hp, hent, hR⟩ :=
    MakeRemap.useful_spec qsort BaseColors colors remap useful numcolors hn hperm i hi hu
  have hrange : 1 ≤ MakeRemap qsort BaseColors colors remap useful numcolors i ∧
      MakeRemap qsort BaseColors colors remap useful numcolors i ≤ 255 := by
    rw [hR]
    by_cases hm : MakeRemap.Matched
        (qsort (MakeRemap.filled BaseColors colors remap useful numcolors).workspace) p
    · rw [if_pos hm]
      obtain ⟨t, ht1, ht2, ht⟩ :=
        MakeRemap.matched_target qsort BaseColors colors remap useful numcolors hperm p hm
      rw [ht]
      exact ⟨ht1, ht2⟩
    · rw [if_neg hm]
      have := MakeRemap.nearest_range BaseColors (MakeRemap.foreignItem colors i)
      omega
  refine ⟨hrange.1, hrange.2, ?_⟩
  intro remap'
  have hw := MakeRemap.filled_workspace_remap BaseColors colors remap remap' useful numcolors
  have hperm' := MakeRemap.perm_of_sorts qsort hq BaseColors colors remap' useful numcolors
  have h' := (MakeRemap.result_spec qsort BaseColors colors remap' useful numcolors hn hperm').1 p
  rw [hw] at h'
  have hpal : (MakeRemap.foreignItem colors i).PalEntry = i := by
    simp only [MakeRemap.foreignItem]
    exact Nat.mod_eq_of_lt (by omega)
  rw [hent, hpal] at h'
  rw [h' rfl, hR]

/-- C4 at the grey ramp as base palette, three foreign colours `(1,0,0)` and a
mask that marks the foreign indices 0 and 2: index 1 is mapped to 0 and index 2
into `[1,255]`, whatever `remap` held before. -/
theorem MakeRemap_useful_range_witness :
    MakeRemap refQsort greyRamp allDarkRed (fun _ => 7) (some maskZeroTwo) 3 1 = 0 ∧
    (1 ≤ MakeRemap refQsort greyRamp allDarkRed (fun _ => 7) (some maskZeroTwo) 3 2 ∧
      MakeRemap refQsort greyRamp allDarkRed (fun _ => 7) (some maskZeroTwo) 3 2 ≤ 255 ∧
      ∀ remap' : Nat → Nat,
        MakeRemap refQsort greyRamp allDarkRed remap' (some maskZeroTwo) 3 2 =
          MakeRemap refQsort greyRamp allDarkRed (fun _ => 7) (some maskZeroTwo) 3 2) :=
  ⟨(MakeRemap_useful_range refQsort refQsort_sorts greyRamp allDarkRed (fun _ => 7)
      (some maskZeroTwo) 3 (by decide) 1 (by decide)).1 (by decide),
    (MakeRemap_useful_range refQsort refQsort_sorts greyRamp allDarkRed (fun _ => 7)
      (some maskZeroTwo) 3 (by decide) 2 (by decide)).2 (by decide)⟩

/-- C6: when no useful foreign colour is the colour of a base entry `1..255`,
`MakeRemap` on at most 256 foreign colours sets `remap[i]`, for every useful
foreign index `i`, to `BestColor(base, R, G, B, 1, 255)` of the foreign colour,
and that value lies in `[1,255]`. -/
theorem MakeRemap_no_common_colour (qsort : List RemappingWork → List RemappingWork)
    (hq : SortsForRemap2 qsort) (BaseColors colors remap : Nat → Nat)
    (useful : Option (Nat → Nat)) (numcolors : Nat) (hn : numcolors ≤ 256)
    (hno : ∀ i, i < numcolors → MakeRemap.isUseful useful i = true →
      ∀ t, 1 ≤ t → t ≤ 255 → ¬ SameRGB (colors i) (BaseColors t)) :
    ∀ i, i < numcolors → MakeRemap.isUseful useful i = true →
      MakeRemap qsort BaseColors colors remap useful numcolors i =
        BestColor BaseColors (RPART (colors i)) (GPART (colors i)) (BPART (colors i)) 1 255 ∧
      1 ≤ MakeRemap qsort BaseColors colors remap useful numcolors i ∧
      MakeRemap qsort BaseColors colors remap useful numcolors i ≤ 255 := by
  intro i hi hu
  have hperm := MakeRemap.perm_of_sorts qsort hq BaseColors colors remap useful numcolors
  obtain ⟨p, hp, hent, hR⟩ :=
    MakeRemap.useful_spec qsort BaseColors colors remap useful numcolors hn hperm i hi hu
  have hm : ¬ MakeRemap.Matched
      (qsort (MakeRemap.filled BaseColors colors remap useful numcolors).workspace) p := by
    intro hm
    obtain ⟨t, ht1, ht2, ht⟩ :=
      MakeRemap.matched_target qsort BaseColors colors remap useful numcolors hperm p hm
    have hc := hm.2.2.2
    rw [hent, ht] at hc
    exact hno i hi hu t ht1 ht2 ((and_mask_eq_iff _ _).1 hc)
  rw [if_neg hm, MakeRemap.nearest_foreignItem] at hR
  have := MakeRemap.nearest_range BaseColors (MakeRemap.foreignItem colors i)
  rw [MakeRemap.nearest_foreignItem] at this
  rw [hR]
  exact ⟨rfl, this.1, by omega⟩

/-- C6 at the grey ramp as base palette and three foreign colours `(1,0,0)`,
none of which is a grey: foreign index 2 is mapped to the result of `BestColor`,
which is the grey 1. -/
theorem MakeRemap_no_common_colour_witness :
    MakeRemap refQsort greyRamp allDarkRed (fun _ => 7) none 3 2 = 1 ∧
    (MakeRemap refQsort greyRamp allDarkRed (fun _ => 7) none 3 2 =
        BestColor greyRamp (RPART (allDarkRed 2)) (GPART (allDarkRed 2))
          (BPART (allDarkRed 2)) 1 255 ∧
      1 ≤ MakeRemap refQsort greyRamp allDarkRed (fun _ => 7) none 3 2 ∧
      MakeRemap refQsort greyRamp allDarkRed (fun _ => 7) none 3 2 ≤ 255) :=
  ⟨by decide!,
    MakeRemap_no_common_colour refQsort refQsort_sorts greyRamp allDarkRed (fun _ => 7) none 3
      (by decide) (by
        intro i _ _ t ht1 ht2
        unfold SameRGB PalEntry.r PalEntry.g PalEntry.b allDarkRed greyRamp
        omega) 2 (by decide) (by decide)⟩

set_option maxRecDepth 100000 in
/-- C3 fails on the code: with the base palette `blueRamp`, whose only entry of
the colour `(0,0,255)` is entry 255, and two foreign entries of that colour,
`MakeRemap` with the reference `qsort` maps foreign index 0 to base entry 254,
which has another colour, and whichever way `qsort` orders equal entries one
of the two foreign indices is mapped to 254. -/
theorem MakeRemap_exact_match_missed :
    SameRGB (blueRamp 255) (allBlue 0) ∧ SameRGB (blueRamp 255) (allBlue 1) ∧
    ¬ SameRGB (blueRamp 254) (allBlue 0) ∧
    MakeRemap refQsort blueRamp allBlue (fun _ => 0) none 2 0 = 254 ∧
    MakeRemap refQsort blueRamp allBlue (fun _ => 0) none 2 1 = 255 ∧
    ∀ (qsort : List RemappingWork → List RemappingWork) (remap : Nat → Nat),
      SortsForRemap2 qsort →
      MakeRemap qsort blueRamp allBlue remap none 2 0 = 254 ∨
        MakeRemap qsort blueRamp allBlue remap none 2 1 = 254 := by
  refine ⟨by decide, by decide, by decide, by decide!, by decide!, ?_⟩
  intro qsort remap hq
  have hbest : BestColor blueRamp (RPART (allBlue 0)) (GPART (allBlue 0))
      (BPART (allBlue 0)) 1 255 = 254 := by decide
  have h := MakeRemap.near_of_shared qsort hq blueRamp allBlue remap none 2 (by decide)
    0 1 (by decide) (by decide) rfl rfl (by decide) (by decide)
  rw [show allBlue 1 = allBlue 0 from rfl, hbest] at h
  exact h

/-! ## Facts about `DoBlending` -/

/-! ### Pixel-wise operations on memory -/

theorem MapsPixels.mono {P Q : Nat → Nat → Nat → Prop} {mem mem2 : Nat → Nat}
    {src dst n : Nat} (h : MapsPixels P mem mem2 src dst n)
    (hPQ : ∀ x y z, P x y z → Q x y z) : MapsPixels Q mem mem2 src dst n :=
  ⟨h.1, fun i hi => hPQ _ _ _ (h.2 i hi)⟩

/-- A pixel-wise operation on `n` pixels followed by the same operation on the
next `m` pixels is the operation on `n + m` pixels, for buffers that are the
same or do not overlap. -/
theorem MapsPixels.append {P : Nat → Nat → Nat → Prop} {mem mem1 mem2 : Nat → Nat}
    {src dst n m : Nat} (h1 : MapsPixels P mem mem1 src dst n)
    (h2 : MapsPixels P mem1 mem2 (src + n) (dst + n) m)
    (hal : SameOrDisjoint src dst (n + m)) : MapsPixels P mem mem2 src dst (n + m) := by
  constructor
  · intro x hx
    rw [h2.1 x (by omega), h1.1 x (by omega)]
  · intro i hi
    by_cases hin : i < n
    · rw [h2.1 (dst + i) (by omega)]
      exact h1.2 i hin
    · have h := h2.2 (i - n) (by omega)
      have e1 : dst + n + (i - n) = dst + i := by omega
      have e2 : src + n + (i - n) = src + i := by omega
      rw [e1, e2, h1.1 (dst + i) (by omega)] at h
      have e3 : mem1 (src + i) = mem (src + i) := by
        apply h1.1
        unfold SameOrDisjoint at hal
        omega
      rw [e3] at h
      exact h

theorem SameOrDisjoint.tail {src dst n m : Nat} (h : SameOrDisjoint src dst (n + m)) :
    SameOrDisjoint (src + n) (dst + n) m := by
  unfold SameOrDisjoint at *
  omega

theorem SameOrDisjoint.head {src dst n m : Nat} (h : SameOrDisjoint src dst (n + m)) :
    SameOrDisjoint src dst n := by
  unfold SameOrDisjoint at *
  omega

/-! ### The scalar loop -/

theorem blendChannel_le (c a s : Nat) (hc : c ≤ 255) (hs : s ≤ 255) (ha : a ≤ 256) :
    blendChannel c a s ≤ 255 := by
  unfold blendChannel
  have h1 : c * a ≤ 255 * a := Nat.mul_le_mul_right a hc
  have h2 : s * (256 - a) ≤ 255 * (256 - a) := Nat.mul_le_mul_right _ hs
  omega

/-- The value that the scalar loop stores in a colour byte. -/
theorem scalar_byte (c a s : Nat) (hc : c ≤ 255) (hs : s ≤ 255) (ha : a ≤ 256) :
    (((((c : Int) * (a : Int)) + (s : Int) * (256 - (a : Int))) >>> (8 : Nat)) % 256).toNat =
      blendChannel c a s := by
  have hb := blendChannel_le c a s hc hs ha
  unfold blendChannel at *
  rw [Int.shiftRight_eq_div_pow]
  have e : ((c : Int) * (a : Int)) + (s : Int) * (256 - (a : Int)) =
      ((c * a + s * (256 - a) : Nat) : Int) := by
    push_cast [Nat.cast_sub ha]
    ring
  rw [e]
  have e2 : (((c * a + s * (256 - a) : Nat) : Int) / ((2 ^ 8 : Nat) : Int) % 256) =
      (((c * a + s * (256 - a)) / 256 % 256 : Nat) : Int) := by
    norm_cast
  rw [e2, Int.toNat_ofNat]
  omega

theorem PalEntry.r_pack (a r g b : Nat) (hr : r < 256) (hg : g < 256) (hb : b < 256) :
    PalEntry.r (PalEntry.pack a r g b) = r := by
  unfold PalEntry.r PalEntry.pack
  omega

theorem PalEntry.g_pack (a r g b : Nat) (hg : g < 256) (hb : b < 256) :
    PalEntry.g (PalEntry.pack a r g b) = g := by
  unfold PalEntry.g PalEntry.pack
  omega

theorem PalEntry.b_pack (a r g b : Nat) (hb : b < 256) :
    PalEntry.b (PalEntry.pack a r g b) = b := by
  unfold PalEntry.b PalEntry.pack
  omega

theorem PalEntry.a_pack (a r g b : Nat) (ha : a < 256) (hr : r < 256) (hg : g < 256)
    (hb : b < 256) : PalEntry.a (PalEntry.pack a r g b) = a := by
  unfold PalEntry.a PalEntry.pack
  omega

theorem PalEntry.a_lt (d : Nat) : PalEntry.a d < 256 := Nat.mod_lt _ (by norm_num)

theorem toNat_mod_lt (v : Int) : (v % 256).toNat < 256 := by omega

theorem PalEntry.g_setR (d : Nat) (v : Int) : PalEntry.g (PalEntry.setR d v) = PalEntry.g d := by
  unfold PalEntry.setR
  exact PalEntry.g_pack _ _ _ _ (PalEntry.g_lt d) (PalEntry.b_lt d)

theorem PalEntry.b_setR (d : Nat) (v : Int) : PalEntry.b (PalEntry.setR d v) = PalEntry.b d := by
  unfold PalEntry.setR
  exact PalEntry.b_pack _ _ _ _ (PalEntry.b_lt d)

theorem PalEntry.b_setG (d : Nat) (v : Int) : PalEntry.b (PalEntry.setG d v) = PalEntry.b d := by
  unfold PalEntry.setG
  exact PalEntry.b_pack _ _ _ _ (PalEntry.b_lt d)

/-- The three assignments of the scalar loop, taken together. -/
theorem PalEntry.setB_setG_setR (d : Nat) (vr vg vb : Int) :
    PalEntry.setB (PalEntry.setG (PalEntry.setR d vr) vg) vb =
      PalEntry.pack (PalEntry.a d) (vr % 256).toNat (vg % 256).toNat (vb % 256).toNat := by
  have h1 := toNat_mod_lt vr
  have h2 := toNat_mod_lt vg
  have h3 := toNat_mod_lt vb
  have ha := PalEntry.a_lt d
  have hg := PalEntry.g_lt d
  have hb := PalEntry.b_lt d
  unfold PalEntry.setB PalEntry.setG
  rw [PalEntry.a_pack _ _ _ _ (PalEntry.a_lt _) (PalEntry.r_lt _) h2 (PalEntry.b_lt _),
    PalEntry.r_pack _ _ _ _ (PalEntry.r_lt _) h2 (PalEntry.b_lt _),
    PalEntry.g_pack _ _ _ _ h2 (PalEntry.b_lt _)]
  unfold PalEntry.setR
  rw [PalEntry.a_pack _ _ _ _ ha h1 hg hb, PalEntry.r_pack _ _ _ _ h1 hg hb]

/-- One pass through the body of the scalar loop. -/
theorem DoBlending.scalarBody_spec (r g b a : Nat) (hr : r ≤ 255) (hg : g ≤ 255)
    (hb : b ≤ 255) (ha : a ≤ 256) (mem : Nat → Nat) (src dst : Nat) :
    MapsPixels (ScalarPixel r g b a) mem
      (DoBlending.scalarBody ((r : Int) * a) ((g : Int) * a) ((b : Int) * a)
        (256 - (a : Int)) mem src dst) src dst 1 := by
  constructor
  · intro x hx
    have hne : x ≠ dst := by omega
    simp only [DoBlending.scalarBody, Function.update_noteq hne]
  · intro i hi
    have hi0 : i = 0 := by omega
    subst hi0
    simp only [Nat.add_zero, DoBlending.scalarBody, Function.update_same]
    have hg1 : ∀ v, PalEntry.g (Function.update mem dst (PalEntry.setR (mem dst) v) src) =
        PalEntry.g (mem src) := by
      intro v
      by_cases h : src = dst
      · subst h; rw [Function.update_same, PalEntry.g_setR]
      · rw [Function.update_noteq h]
    have hb1 : ∀ v w, PalEntry.b (Function.update (Function.update mem dst
        (PalEntry.setR (mem dst) v)) dst (PalEntry.setG (PalEntry.setR (mem dst) v) w) src) =
        PalEntry.b (mem src) := by
      intro v w
      by_cases h : src = dst
      · subst h; rw [Function.update_same, PalEntry.b_setG, PalEntry.b_setR]
      · rw [Function.update_noteq h, Function.update_noteq h]
    rw [hg1, hb1, PalEntry.setB_setG_setR]
    unfold ScalarPixel
    rw [scalar_byte r a _ hr (by have := PalEntry.r_lt (mem src); omega) ha,
      scalar_byte g a _ hg (by have := PalEntry.g_lt (mem src); omega) ha,
      scalar_byte b a _ hb (by have := PalEntry.b_lt (mem src); omega) ha]

/-- The scalar loop blends `n` pixels, for buffers that are the same or do not
overlap. -/
theorem DoBlending.scalarLoop_spec (r g b a : Nat) (hr : r ≤ 255) (hg : g ≤ 255)
    (hb : b ≤ 255) (ha : a ≤ 256) :
    ∀ (n src dst : Nat) (mem : Nat → Nat), SameOrDisjoint src dst n →
      MapsPixels (ScalarPixel r g b a) mem
        (DoBlending.scalarLoop ((r : Int) * a) ((g : Int) * a) ((b : Int) * a)
          (256 - (a : Int)) n src dst mem) src dst n := by
  intro n
  induction n with
  | zero =>
    intro src dst mem _
    exact ⟨fun x _ => rfl, fun i hi => by omega⟩
  | succ n ih =>
    intro src dst mem hal
    have hal' : SameOrDisjoint src dst (1 + n) := by rw [Nat.add_comm]; exact hal
    have h1 := DoBlending.scalarBody_spec r g b a hr hg hb ha mem src dst
    have h2 := ih (src + 1) (dst + 1)
      (DoBlending.scalarBody ((r : Int) * a) ((g : Int) * a) ((b : Int) * a)
        (256 - (a : Int)) mem src dst) hal'.tail
    have h := h1.append h2 hal'
    rw [Nat.add_comm 1 n] at h
    exact h

/-! ### The vector loop -/

theorem shift_or_two (y z : Nat) (hz : z < 65536) : (y <<< 16) ||| z = y * 65536 + z := by
  rw [Nat.shiftLeft_eq, Nat.mul_comm y (2 ^ 16)]
  have h := Nat.mul_add_lt_is_or (i := 16) (b := z) (by simpa using hz) y
  rw [← h]

theorem shift_or_three (x y z : Nat) (hy : y < 65536) (hz : z < 65536) :
    (x <<< 32) ||| (y <<< 16) ||| z = x * 4294967296 + y * 65536 + z := by
  rw [Nat.shiftLeft_eq, Nat.shiftLeft_eq]
  have h1 := Nat.mul_add_lt_is_or (i := 32) (b := y * 2 ^ 16) (by norm_num; omega) x
  rw [Nat.mul_comm x (2 ^ 32), ← h1]
  have h2 := Nat.mul_add_lt_is_or (i := 16) (b := z) (by simpa using hz) (2 ^ 16 * x + y)
  have e : 2 ^ 32 * x + y * 2 ^ 16 = 2 ^ 16 * (2 ^ 16 * x + y) := by ring
  rw [e, ← h2]
  ring

/-- The register that `DoBlending_SSE2` builds from three 16-bit values. -/
theorem DoBlending_SSE2.splat_eq (target : Target) (x y z : Nat) (hx : x < 65536)
    (hy : y < 65536) (hz : z < 65536) :
    DoBlending_SSE2.splat target x y z = [z, y, x, 0, z, y, x, 0] := by
  cases target
  · simp only [DoBlending_SSE2.splat, mm_set_epi32, lanes32, shift_or_two y z hz]
    simp only [List.cons_append, List.nil_append, List.cons.injEq, and_true]
    omega
  · simp only [DoBlending_SSE2.splat, mm_set_epi32, lanes32, shift_or_two y z hz]
    simp only [List.cons_append, List.nil_append, List.cons.injEq, and_true]
    omega
  · simp only [DoBlending_SSE2.splat, mm_set_epi64x, lanes64, shift_or_three x y z hy hz]
    simp only [List.cons_append, List.nil_append, List.cons.injEq, and_true]
    omega

theorem DoBlending_SSE2.blending256_eq (target : Target) :
    DoBlending_SSE2.blending256 target = [256, 256, 256, 0, 256, 256, 256, 0] := by
  cases target <;> rfl

/-- The byte that the vector loop makes of a colour lane: for `a` in `[1,255]`
no step wraps or saturates. -/
theorem vector_byte (c a s : Nat) (hc : c ≤ 255) (hs : s ≤ 255) (ha1 : 1 ≤ a) (ha2 : a ≤ 255) :
    (if 32768 ≤ (min (c * a % 65536 + (256 - a) * s % 65536) 65535) >>> 8 then 0
      else min ((min (c * a % 65536 + (256 - a) * s % 65536) 65535) >>> 8) 255) =
      blendChannel c a s := by
  unfold blendChannel
  rw [Nat.shiftRight_eq_div_pow, Nat.mul_comm (256 - a) s]
  have h1 : c * a ≤ 255 * a := Nat.mul_le_mul_right a hc
  have h2 : s * (256 - a) ≤ 255 * (256 - a) := Nat.mul_le_mul_right _ hs
  have h3 : c * a % 65536 = c * a := Nat.mod_eq_of_lt (by omega)
  have h4 : s * (256 - a) % 65536 = s * (256 - a) := Nat.mod_eq_of_lt (by omega)
  rw [h3, h4]
  have h5 : min (c * a + s * (256 - a)) 65535 = c * a + s * (256 - a) :=
    Nat.min_eq_left (by omega)
  rw [h5]
  have h6 : (c * a + s * (256 - a)) / 2 ^ 8 ≤ 255 := by
    norm_num
    omega
  rw [if_neg (by omega), Nat.min_eq_left h6]
  norm_num

/-- The word that the vector loop stores for one pixel. -/
theorem vector_word (r g b a : Nat) (hr : r ≤ 255) (hg : g ≤ 255) (hb : b ≤ 255)
    (ha1 : 1 ≤ a) (ha2 : a ≤ 255) (d : Nat) :
    (if 32768 ≤ (min (b * a % 65536 + (256 - a) * (d % 256) % 65536) 65535) >>> 8 then 0
        else min ((min (b * a % 65536 + (256 - a) * (d % 256) % 65536) 65535) >>> 8) 255) +
      256 * (if 32768 ≤ (min (g * a % 65536 + (256 - a) * (d / 256 % 256) % 65536) 65535) >>> 8
        then 0
        else min ((min (g * a % 65536 + (256 - a) * (d / 256 % 256) % 65536) 65535) >>> 8) 255) +
      65536 * (if 32768 ≤
          (min (r * a % 65536 + (256 - a) * (d / 65536 % 256) % 65536) 65535) >>> 8 then 0
        else
          min ((min (r * a % 65536 + (256 - a) * (d / 65536 % 256) % 65536) 65535) >>> 8) 255) =
      PalEntry.pack 0 (blendChannel r a (PalEntry.r d)) (blendChannel g a (PalEntry.g d))
        (blendChannel b a (PalEntry.b d)) := by
  rw [vector_byte b a _ hb (by omega) ha1 ha2, vector_byte g a _ hg (by omega) ha1 ha2,
    vector_byte r a _ hr (by omega) ha1 ha2]
  unfold PalEntry.pack PalEntry.r PalEntry.g PalEntry.b
  omega

/-- One pass through the body of the vector loop. -/
theorem DoBlending_SSE2.body_spec (target : Target) (r g b a : Nat) (hr : r ≤ 255)
    (hg : g ≤ 255) (hb : b ≤ 255) (ha1 : 1 ≤ a) (ha2 : a ≤ 255) (mem : Nat → Nat)
    (src dst : Nat) :
    MapsPixels (VectorPixel r g b a) mem
      (DoBlending_SSE2.body mm_loadu_si128 mm_storeu_si128
        (mm_mullo_epi16 (DoBlending_SSE2.splat target r g b)
          (DoBlending_SSE2.splat target a a a))
        (mm_subs_epu16 (DoBlending_SSE2.blending256 target)
          (DoBlending_SSE2.splat target a a a))
        mm_setzero_si128 mem src dst) src dst 4 := by
  rw [DoBlending_SSE2.splat_eq target r g b (by omega) (by omega) (by omega),
    DoBlending_SSE2.splat_eq target a a a (by omega) (by omega) (by omega),
    DoBlending_SSE2.blending256_eq]
  constructor
  · intro x hx
    have h0 : x ≠ dst := by omega
    have h1 : x ≠ dst + 1 := by omega
    have h2 : x ≠ dst + 2 := by omega
    have h3 : x ≠ dst + 3 := by omega
    simp only [DoBlending_SSE2.body, mm_storeu_si128, Function.update_noteq h0,
      Function.update_noteq h1, Function.update_noteq h2, Function.update_noteq h3]
  · intro i hi
    have hw := vector_word r g b a hr hg hb ha1 ha2
    unfold VectorPixel
    have h01 : dst ≠ dst + 1 := by omega
    have h02 : dst ≠ dst + 2 := by omega
    have h03 : dst ≠ dst + 3 := by omega
    have h12 : dst + 1 ≠ dst + 2 := by omega
    have h13 : dst + 1 ≠ dst + 3 := by omega
    have h23 : dst + 2 ≠ dst + 3 := by omega
    have hi' : i = 0 ∨ i = 1 ∨ i = 2 ∨ i = 3 := by omega
    rcases hi' with rfl | rfl | rfl | rfl
    · rw [← hw (mem (src + 0))]
      simp [DoBlending_SSE2.body, mm_storeu_si128, mm_loadu_si128, mm_unpackhi_epi8,
        mm_unpacklo_epi8, mm_mullo_epi16, mm_adds_epu16, mm_srli_epi16, mm_packus_epi16,
        mm_subs_epu16, mm_setzero_si128, bytesOfWord, wordOfBytes, Function.update_noteq,
        h01, h02, h03]
    · rw [← hw (mem (src + 1))]
      simp [DoBlending_SSE2.body, mm_storeu_si128, mm_loadu_si128, mm_unpackhi_epi8,
        mm_unpacklo_epi8, mm_mullo_epi16, mm_adds_epu16, mm_srli_epi16, mm_packus_epi16,
        mm_subs_epu16, mm_setzero_si128, bytesOfWord, wordOfBytes, Function.update_noteq,
        h12, h13]
    · rw [← hw (mem (src + 2))]
      simp [DoBlending_SSE2.body, mm_storeu_si128, mm_loadu_si128, mm_unpackhi_epi8,
        mm_unpacklo_epi8, mm_mullo_epi16, mm_adds_epu16, mm_srli_epi16, mm_packus_epi16,
        mm_subs_epu16, mm_setzero_si128, bytesOfWord, wordOfBytes, Function.update_noteq,
        h23]
    · rw [← hw (mem (src + 3))]
      simp [DoBlending_SSE2.body, mm_storeu_si128, mm_loadu_si128, mm_unpackhi_epi8,
        mm_unpacklo_epi8, mm_mullo_epi16, mm_adds_epu16, mm_srli_epi16, mm_packus_epi16,
        mm_subs_epu16, mm_setzero_si128, bytesOfWord, wordOfBytes]

/-- The vector loop blends `4 * n` pixels, for buffers that are the same or do
not overlap. -/
theorem DoBlending_SSE2.loop_spec (target : Target) (r g b a : Nat) (hr : r ≤ 255)
    (hg : g ≤ 255) (hb : b ≤ 255) (ha1 : 1 ≤ a) (ha2 : a ≤ 255) :
    ∀ (n src dst : Nat) (mem : Nat → Nat), SameOrDisjoint src dst (4 * n) →
      MapsPixels (VectorPixel r g b a) mem
        (DoBlending_SSE2.loop mm_loadu_si128 mm_storeu_si128
          (mm_mullo_epi16 (DoBlending_SSE2.splat target r g b)
            (DoBlending_SSE2.splat target a a a))
          (mm_subs_epu16 (DoBlending_SSE2.blending256 target)
            (DoBlending_SSE2.splat target a a a))
          mm_setzero_si128 n src dst mem) src dst (4 * n) := by
  intro n
  induction n with
  | zero =>
    intro src dst mem _
    exact ⟨fun x _ => rfl, fun i hi => by omega⟩
  | succ n ih =>
    intro src dst mem hal
    have e : 4 * (n + 1) = 4 + 4 * n := by ring
    rw [e] at hal ⊢
    have h1 := DoBlending_SSE2.body_spec target r g b a hr hg hb ha1 ha2 mem src dst
    have h2 := ih (src + 4) (dst + 4)
      (DoBlending_SSE2.body mm_loadu_si128 mm_storeu_si128
        (mm_mullo_epi16 (DoBlending_SSE2.splat target r g b)
          (DoBlending_SSE2.splat target a a a))
        (mm_subs_epu16 (DoBlending_SSE2.blending256 target)
          (DoBlending_SSE2.splat target a a a))
        mm_setzero_si128 mem src dst) hal.tail
    exact h1.append h2 hal

/-- `DoBlending_SSE2` blends the first `count - count % 4` pixels and leaves
every other pixel alone, on every x86 target and for aligned and unaligned
buffers alike. -/
theorem DoBlending_SSE2.spec (target : Target) (r g b a : Nat) (hr : r ≤ 255)
    (hg : g ≤ 255) (hb : b ≤ 255) (ha1 : 1 ≤ a) (ha2 : a ≤ 255) (mem : Nat → Nat)
    (src dst count : Nat) (hal : SameOrDisjoint src dst (4 * (count / 4))) :
    MapsPixels (VectorPixel r g b a) mem (DoBlending_SSE2 target mem src dst count r g b a)
      src dst (4 * (count / 4)) := by
  have h := DoBlending_SSE2.loop_spec target r g b a hr hg hb ha1 ha2 (count / 4) src dst mem hal
  have e : count >>> 2 = count / 4 := by
    rw [Nat.shiftRight_eq_div_pow]
  unfold DoBlending_SSE2
  simp only [e]
  split
  · exact h
  · exact h

/-! ### `DoBlending` as a whole -/

theorem ScalarPixel.blended_scalar (r g b a : Nat) (hr : r ≤ 255) (hg : g ≤ 255) (hb : b ≤ 255)
    (ha : a ≤ 256) (x y z : Nat) (h : ScalarPixel r g b a x y z) : BlendedRGB r g b a x y z := by
  have h1 := blendChannel_le r a (PalEntry.r z) hr (by have := PalEntry.r_lt z; omega) ha
  have h2 := blendChannel_le g a (PalEntry.g z) hg (by have := PalEntry.g_lt z; omega) ha
  have h3 := blendChannel_le b a (PalEntry.b z) hb (by have := PalEntry.b_lt z; omega) ha
  unfold ScalarPixel at h
  unfold BlendedRGB
  rw [h]
  exact ⟨PalEntry.r_pack _ _ _ _ (by omega) (by omega) (by omega),
    PalEntry.g_pack _ _ _ _ (by omega) (by omega), PalEntry.b_pack _ _ _ _ (by omega)⟩

theorem VectorPixel.blended_vector (r g b a : Nat) (hr : r ≤ 255) (hg : g ≤ 255) (hb : b ≤ 255)
    (ha : a ≤ 256) (x y z : Nat) (h : VectorPixel r g b a x y z) : BlendedRGB r g b a x y z := by
  have h1 := blendChannel_le r a (PalEntry.r z) hr (by have := PalEntry.r_lt z; omega) ha
  have h2 := blendChannel_le g a (PalEntry.g z) hg (by have := PalEntry.g_lt z; omega) ha
  have h3 := blendChannel_le b a (PalEntry.b z) hb (by have := PalEntry.b_lt z; omega) ha
  unfold VectorPixel at h
  unfold BlendedRGB
  rw [h]
  exact ⟨PalEntry.r_pack _ _ _ _ (by omega) (by omega) (by omega),
    PalEntry.g_pack _ _ _ _ (by omega) (by omega), PalEntry.b_pack _ _ _ _ (by omega)⟩

theorem and_three_eq_mod (count : Nat) : count &&& 3 = count % 4 :=
  Nat.and_pow_two_sub_one_eq_mod count 2

/-- For `0 < a < 256`, on every target, `DoBlending` blends the three colour
bytes of each of the `count` pixels and changes no pixel outside the
destination buffer. -/
theorem DoBlending.general_spec (target : Target) (r g b a : Nat) (hr : r ≤ 255)
    (hg : g ≤ 255) (hb : b ≤ 255) (ha1 : 1 ≤ a) (ha2 : a ≤ 255) (mem : Nat → Nat)
    (src dst count : Nat) (hal : SameOrDisjoint src dst count) :
    MapsPixels (BlendedRGB r g b a) mem (DoBlending target mem src dst count r g b a)
      src dst count := by
  have hsc : ∀ (m : Nat → Nat) (s d n : Nat), SameOrDisjoint s d n →
      MapsPixels (BlendedRGB r g b a) m (DoBlending.scalar m s d n r g b a) s d n :=
    fun m s d n h =>
      (DoBlending.scalarLoop_spec r g b a hr hg hb (by omega) n s d m h).mono
        (ScalarPixel.blended_scalar r g b a hr hg hb (by omega))
  unfold DoBlending
  rw [if_neg (by omega), if_neg (by omega)]
  by_cases hv : target ≠ Target.other ∧ count ≥ 4
  · rw [if_pos hv]
    simp only [and_three_eq_mod]
    have e4 : count - count % 4 = 4 * (count / 4) := by omega
    have ecount : count = 4 * (count / 4) + count % 4 := by omega
    have e5 : DoBlending_SSE2 target mem src dst (4 * (count / 4)) r g b a =
        DoBlending_SSE2 target mem src dst count r g b a := by
      unfold DoBlending_SSE2
      have : (4 * (count / 4)) >>> 2 = count >>> 2 := by
        rw [Nat.shiftRight_eq_div_pow, Nat.shiftRight_eq_div_pow]
        omega
      simp only [this]
    rw [e4, e5]
    have hal' : SameOrDisjoint src dst (4 * (count / 4) + count % 4) := by
      rw [← ecount]; exact hal
    have h1 := (DoBlending_SSE2.spec target r g b a hr hg hb ha1 ha2 mem src dst count
      hal'.head).mono (VectorPixel.blended_vector r g b a hr hg hb (by omega))
    by_cases hz : count % 4 ≤ 0
    · rw [if_pos hz]
      have e0 : 4 * (count / 4) = count := by omega
      rw [e0] at h1
      exact h1
    · rw [if_neg hz]
      have h2 := hsc (DoBlending_SSE2 target mem src dst count r g b a)
        (src + 4 * (count / 4)) (dst + 4 * (count / 4)) (count % 4) hal'.tail
      have h := h1.append h2 hal'
      rw [← ecount] at h
      exact h
  · rw [if_neg hv]
    exact hsc mem src dst count hal

theorem MAKERGB_eq (r g b : Nat) (hr : r ≤ 255) (hg : g ≤ 255) (hb : b ≤ 255) :
    MAKERGB r g b = PalEntry.pack 0 r g b := by
  unfold MAKERGB PalEntry.pack
  rw [Nat.shiftLeft_eq, Nat.shiftLeft_eq]
  have h1 := Nat.mul_add_lt_is_or (i := 16) (b := g * 2 ^ 8) (by norm_num; omega) r
  rw [Nat.mul_comm r (2 ^ 16), ← h1]
  have h2 := Nat.mul_add_lt_is_or (i := 8) (b := b) (by norm_num; omega) (2 ^ 8 * r + g)
  have e : 2 ^ 16 * r + g * 2 ^ 8 = 2 ^ 8 * (2 ^ 8 * r + g) := by ring
  rw [e, ← h2]
  omega

/-- The loop `for (i = 0; i < count; i++) to[i] = t`. -/
theorem fill_foldl (t dst : Nat) (mem : Nat → Nat) (n x : Nat) :
    (List.range n).foldl (fun m i => Function.update m (dst + i) t) mem x =
      if dst ≤ x ∧ x < dst + n then t else mem x := by
  induction n with
  | zero =>
    have : ¬ (dst ≤ x ∧ x < dst + 0) := by omega
    rw [if_neg this]
    rfl
  | succ n ih =>
    rw [List.range_succ, List.foldl_append]
    simp only [List.foldl_cons, List.foldl_nil]
    by_cases hx : x = dst + n
    · subst hx
      rw [Function.update_same, if_pos (by omega)]
    · rw [Function.update_noteq hx, ih]
      by_cases h : dst ≤ x ∧ x < dst + n
      · rw [if_pos h, if_pos (by omega)]
      · rw [if_neg h, if_neg (by omega)]

/-! ### Claims about `DoBlending` -/

/-- C7: for `r`, `g`, `b` in `[0,255]`, `0 < a < 256` and source and
destination buffers that are the same buffer or do not overlap, `DoBlending`
writes `((c * a) + (s * (256 - a))) >> 8` to the red, green and blue byte of
every pixel `i < count`, `c` being the colour channel and `s` the channel of
source pixel `i`, on every target, that is whether the pixel is handled by the
vector loop or by the scalar loop. -/
theorem DoBlending_blend_exact (target : Target) (mem : Nat → Nat)
    (src dst count r g b a : Nat) (hr : r ≤ 255) (hg : g ≤ 255) (hb : b ≤ 255)
    (ha1 : 0 < a) (ha2 : a < 256) (hal : SameOrDisjoint src dst count)
    (i : Nat) (hi : i < count) :
    PalEntry.r (DoBlending target mem src dst count r g b a (dst + i)) =
        (r * a + PalEntry.r (mem (src + i)) * (256 - a)) >>> 8 ∧
      PalEntry.g (DoBlending target mem src dst count r g b a (dst + i)) =
        (g * a + PalEntry.g (mem (src + i)) * (256 - a)) >>> 8 ∧
      PalEntry.b (DoBlending target mem src dst count r g b a (dst + i)) =
        (b * a + PalEntry.b (mem (src + i)) * (256 - a)) >>> 8 := by
  have h := (DoBlending.general_spec target r g b a hr hg hb (by omega) (by omega) mem
    src dst count hal).2 i hi
  unfold BlendedRGB blendChannel at h
  simp only [Nat.shiftRight_eq_div_pow]
  exact h

/-- C7 on five pixels blended from the unaligned address 1 to the address 9
for the 64-bit x86 target: pixel 0 goes through the vector loop, pixel 4
through the scalar loop. -/
theorem DoBlending_blend_exact_witness :
    (PalEntry.r (DoBlending Target.amd64 opaqueRamp 1 9 5 10 20 30 128 (9 + 0)) =
        (10 * 128 + PalEntry.r (opaqueRamp (1 + 0)) * (256 - 128)) >>> 8 ∧
      PalEntry.g (DoBlending Target.amd64 opaqueRamp 1 9 5 10 20 30 128 (9 + 0)) =
        (20 * 128 + PalEntry.g (opaqueRamp (1 + 0)) * (256 - 128)) >>> 8 ∧
      PalEntry.b (DoBlending Target.amd64 opaqueRamp 1 9 5 10 20 30 128 (9 + 0)) =
        (30 * 128 + PalEntry.b (opaqueRamp (1 + 0)) * (256 - 128)) >>> 8) ∧
    (PalEntry.r (DoBlending Target.amd64 opaqueRamp 1 9 5 10 20 30 128 (9 + 4)) =
        (10 * 128 + PalEntry.r (opaqueRamp (1 + 4)) * (256 - 128)) >>> 8 ∧
      PalEntry.g (DoBlending Target.amd64 opaqueRamp 1 9 5 10 20 30 128 (9 + 4)) =
        (20 * 128 + PalEntry.g (opaqueRamp (1 + 4)) * (256 - 128)) >>> 8 ∧
      PalEntry.b (DoBlending Target.amd64 opaqueRamp 1 9 5 10 20 30 128 (9 + 4)) =
        (30 * 128 + PalEntry.b (opaqueRamp (1 + 4)) * (256 - 128)) >>> 8) ∧
    DoBlending Target.amd64 opaqueRamp 1 9 5 10 20 30 128 9 = 330512 ∧
    DoBlending Target.amd64 opaqueRamp 1 9 5 10 20 30 128 13 = 4278652694 :=
  ⟨DoBlending_blend_exact Target.amd64 opaqueRamp 1 9 5 10 20 30 128 (by decide) (by decide)
      (by decide) (by decide) (by decide) (Or.inr (Or.inl (by decide))) 0 (by decide),
    DoBlending_blend_exact Target.amd64 opaqueRamp 1 9 5 10 20 30 128 (by decide) (by decide)
      (by decide) (by decide) (by decide) (Or.inr (Or.inl (by decide))) 4 (by decide),
    by decide, by decide⟩

/-- C8 fails as stated: on four pixels whose fourth byte is 255 the vector
routine stores 0 in the fourth byte and the scalar loop keeps 255 there, so the
two destination buffers differ. -/
theorem DoBlending_SSE2_scalar_counterexample :
    PalEntry.a (opaqueRamp 8) = 255 ∧
    PalEntry.a (DoBlending_SSE2 Target.amd64 opaqueRamp 0 8 4 10 20 30 128 8) = 0 ∧
    PalEntry.a (DoBlending.scalar opaqueRamp 0 8 4 10 20 30 128 8) = 255 ∧
    DoBlending_SSE2 Target.amd64 opaqueRamp 0 8 4 10 20 30 128 8 ≠
      DoBlending.scalar opaqueRamp 0 8 4 10 20 30 128 8 := by
  refine ⟨by decide, by decide, by decide, by decide⟩

/-- C8, amended: on a buffer whose length is a multiple of 4, for `r`, `g`, `b`
in `[0,255]`, `a` in `[1,255]` and source and destination buffers that are the
same buffer or do not overlap, aligned or not, `DoBlending_SSE2` and the scalar
loop of `DoBlending` leave the same red, green and blue bytes in every pixel of
the destination and change no pixel outside it; the fourth byte of every
destination pixel is 0 after the vector routine and is what it was after the
scalar loop. -/
theorem DoBlending_SSE2_scalar_rgb (target : Target) (mem : Nat → Nat)
    (src dst count r g b a : Nat) (h4 : count % 4 = 0) (hr : r ≤ 255) (hg : g ≤ 255)
    (hb : b ≤ 255) (ha1 : 1 ≤ a) (ha2 : a ≤ 255) (hal : SameOrDisjoint src dst count) :
    (∀ i, i < count →
      PalEntry.r (DoBlending_SSE2 target mem src dst count r g b a (dst + i)) =
          PalEntry.r (DoBlending.scalar mem src dst count r g b a (dst + i)) ∧
        PalEntry.g (DoBlending_SSE2 target mem src dst count r g b a (dst + i)) =
          PalEntry.g (DoBlending.scalar mem src dst count r g b a (dst + i)) ∧
        PalEntry.b (DoBlending_SSE2 target mem src dst count r g b a (dst + i)) =
          PalEntry.b (DoBlending.scalar mem src dst count r g b a (dst + i)) ∧
        PalEntry.a (DoBlending_SSE2 target mem src dst count r g b a (dst + i)) = 0 ∧
        PalEntry.a (DoBlending.scalar mem src dst count r g b a (dst + i)) =
          PalEntry.a (mem (dst + i))) ∧
    (∀ x, x < dst ∨ dst + count ≤ x →
      DoBlending_SSE2 target mem src dst count r g b a x = mem x ∧
        DoBlending.scalar mem src dst count r g b a x = mem x) := by
  have e : 4 * (count / 4) = count := by omega
  have hv := DoBlending_SSE2.spec target r g b a hr hg hb ha1 ha2 mem src dst count
    (by rw [e]; exact hal)
  rw [e] at hv
  have hs : MapsPixels (ScalarPixel r g b a) mem
      (DoBlending.scalar mem src dst count r g b a) src dst count :=
    DoBlending.scalarLoop_spec r g b a hr hg hb (by omega) count src dst mem hal
  constructor
  · intro i hi
    have hvi := hv.2 i hi
    have hsi := hs.2 i hi
    obtain ⟨v1, v2, v3⟩ := VectorPixel.blended_vector r g b a hr hg hb (by omega) _ _ _ hvi
    obtain ⟨s1, s2, s3⟩ := ScalarPixel.blended_scalar r g b a hr hg hb (by omega) _ _ _ hsi
    have h1 := blendChannel_le r a (PalEntry.r (mem (src + i))) hr
      (by have := PalEntry.r_lt (mem (src + i)); omega) (by omega)
    have h2 := blendChannel_le g a (PalEntry.g (mem (src + i))) hg
      (by have := PalEntry.g_lt (mem (src + i)); omega) (by omega)
    have h3 := blendChannel_le b a (PalEntry.b (mem (src + i))) hb
      (by have := PalEntry.b_lt (mem (src + i)); omega) (by omega)
    refine ⟨by rw [v1, s1], by rw [v2, s2], by rw [v3, s3], ?_, ?_⟩
    · unfold VectorPixel at hvi
      rw [hvi]
      exact PalEntry.a_pack _ _ _ _ (by omega) (by omega) (by omega) (by omega)
    · unfold ScalarPixel at hsi
      rw [hsi]
      exact PalEntry.a_pack _ _ _ _ (PalEntry.a_lt _) (by omega) (by omega) (by omega)
  · intro x hx
    exact ⟨hv.1 x hx, hs.1 x hx⟩

/-- C8, amended, on four pixels blended in place at the unaligned address 2 for
the 32-bit x86 target. -/
theorem DoBlending_SSE2_scalar_rgb_witness :
    (PalEntry.r (DoBlending_SSE2 Target.ia32 opaqueRamp 2 2 4 200 100 50 77 (2 + 1)) =
        PalEntry.r (DoBlending.scalar opaqueRamp 2 2 4 200 100 50 77 (2 + 1)) ∧
      PalEntry.g (DoBlending_SSE2 Target.ia32 opaqueRamp 2 2 4 200 100 50 77 (2 + 1)) =
        PalEntry.g (DoBlending.scalar opaqueRamp 2 2 4 200 100 50 77 (2 + 1)) ∧
      PalEntry.b (DoBlending_SSE2 Target.ia32 opaqueRamp 2 2 4 200 100 50 77 (2 + 1)) =
        PalEntry.b (DoBlending.scalar opaqueRamp 2 2 4 200 100 50 77 (2 + 1)) ∧
      PalEntry.a (DoBlending_SSE2 Target.ia32 opaqueRamp 2 2 4 200 100 50 77 (2 + 1)) = 0 ∧
      PalEntry.a (DoBlending.scalar opaqueRamp 2 2 4 200 100 50 77 (2 + 1)) =
        PalEntry.a (opaqueRamp (2 + 1))) ∧
    DoBlending_SSE2 Target.ia32 opaqueRamp 2 2 4 200 100 50 77 3 = 4071957 ∧
    DoBlending.scalar opaqueRamp 2 2 4 200 100 50 77 3 = 4282262037 :=
  ⟨(DoBlending_SSE2_scalar_rgb Target.ia32 opaqueRamp 2 2 4 200 100 50 77 (by decide)
      (by decide) (by decide) (by decide) (by decide) (by decide) (Or.inl rfl)).1 1
      (by decide),
    by decide, by decide⟩

/-- C9: with `a = 0`, for source and destination buffers that are the same
buffer or do not overlap, `DoBlending` makes each of the first `count`
destination pixels equal to the source pixel, changes nothing at all when
source and destination are the same buffer, and changes no pixel outside the
first `count` destination pixels. -/
theorem DoBlending_zero_alpha (target : Target) (mem : Nat → Nat)
    (src dst count r g b : Nat) (hal : SameOrDisjoint src dst count) :
    (∀ i, i < count → DoBlending target mem src dst count r g b 0 (dst + i) = mem (src + i)) ∧
    (src = dst → DoBlending target mem src dst count r g b 0 = mem) ∧
    (∀ x, x < dst ∨ dst + count ≤ x → DoBlending target mem src dst count r g b 0 x = mem x) := by
  have _ := hal
  unfold DoBlending
  rw [if_pos rfl]
  by_cases h : src = dst
  · subst h
    simp
  · have h' : src ≠ dst := h
    rw [if_pos h']
    refine ⟨?_, fun e => absurd e h, ?_⟩
    · intro i hi
      unfold memcpy
      rw [if_pos (by omega)]
      congr 1
      omega
    · intro x hx
      unfold memcpy
      rw [if_neg (by omega)]

/-- C9 on six pixels copied from the address 3 to the address 9, and on six
pixels at the address 3 taken as source and destination. -/
theorem DoBlending_zero_alpha_witness :
    ((∀ i, i < 6 → DoBlending Target.amd64 opaqueRamp 3 9 6 1 2 3 0 (9 + i) = opaqueRamp (3 + i)) ∧
      (3 = 9 → DoBlending Target.amd64 opaqueRamp 3 9 6 1 2 3 0 = opaqueRamp) ∧
      (∀ x, x < 9 ∨ 9 + 6 ≤ x → DoBlending Target.amd64 opaqueRamp 3 9 6 1 2 3 0 x = opaqueRamp x)) ∧
    DoBlending Target.amd64 opaqueRamp 3 3 6 1 2 3 0 = opaqueRamp :=
  ⟨DoBlending_zero_alpha Target.amd64 opaqueRamp 3 9 6 1 2 3 (Or.inr (Or.inl (by decide))),
    (DoBlending_zero_alpha Target.amd64 opaqueRamp 3 3 6 1 2 3 (Or.inl rfl)).2.1 rfl⟩

/-- C10: with `a = 256` and `r`, `g`, `b` in `[0,255]`, `DoBlending` makes each
of the first `count` destination pixels the packed colour `(r, g, b)`, whose
fourth byte is 0, whatever the memory held before and wherever the source
buffer is, and changes no other pixel. -/
theorem DoBlending_full_alpha (target : Target) (mem : Nat → Nat)
    (src dst count r g b : Nat) (hr : r ≤ 255) (hg : g ≤ 255) (hb : b ≤ 255) :
    (∀ i, i < count →
      DoBlending target mem src dst count r g b 256 (dst + i) = MAKERGB r g b ∧
        PalEntry.r (DoBlending target mem src dst count r g b 256 (dst + i)) = r ∧
        PalEntry.g (DoBlending target mem src dst count r g b 256 (dst + i)) = g ∧
        PalEntry.b (DoBlending target mem src dst count r g b 256 (dst + i)) = b ∧
        PalEntry.a (DoBlending target mem src dst count r g b 256 (dst + i)) = 0) ∧
    (∀ x, x < dst ∨ dst + count ≤ x →
      DoBlending target mem src dst count r g b 256 x = mem x) := by
  have hfill : ∀ x, DoBlending target mem src dst count r g b 256 x =
      if dst ≤ x ∧ x < dst + count then MAKERGB r g b else mem x := by
    intro x
    unfold DoBlending
    rw [if_neg (by decide), if_pos rfl]
    exact fill_foldl (MAKERGB r g b) dst mem count x
  constructor
  · intro i hi
    rw [hfill (dst + i), if_pos (by omega), MAKERGB_eq r g b hr hg hb]
    exact ⟨rfl, PalEntry.r_pack _ _ _ _ (by omega) (by omega) (by omega),
      PalEntry.g_pack _ _ _ _ (by omega) (by omega), PalEntry.b_pack _ _ _ _ (by omega),
      PalEntry.a_pack _ _ _ _ (by omega) (by omega) (by omega) (by omega)⟩
  · intro x hx
    rw [hfill x, if_neg (by omega)]

/-- C10 on five pixels of an overlapping pair of buffers: every destination
pixel becomes `(10, 20, 30)`, the word `0x0A141E`. -/
theorem DoBlending_full_alpha_witness :
    MAKERGB 10 20 30 = 660510 ∧
    DoBlending Target.other opaqueRamp 3 4 5 10 20 30 256 (4 + 2) = 660510 ∧
    (∀ i, i < 5 →
      DoBlending Target.other opaqueRamp 3 4 5 10 20 30 256 (4 + i) = MAKERGB 10 20 30 ∧
        PalEntry.r (DoBlending Target.other opaqueRamp 3 4 5 10 20 30 256 (4 + i)) = 10 ∧
        PalEntry.g (DoBlending Target.other opaqueRamp 3 4 5 10 20 30 256 (4 + i)) = 20 ∧
        PalEntry.b (DoBlending Target.other opaqueRamp 3 4 5 10 20 30 256 (4 + i)) = 30 ∧
        PalEntry.a (DoBlending Target.other opaqueRamp 3 4 5 10 20 30 256 (4 + i)) = 0) :=
  ⟨by decide, by decide,
    (DoBlending_full_alpha Target.other opaqueRamp 3 4 5 10 20 30 (by decide) (by decide)
      (by decide)).1⟩

/-- C20: in the vector blend, for `r`, `g`, `b` and every source channel in
`[0,255]` and `a` in `[1,255]`, no 16-bit lane wraps or saturates: with `c` a
colour channel and `s` a source channel, `c * a ≤ 65025`,
`s * (256 - a) ≤ 65025`, `c * a + s * (256 - a) ≤ 65280 < 65536` and
`(c * a + s * (256 - a)) >> 8 ≤ 255`, so the wrapping multiply, the saturating
add and the saturating pack return the exact values; hence the red, green and
blue bytes that `DoBlending_SSE2` writes to a pixel are those that the scalar
loop writes to it. -/
theorem DoBlending_SSE2_lanes_exact (target : Target) (mem : Nat → Nat)
    (src dst count r g b a : Nat) (hr : r ≤ 255) (hg : g ≤ 255) (hb : b ≤ 255)
    (ha1 : 1 ≤ a) (ha2 : a ≤ 255) (hal : SameOrDisjoint src dst count) :
    (∀ c s, c ≤ 255 → s ≤ 255 →
      c * a ≤ 65025 ∧ s * (256 - a) ≤ 65025 ∧ c * a + s * (256 - a) ≤ 65280 ∧
      (c * a + s * (256 - a)) >>> 8 ≤ 255 ∧
      mm_mullo_epi16 [c] [a] = [c * a] ∧
      mm_mullo_epi16 [256 - a] [s] = [s * (256 - a)] ∧
      mm_adds_epu16 [c * a] [s * (256 - a)] = [c * a + s * (256 - a)] ∧
      mm_packus_epi16 (mm_srli_epi16 [c * a + s * (256 - a)] 8) [] =
        [(c * a + s * (256 - a)) >>> 8]) ∧
    (∀ i, i < 4 * (count / 4) →
      PalEntry.r (DoBlending_SSE2 target mem src dst count r g b a (dst + i)) =
          PalEntry.r (DoBlending.scalar mem src dst count r g b a (dst + i)) ∧
        PalEntry.g (DoBlending_SSE2 target mem src dst count r g b a (dst + i)) =
          PalEntry.g (DoBlending.scalar mem src dst count r g b a (dst + i)) ∧
        PalEntry.b (DoBlending_SSE2 target mem src dst count r g b a (dst + i)) =
          PalEntry.b (DoBlending.scalar mem src dst count r g b a (dst + i))) := by
  constructor
  · intro c s hc hs
    have h1 : c * a ≤ 255 * a := Nat.mul_le_mul_right a hc
    have h2 : s * (256 - a) ≤ 255 * (256 - a) := Nat.mul_le_mul_right _ hs
    have h3 : c * a ≤ 255 * 255 := Nat.mul_le_mul hc ha2
    have h4 : s * (256 - a) ≤ 255 * 255 := Nat.mul_le_mul hs (by omega)
    have h5 : (c * a + s * (256 - a)) >>> 8 ≤ 255 := by
      rw [Nat.shiftRight_eq_div_pow]
      norm_num
      omega
    refine ⟨by omega, by omega, by omega, h5, ?_, ?_, ?_, ?_⟩
    · simp only [mm_mullo_epi16, List.zipWith_cons_cons, List.zipWith_nil_right,
        List.cons.injEq, and_true]
      exact Nat.mod_eq_of_lt (by omega)
    · simp only [mm_mullo_epi16, List.zipWith_cons_cons, List.zipWith_nil_right,
        List.cons.injEq, and_true]
      rw [Nat.mul_comm]
      exact Nat.mod_eq_of_lt (by omega)
    · simp only [mm_adds_epu16, List.zipWith_cons_cons, List.zipWith_nil_right,
        List.cons.injEq, and_true]
      exact Nat.min_eq_left (by omega)
    · simp only [mm_packus_epi16, mm_srli_epi16, List.map_cons, List.map_nil,
        List.append_nil, List.cons.injEq, and_true]
      rw [if_neg (by omega)]
      exact Nat.min_eq_left h5
  · intro i hi
    have hcount : count = 4 * (count / 4) + count % 4 := by omega
    have hal' : SameOrDisjoint src dst (4 * (count / 4) + count % 4) := by
      rw [← hcount]; exact hal
    have hv := (DoBlending_SSE2.spec target r g b a hr hg hb ha1 ha2 mem src dst count
      hal'.head).2 i hi
    have hs := (DoBlending.scalarLoop_spec r g b a hr hg hb (by omega) count src dst mem
      hal).2 i (by omega)
    obtain ⟨v1, v2, v3⟩ := VectorPixel.blended_vector r g b a hr hg hb (by omega) _ _ _ hv
    obtain ⟨s1, s2, s3⟩ := ScalarPixel.blended_scalar r g b a hr hg hb (by omega) _ _ _ hs
    exact ⟨by rw [v1]; exact s1.symm, by rw [v2]; exact s2.symm, by rw [v3]; exact s3.symm⟩

/-- C20 on six pixels blended from the address 0 to the address 8 for the
64-bit x86 target: the lane facts for `c = 255`, `s = 255`, and the colour
bytes of pixel 3. -/
theorem DoBlending_SSE2_lanes_exact_witness :
    (255 * 77 ≤ 65025 ∧ 255 * (256 - 77) ≤ 65025 ∧ 255 * 77 + 255 * (256 - 77) ≤ 65280 ∧
      (255 * 77 + 255 * (256 - 77)) >>> 8 ≤ 255 ∧
      mm_mullo_epi16 [255] [77] = [255 * 77] ∧
      mm_mullo_epi16 [256 - 77] [255] = [255 * (256 - 77)] ∧
      mm_adds_epu16 [255 * 77] [255 * (256 - 77)] = [255 * 77 + 255 * (256 - 77)] ∧
      mm_packus_epi16 (mm_srli_epi16 [255 * 77 + 255 * (256 - 77)] 8) [] =
        [(255 * 77 + 255 * (256 - 77)) >>> 8]) ∧
    (PalEntry.r (DoBlending_SSE2 Target.amd64 opaqueRamp 0 8 6 200 100 50 77 (8 + 3)) =
        PalEntry.r (DoBlending.scalar opaqueRamp 0 8 6 200 100 50 77 (8 + 3)) ∧
      PalEntry.g (DoBlending_SSE2 Target.amd64 opaqueRamp 0 8 6 200 100 50 77 (8 + 3)) =
        PalEntry.g (DoBlending.scalar opaqueRamp 0 8 6 200 100 50 77 (8 + 3)) ∧
      PalEntry.b (DoBlending_SSE2 Target.amd64 opaqueRamp 0 8 6 200 100 50 77 (8 + 3)) =
        PalEntry.b (DoBlending.scalar opaqueRamp 0 8 6 200 100 50 77 (8 + 3))) :=
  ⟨(DoBlending_SSE2_lanes_exact Target.amd64 opaqueRamp 0 8 6 200 100 50 77 (by decide)
      (by decide) (by decide) (by decide) (by decide) (Or.inr (Or.inl (by decide)))).1
      255 255 (by decide) (by decide),
    (DoBlending_SSE2_lanes_exact Target.amd64 opaqueRamp 0 8 6 200 100 50 77 (by decide)
      (by decide) (by decide) (by decide) (by decide) (Or.inr (Or.inl (by decide)))).2
      3 (by decide)⟩

set_option maxRecDepth 100000 in
/-- C18 fails on the code: with the base palette `blueRamp` and the single
foreign colour `(0, 1, 255)`, which no base entry has, `MakeRemap` stores the
base index 254 for it, whatever `qsort` does, although the base entry 255 is
strictly nearer (squared distance 1 against 2): the near-match search over
`[1, 255)` never looks at entry 255. -/
theorem MakeRemap_near_match_skips_last :
    MakeRemap refQsort blueRamp nearBlue (fun _ => 0) none 1 0 = 254 ∧
    BestColor.dist blueRamp (RPART (nearBlue 0)) (GPART (nearBlue 0)) (BPART (nearBlue 0)) 255 = 1 ∧
    BestColor.dist blueRamp (RPART (nearBlue 0)) (GPART (nearBlue 0)) (BPART (nearBlue 0)) 254 = 2 ∧
    ∀ (qsort : List RemappingWork → List RemappingWork) (remap : Nat → Nat),
      SortsForRemap2 qsort → MakeRemap qsort blueRamp nearBlue remap none 1 0 = 254 := by
  refine ⟨by decide!, by decide, by decide, ?_⟩
  intro qsort remap hq
  have hperm := MakeRemap.perm_of_sorts qsort hq blueRamp nearBlue remap none 1
  obtain ⟨p, _, hent, hR⟩ :=
    MakeRemap.useful_spec qsort blueRamp nearBlue remap none 1 (by decide) hperm 0
      (by decide) rfl
  have hm : ¬ MakeRemap.Matched
      (qsort (MakeRemap.filled blueRamp nearBlue remap none 1).workspace) p := by
    intro hm
    obtain ⟨t, _, _, ht⟩ := MakeRemap.matched_target qsort blueRamp nearBlue remap none 1 hperm p hm
    have hc := hm.2.2.2
    rw [hent, ht] at hc
    have h := (and_mask_eq_iff _ _).1 hc
    unfold SameRGB PalEntry.r PalEntry.g PalEntry.b nearBlue blueRamp at h
    omega
  have hbest : BestColor blueRamp (RPART (nearBlue 0)) (GPART (nearBlue 0))
      (BPART (nearBlue 0)) 1 255 = 254 := by decide
  rw [hR, if_neg hm, MakeRemap.nearest_foreignItem, hbest]

/-! ## Facts about `PTM_BestColor` -/

/-- The loop of `PTM_BestColor` in forward mode, on costs that are not
negative, ends with the lowest index of least cost. -/
theorem PTM_BestColor.loop_forward {α : Type} [LinearOrder α] [Add α] [Zero α]
    (pal : Nat → Nat) (r g b : Int) (powtable : Nat → α) (first num : Nat)
    (hfn : first < num)
    (hnn : ∀ j, first ≤ j → j < num → 0 ≤ PTM_BestColor.fdist pal r g b powtable j) :
    ∀ (fuel color bestcolor : Nat) (fbestdist : α),
      first ≤ color → color + fuel = num →
      (color = first ∨
        (IsFirstMin (PTM_BestColor.fdist pal r g b powtable) first color bestcolor ∧
          fbestdist = PTM_BestColor.fdist pal r g b powtable bestcolor ∧ fbestdist ≠ 0)) →
      IsFirstMin (PTM_BestColor.fdist pal r g b powtable) first num
        (PTM_BestColor.loop pal r g b false powtable first num fuel color fbestdist
          bestcolor) := by
  intro fuel
  induction fuel with
  | zero =>
    intro color bestcolor fbestdist hfc hcn hst
    have hcn' : color = num := by omega
    subst hcn'
    rcases hst with h | ⟨h, _, _⟩
    · omega
    · simpa [PTM_BestColor.loop] using h
  | succ fuel ih =>
    intro color bestcolor fbestdist hfc hcn hst
    have hlt : color < num := by omega
    have h0 := hnn color hfc hlt
    simp only [PTM_BestColor.loop, hlt, if_true, Bool.false_eq_true, if_false, and_true]
    -- every index scanned so far costs more than nothing and at least `fbestdist`
    have hbelow : ∀ j, first ≤ j → j < color → fbestdist ≤ PTM_BestColor.fdist pal r g b powtable j ∧
        0 < PTM_BestColor.fdist pal r g b powtable j := by
      intro j hj1 hj2
      rcases hst with h | ⟨⟨hb1, hb2, hmin, _⟩, hbd, hne⟩
      · omega
      · have hle := hmin j hj1 hj2
        rw [← hbd] at hle
        have hpos : 0 < fbestdist := by
          rw [hbd] at hne ⊢
          exact lt_of_le_of_ne (hnn bestcolor hb1 (by omega)) (Ne.symm hne)
        exact ⟨hle, lt_of_lt_of_le hpos hle⟩
    by_cases hc : color = first ∨ PTM_BestColor.fdist pal r g b powtable color < fbestdist
    · rw [if_pos hc]
      have hless : ∀ j, first ≤ j → j < color →
          PTM_BestColor.fdist pal r g b powtable color <
            PTM_BestColor.fdist pal r g b powtable j := by
        intro j hj1 hj2
        rcases hc with h | h
        · omega
        · exact lt_of_lt_of_le h (hbelow j hj1 hj2).1
      by_cases hz : PTM_BestColor.fdist pal r g b powtable color = 0
      · rw [if_pos hz]
        refine ⟨hfc, hlt, ?_, hless⟩
        intro j hj1 hj2
        rw [hz]
        exact hnn j hj1 hj2
      · rw [if_neg hz]
        refine ih (color + 1) color _ (by omega) (by omega) (Or.inr ⟨⟨hfc, by omega, ?_, hless⟩,
          rfl, hz⟩)
        intro j hj1 hj2
        by_cases hjc : j = color
        · subst hjc; exact le_refl _
        · exact (hless j hj1 (by omega)).le
    · rw [if_neg hc]
      rw [not_or, not_lt] at hc
      rcases hst with h | ⟨⟨hb1, hb2, hmin, hlow⟩, hbd, hne⟩
      · exact absurd h hc.1
      · refine ih (color + 1) bestcolor fbestdist (by omega) (by omega)
          (Or.inr ⟨⟨hb1, by omega, ?_, hlow⟩, hbd, hne⟩)
        intro j hj1 hj2
        by_cases hjc : j = color
        · subst hjc
          rw [← hbd]
          exact hc.2
        · exact hmin j hj1 (by omega)

/-- The loop of `PTM_BestColor` in reverse mode ends with the highest index of
least cost. -/
theorem PTM_BestColor.loop_reverse {α : Type} [LinearOrder α] [Add α] [Zero α]
    (pal : Nat → Nat) (r g b : Int) (powtable : Nat → α) (first num : Nat)
    (hfn : first < num) :
    ∀ (fuel color bestcolor : Nat) (fbestdist : α),
      first ≤ color → color + fuel = num →
      (color = first ∨
        (IsLastMin (PTM_BestColor.fdist pal r g b powtable) first color bestcolor ∧
          fbestdist = PTM_BestColor.fdist pal r g b powtable bestcolor)) →
      IsLastMin (PTM_BestColor.fdist pal r g b powtable) first num
        (PTM_BestColor.loop pal r g b true powtable first num fuel color fbestdist
          bestcolor) := by
  intro fuel
  induction fuel with
  | zero =>
    intro color bestcolor fbestdist hfc hcn hst
    have hcn' : color = num := by omega
    subst hcn'
    rcases hst with h | ⟨h, _⟩
    · omega
    · simpa [PTM_BestColor.loop] using h
  | succ fuel ih =>
    intro color bestcolor fbestdist hfc hcn hst
    have hlt : color < num := by omega
    simp only [PTM_BestColor.loop, hlt, if_true, Bool.true_eq_false, and_false, if_false]
    by_cases hc : color = first ∨ PTM_BestColor.fdist pal r g b powtable color ≤ fbestdist
    · rw [if_pos hc]
      refine ih (color + 1) color _ (by omega) (by omega) (Or.inr ⟨⟨hfc, by omega, ?_, ?_⟩, rfl⟩)
      · intro j hj1 hj2
        by_cases hjc : j = color
        · subst hjc; exact le_refl _
        · rcases hc with h | h
          · omega
          · rcases hst with h' | ⟨⟨_, _, hmin, _⟩, hbd⟩
            · omega
            · rw [hbd] at h
              exact le_trans h (hmin j hj1 (by omega))
      · intro j hj1 hj2
        omega
    · rw [if_neg hc]
      rw [not_or, not_le] at hc
      rcases hst with h | ⟨⟨hb1, hb2, hmin, hlast⟩, hbd⟩
      · exact absurd h hc.1
      · refine ih (color + 1) bestcolor fbestdist (by omega) (by omega)
          (Or.inr ⟨⟨hb1, by omega, ?_, ?_⟩, hbd⟩)
        · intro j hj1 hj2
          by_cases hjc : j = color
          · subst hjc
            rw [← hbd]
            exact hc.2.le
          · exact hmin j hj1 (by omega)
        · intro j hj1 hj2
          by_cases hjc : j = color
          · subst hjc
            rw [← hbd]
            exact hc.2
          · exact hlast j hj1 (by omega)

/-- The rebuilding loop writes the 256 elements of the table. -/
theorem PTM_BestColor.rebuild_spec {γ α : Type} (pow : Nat → γ → α) (pt : γ)
    (powtable : Nat → α) (x : Nat) :
    PTM_BestColor.rebuild pow pt powtable x = if x < 256 then pow x pt else powtable x := by
  have key : ∀ n, (List.range n).foldl (fun t x => Function.update t x (pow x pt)) powtable x =
      if x < n then pow x pt else powtable x := by
    intro n
    induction n with
    | zero => simp
    | succ n ih =>
      rw [List.range_succ, List.foldl_append]
      simp only [List.foldl_cons, List.foldl_nil]
      by_cases hx : x = n
      · subst hx
        rw [Function.update_same, if_pos (by omega)]
      · rw [Function.update_noteq hx, ih]
        by_cases h : x < n
        · rw [if_pos h, if_pos (by omega)]
        · rw [if_neg h, if_neg (by omega)]
  exact key 256

/-- After a call on valid static locals, the static locals are valid, the
table is the one for the exponent of the call, and the value returned is the
stateless one. -/
theorem PTM_BestColor.call_spec {γ α : Type} [DecidableEq γ] [LinearOrder α] [Add α] [Zero α]
    (pow : Nat → γ → α) (dblMax : α) (st : PTM_BestColor.Statics γ α)
    (hst : PTM_BestColor.Valid pow st) (c : PTM_BestColor.Args γ) :
    (PTM_BestColor.call pow dblMax st c).2.firstTime = false ∧
    (PTM_BestColor.call pow dblMax st c).2.trackpowtable = c.powtable_val ∧
    (PTM_BestColor.call pow dblMax st c).2.powtable =
      PTM_BestColor.table pow c.powtable_val ∧
    PTM_BestColor.Valid pow (PTM_BestColor.call pow dblMax st c).2 ∧
    (PTM_BestColor.call pow dblMax st c).1 = PTM_BestColor.stateless pow dblMax c := by
  have htab : (PTM_BestColor.call pow dblMax st c).2.powtable =
      PTM_BestColor.table pow c.powtable_val ∧
      (PTM_BestColor.call pow dblMax st c).2.firstTime = false ∧
      (PTM_BestColor.call pow dblMax st c).2.trackpowtable = c.powtable_val := by
    unfold PTM_BestColor.call PTM_BestColor
    by_cases h : st.firstTime = true ∨ st.trackpowtable ≠ c.powtable_val
    · simp only [if_pos h, and_self, and_true]
      funext x
      rw [PTM_BestColor.rebuild_spec]
      unfold PTM_BestColor.table
      by_cases hx : x < 256
      · rw [if_pos hx, if_pos hx]
      · rw [if_neg hx, if_neg hx]
        exact hst.1 x (by omega)
    · simp only [if_neg h]
      rw [not_or, not_not, Bool.not_eq_true] at h
      refine ⟨?_, h.1, h.2⟩
      funext x
      unfold PTM_BestColor.table
      by_cases hx : x < 256
      · rw [if_pos hx, hst.2 h.1 x hx, h.2]
      · rw [if_neg hx]
        exact hst.1 x (by omega)
  obtain ⟨h1, h2, h3⟩ := htab
  refine ⟨h2, h3, h1, ⟨?_, ?_⟩, ?_⟩
  · intro x hx
    rw [h1]
    unfold PTM_BestColor.table
    rw [if_neg (by omega)]
  · intro _ x hx
    rw [h1, h3]
    unfold PTM_BestColor.table
    rw [if_pos hx]
  · have hres : (PTM_BestColor.call pow dblMax st c).1 =
        PTM_BestColor.loop c.pal c.r c.g c.b c.reverselookup
          (PTM_BestColor.call pow dblMax st c).2.powtable c.first c.num (c.num - c.first)
          c.first dblMax 0 := rfl
    rw [hres, h1]
    rfl

theorem PTM_BestColor.valid_initial {γ α : Type} [Zero γ] [Zero α] (pow : Nat → γ → α) :
    PTM_BestColor.Valid pow (PTM_BestColor.initial γ α) :=
  ⟨fun _ _ => rfl, fun h => by simp [PTM_BestColor.initial] at h⟩

theorem PTM_BestColor.after_concat {γ α : Type} [DecidableEq γ] [Zero γ] [LinearOrder α]
    [Add α] [Zero α] (pow : Nat → γ → α) (dblMax : α) (cs : List (PTM_BestColor.Args γ))
    (c : PTM_BestColor.Args γ) :
    PTM_BestColor.after pow dblMax (cs ++ [c]) =
      (PTM_BestColor.call pow dblMax (PTM_BestColor.after pow dblMax cs) c).2 := by
  unfold PTM_BestColor.after
  rw [List.foldl_append]
  rfl

/-- The static locals are valid after every sequence of calls. -/
theorem PTM_BestColor.valid_after {γ α : Type} [DecidableEq γ] [Zero γ] [LinearOrder α]
    [Add α] [Zero α] (pow : Nat → γ → α) (dblMax : α) (cs : List (PTM_BestColor.Args γ)) :
    PTM_BestColor.Valid pow (PTM_BestColor.after pow dblMax cs) := by
  induction cs using List.reverseRecOn with
  | nil => exact PTM_BestColor.valid_initial pow
  | append_singleton cs c ih =>
    rw [PTM_BestColor.after_concat]
    exact (PTM_BestColor.call_spec pow dblMax _ ih c).2.2.2.1

/-- C15: with the static power table as explicit state, a call of
`PTM_BestColor` after any sequence of earlier calls rebuilds the table exactly
when it is the first call or its exponent differs from the exponent last used,
and leaves the static locals as they are otherwise; after the call the table
holds `pow(x/255, gamma)` for the exponent just requested at every `x` in
`0..255`, and the value returned is the one that the arguments of the call
alone determine. -/
theorem PTM_BestColor_cache {γ α : Type} [DecidableEq γ] [Zero γ] [LinearOrder α] [Add α]
    [Zero α] (pow : Nat → γ → α) (dblMax : α) (cs : List (PTM_BestColor.Args γ))
    (c : PTM_BestColor.Args γ) :
    ((PTM_BestColor.after pow dblMax cs).firstTime = true ↔ cs = []) ∧
    (∀ c', cs.getLast? = some c' →
      (PTM_BestColor.after pow dblMax cs).trackpowtable = c'.powtable_val) ∧
    (((PTM_BestColor.after pow dblMax cs).firstTime = true ∨
        (PTM_BestColor.after pow dblMax cs).trackpowtable ≠ c.powtable_val) →
      (PTM_BestColor.call pow dblMax (PTM_BestColor.after pow dblMax cs) c).2.powtable =
        PTM_BestColor.rebuild pow c.powtable_val (PTM_BestColor.after pow dblMax cs).powtable) ∧
    (¬ ((PTM_BestColor.after pow dblMax cs).firstTime = true ∨
        (PTM_BestColor.after pow dblMax cs).trackpowtable ≠ c.powtable_val) →
      (PTM_BestColor.call pow dblMax (PTM_BestColor.after pow dblMax cs) c).2 =
        PTM_BestColor.after pow dblMax cs) ∧
    (∀ x, x < 256 →
      (PTM_BestColor.call pow dblMax (PTM_BestColor.after pow dblMax cs) c).2.powtable x =
        pow x c.powtable_val) ∧
    (PTM_BestColor.call pow dblMax (PTM_BestColor.after pow dblMax cs) c).1 =
      PTM_BestColor.stateless pow dblMax c := by
  have hspec := PTM_BestColor.call_spec pow dblMax _ (PTM_BestColor.valid_after pow dblMax cs) c
  refine ⟨?_, ?_, ?_, ?_, ?_, hspec.2.2.2.2⟩
  · induction cs using List.reverseRecOn with
    | nil => simp [PTM_BestColor.after, PTM_BestColor.initial]
    | append_singleton cs c' _ =>
      rw [PTM_BestColor.after_concat,
        (PTM_BestColor.call_spec pow dblMax _ (PTM_BestColor.valid_after pow dblMax cs) c').1]
      simp
  · intro c' hc'
    induction cs using List.reverseRecOn with
    | nil => simp at hc'
    | append_singleton cs c'' _ =>
      rw [List.getLast?_append] at hc'
      simp only [List.getLast?_singleton, Option.or_some, Option.some.injEq] at hc'
      subst hc'
      rw [PTM_BestColor.after_concat]
      exact (PTM_BestColor.call_spec pow dblMax _
        (PTM_BestColor.valid_after pow dblMax cs) c'').2.1
  · intro h
    unfold PTM_BestColor.call PTM_BestColor
    simp only [if_pos h]
  · intro h
    unfold PTM_BestColor.call PTM_BestColor
    simp only [if_neg h]
  · intro x hx
    rw [hspec.2.2.1]
    unfold PTM_BestColor.table
    rw [if_pos hx]

/-- A call of `PTM_BestColor` returns what the loop returns on the table that
the call leaves behind. -/
theorem PTM_BestColor.fst_eq {γ α : Type} [DecidableEq γ] [LinearOrder α] [Add α] [Zero α]
    (pow : Nat → γ → α) (dblMax : α) (st : PTM_BestColor.Statics γ α) (pal : Nat → Nat)
    (r g b : Int) (reverselookup : Bool) (powtable_val : γ) (first num : Nat) :
    (PTM_BestColor pow dblMax st pal r g b reverselookup powtable_val first num).1 =
      PTM_BestColor.loop pal r g b reverselookup
        (PTM_BestColor pow dblMax st pal r g b reverselookup powtable_val first num).2.powtable
        first num (num - first) first dblMax 0 := rfl

/-- C14: for every palette, query colour, static locals (so every power
table) and range `first < num`, `PTM_BestColor` with `reverselookup = false`
returns, when the costs `powtable[|dr|] + powtable[|dg|] + powtable[|db|]` of
the range are non-negative, the lowest index of `[first, num)` of least cost,
and with `reverselookup = true` the highest index of `[first, num)` of least
cost; the costs are those of the table that the call leaves in the static
locals, in any linear order. -/
theorem PTM_BestColor_lowest_highest {γ α : Type} [DecidableEq γ] [LinearOrder α] [Add α]
    [Zero α] (pow : Nat → γ → α) (dblMax : α) (st : PTM_BestColor.Statics γ α)
    (pal : Nat → Nat) (r g b : Int) (powtable_val : γ) (first num : Nat)
    (hfn : first < num) :
    ((∀ j, first ≤ j → j < num → 0 ≤ PTM_BestColor.fdist pal r g b
        (PTM_BestColor pow dblMax st pal r g b false powtable_val first num).2.powtable j) →
      IsFirstMin (PTM_BestColor.fdist pal r g b
          (PTM_BestColor pow dblMax st pal r g b false powtable_val first num).2.powtable)
        first num
        (PTM_BestColor pow dblMax st pal r g b false powtable_val first num).1) ∧
    IsLastMin (PTM_BestColor.fdist pal r g b
        (PTM_BestColor pow dblMax st pal r g b true powtable_val first num).2.powtable)
      first num
      (PTM_BestColor pow dblMax st pal r g b true powtable_val first num).1 := by
  constructor
  · intro hnn
    rw [PTM_BestColor.fst_eq]
    exact PTM_BestColor.loop_forward pal r g b _ first num hfn hnn (num - first) first 0
      dblMax (le_refl _) (by omega) (Or.inl rfl)
  · rw [PTM_BestColor.fst_eq]
    exact PTM_BestColor.loop_reverse pal r g b _ first num hfn (num - first) first 0
      dblMax (le_refl _) (by omega) (Or.inl rfl)

/-- C14 at the palette holding the colour `(1,2,3)` at the indices 5 and 9 only,
with the table of squares: over `[2, 12)` the forward search returns 5 and the
reverse search returns 9. -/
theorem PTM_BestColor_lowest_highest_witness :
    2 < 12 ∧
    ((PTM_BestColor (fun x (p : Nat) => x ^ p) 1000000 (PTM_BestColor.initial Nat Nat)
        twoMatches 1 2 3 false 2 2 12).1 = 5 ∧
      (PTM_BestColor (fun x (p : Nat) => x ^ p) 1000000 (PTM_BestColor.initial Nat Nat)
        twoMatches 1 2 3 true 2 2 12).1 = 9) ∧
    (IsFirstMin (PTM_BestColor.fdist twoMatches 1 2 3
          (PTM_BestColor (fun x (p : Nat) => x ^ p) 1000000 (PTM_BestColor.initial Nat Nat)
            twoMatches 1 2 3 false 2 2 12).2.powtable)
        2 12
        (PTM_BestColor (fun x (p : Nat) => x ^ p) 1000000 (PTM_BestColor.initial Nat Nat)
          twoMatches 1 2 3 false 2 2 12).1 ∧
      IsLastMin (PTM_BestColor.fdist twoMatches 1 2 3
          (PTM_BestColor (fun x (p : Nat) => x ^ p) 1000000 (PTM_BestColor.initial Nat Nat)
            twoMatches 1 2 3 true 2 2 12).2.powtable)
        2 12
        (PTM_BestColor (fun x (p : Nat) => x ^ p) 1000000 (PTM_BestColor.initial Nat Nat)
          twoMatches 1 2 3 true 2 2 12).1) :=
  ⟨by decide, ⟨by decide!, by decide!⟩,
    ⟨(PTM_BestColor_lowest_highest (fun x (p : Nat) => x ^ p) 1000000
        (PTM_BestColor.initial Nat Nat) twoMatches 1 2 3 2 2 12 (by decide)).1
        (fun _ _ _ => Nat.zero_le _),
      (PTM_BestColor_lowest_highest (fun x (p : Nat) => x ^ p) 1000000
        (PTM_BestColor.initial Nat Nat) twoMatches 1 2 3 2 2 12 (by decide)).2⟩⟩

/-- With the query in `[0,255]` the table is read inside its 256 elements. -/
theorem PTM_BestColor.natAbs_lt (r : Int) (c : Nat) (hr : 0 ≤ r ∧ r ≤ 255) (hc : c < 256) :
    Int.natAbs (r - (c : Int)) < 256 := by
  omega

/-- On a table that is 0 at 0 and positive at `1..255`, the cost of an entry is
not negative, and it is 0 exactly at the entries of the colour asked for. -/
theorem PTM_BestColor.fdist_spec {α : Type} [LinearOrderedAddCommMonoid α]
    (pal : Nat → Nat) (r g b : Int) (powtable : Nat → α)
    (hr : 0 ≤ r ∧ r ≤ 255) (hg : 0 ≤ g ∧ g ≤ 255) (hb : 0 ≤ b ∧ b ≤ 255)
    (h0 : powtable 0 = 0) (hpos : ∀ x, 1 ≤ x → x ≤ 255 → 0 < powtable x) (i : Nat) :
    0 ≤ PTM_BestColor.fdist pal r g b powtable i ∧
    (PTM_BestColor.fdist pal r g b powtable i = 0 ↔
      (PalEntry.r (pal i) : Int) = r ∧ (PalEntry.g (pal i) : Int) = g ∧
        (PalEntry.b (pal i) : Int) = b) := by
  have hnn : ∀ x, x < 256 → 0 ≤ powtable x := by
    intro x hx
    by_cases h : x = 0
    · rw [h, h0]
    · exact le_of_lt (hpos x (by omega) (by omega))
  have hz : ∀ x, x < 256 → (powtable x = 0 ↔ x = 0) := by
    intro x hx
    constructor
    · intro h
      by_contra hne
      have := hpos x (by omega) (by omega)
      rw [h] at this
      exact lt_irrefl _ this
    · intro h
      rw [h, h0]
  have h1 := PTM_BestColor.natAbs_lt r _ hr (PalEntry.r_lt (pal i))
  have h2 := PTM_BestColor.natAbs_lt g _ hg (PalEntry.g_lt (pal i))
  have h3 := PTM_BestColor.natAbs_lt b _ hb (PalEntry.b_lt (pal i))
  unfold PTM_BestColor.fdist
  simp only
  refine ⟨add_nonneg (add_nonneg (hnn _ h1) (hnn _ h2)) (hnn _ h3), ?_⟩
  rw [add_eq_zero_iff_of_nonneg (add_nonneg (hnn _ h1) (hnn _ h2)) (hnn _ h3),
    add_eq_zero_iff_of_nonneg (hnn _ h1) (hnn _ h2), hz _ h1, hz _ h2, hz _ h3]
  omega

/-- When every entry of the range has the same cost, the forward search
returns `first`. -/
theorem IsFirstMin.eq_first_of_const {α : Type} [LinearOrder α] (cost : Nat → α)
    (first hi k : Nat) (h : IsFirstMin cost first hi k)
    (hc : ∀ j, first ≤ j → j < hi → cost j = cost first) : k = first := by
  obtain ⟨h1, h2, _, h4⟩ := h
  by_contra hne
  have := h4 first (le_refl _) (by omega)
  rw [hc k h1 h2] at this
  exact lt_irrefl _ this

/-- With the exponent 0 every element of the table is 1, every cost is 3, and
the forward search returns `first` whatever the palette holds. -/
theorem PTM_BestColor.gamma_zero_first (st : PTM_BestColor.Statics Nat ℚ)
    (hst : PTM_BestColor.Valid PTM_BestColor.powQ st) (pal : Nat → Nat) (r g b : Int)
    (hr : 0 ≤ r ∧ r ≤ 255) (hg : 0 ≤ g ∧ g ≤ 255) (hb : 0 ≤ b ∧ b ≤ 255)
    (first num : Nat) (hfn : first < num) :
    (PTM_BestColor PTM_BestColor.powQ DBL_MAX st pal r g b false 0 first num).1 = first := by
  have hspec := PTM_BestColor.call_spec PTM_BestColor.powQ DBL_MAX st hst
    ⟨pal, r, g, b, false, 0, first, num⟩
  have htab : (PTM_BestColor PTM_BestColor.powQ DBL_MAX st pal r g b false 0 first
      num).2.powtable = PTM_BestColor.table PTM_BestColor.powQ 0 := hspec.2.2.1
  have hcost : ∀ j, PTM_BestColor.fdist pal r g b
      (PTM_BestColor.table PTM_BestColor.powQ 0) j = 3 := by
    intro j
    have h1 := PTM_BestColor.natAbs_lt r _ hr (PalEntry.r_lt (pal j))
    have h2 := PTM_BestColor.natAbs_lt g _ hg (PalEntry.g_lt (pal j))
    have h3 := PTM_BestColor.natAbs_lt b _ hb (PalEntry.b_lt (pal j))
    unfold PTM_BestColor.fdist PTM_BestColor.table PTM_BestColor.powQ
    simp only [if_pos h1, if_pos h2, if_pos h3, pow_zero]
    norm_num
  have hmin : IsFirstMin (PTM_BestColor.fdist pal r g b
      (PTM_BestColor.table PTM_BestColor.powQ 0)) first num
      (PTM_BestColor PTM_BestColor.powQ DBL_MAX st pal r g b false 0 first num).1 := by
    rw [PTM_BestColor.fst_eq, htab]
    refine PTM_BestColor.loop_forward pal r g b _ first num hfn ?_ (num - first) first 0
      DBL_MAX (le_refl _) (by omega) (Or.inl rfl)
    intro j _ _
    rw [hcost]
    norm_num
  exact IsFirstMin.eq_first_of_const _ first num _ hmin
    (fun j _ _ => by rw [hcost, hcost])

/-- C16 fails at the exponent 0: on the palette that holds the colour `(1,2,3)`
at the indices 5 and 9 and black elsewhere, the forward search for `(1,2,3)`
over `[2, 12)` with `gamma = 0` returns the index 2, a black entry, although
the range holds the colour; `BestColor` returns 5. -/
theorem PTM_BestColor_gamma_zero_counterexample :
    ((PalEntry.r (twoMatches 5) : Int) = 1 ∧ (PalEntry.g (twoMatches 5) : Int) = 2 ∧
      (PalEntry.b (twoMatches 5) : Int) = 3) ∧
    (PTM_BestColor PTM_BestColor.powQ DBL_MAX (PTM_BestColor.initial Nat ℚ) twoMatches
      1 2 3 false 0 2 12).1 = 2 ∧
    ((PalEntry.r (twoMatches 2) : Int) = 0 ∧ (PalEntry.g (twoMatches 2) : Int) = 0 ∧
      (PalEntry.b (twoMatches 2) : Int) = 0) ∧
    BestColor twoMatches 1 2 3 2 12 = 5 :=
  ⟨by decide,
    PTM_BestColor.gamma_zero_first _ (PTM_BestColor.valid_initial _) twoMatches 1 2 3
      (by decide) (by decide) (by decide) 2 12 (by decide),
    by decide, by decide⟩

/-- C16, amended: for every palette, every sequence of earlier calls, every
exponent whose table is 0 at 0 and positive at `1..255`, every query `(r,g,b)`
in `[0,255]` and every range `[first, num)` that holds an entry of exactly the
colour `(r,g,b)`, `PTM_BestColor` with `reverselookup = false` and `BestColor`
both return an index of `[first, num)` whose colour is exactly `(r,g,b)`. -/
theorem PTM_BestColor_exact_of_positive {γ α : Type} [DecidableEq γ] [Zero γ]
    [LinearOrderedAddCommMonoid α] (pow : Nat → γ → α) (dblMax : α)
    (cs : List (PTM_BestColor.Args γ)) (pal : Nat → Nat) (r g b : Int) (powtable_val : γ)
    (first num j : Nat)
    (h0 : pow 0 powtable_val = 0) (hpos : ∀ x, 1 ≤ x → x ≤ 255 → 0 < pow x powtable_val)
    (hj1 : first ≤ j) (hj2 : j < num)
    (hj : (PalEntry.r (pal j) : Int) = r ∧ (PalEntry.g (pal j) : Int) = g ∧
      (PalEntry.b (pal j) : Int) = b) :
    (first ≤ (PTM_BestColor pow dblMax (PTM_BestColor.after pow dblMax cs) pal r g b false
        powtable_val first num).1 ∧
      (PTM_BestColor pow dblMax (PTM_BestColor.after pow dblMax cs) pal r g b false
        powtable_val first num).1 < num ∧
      (PalEntry.r (pal (PTM_BestColor pow dblMax (PTM_BestColor.after pow dblMax cs) pal r g b
        false powtable_val first num).1) : Int) = r ∧
      (PalEntry.g (pal (PTM_BestColor pow dblMax (PTM_BestColor.after pow dblMax cs) pal r g b
        false powtable_val first num).1) : Int) = g ∧
      (PalEntry.b (pal (PTM_BestColor pow dblMax (PTM_BestColor.after pow dblMax cs) pal r g b
        false powtable_val first num).1) : Int) = b) ∧
    (first ≤ BestColor pal r g b first num ∧ BestColor pal r g b first num < num ∧
      (PalEntry.r (pal (BestColor pal r g b first num)) : Int) = r ∧
      (PalEntry.g (pal (BestColor pal r g b first num)) : Int) = g ∧
      (PalEntry.b (pal (BestColor pal r g b first num)) : Int) = b) := by
  have hr := PalEntry.r_lt (pal j)
  have hg := PalEntry.g_lt (pal j)
  have hb := PalEntry.b_lt (pal j)
  have hr' : 0 ≤ r ∧ r ≤ 255 := by omega
  have hg' : 0 ≤ g ∧ g ≤ 255 := by omega
  have hb' : 0 ≤ b ∧ b ≤ 255 := by omega
  constructor
  · have hspec := PTM_BestColor.call_spec pow dblMax _
      (PTM_BestColor.valid_after pow dblMax cs) ⟨pal, r, g, b, false, powtable_val, first, num⟩
    have htab : (PTM_BestColor pow dblMax (PTM_BestColor.after pow dblMax cs) pal r g b false
        powtable_val first num).2.powtable = PTM_BestColor.table pow powtable_val :=
      hspec.2.2.1
    have hT0 : PTM_BestColor.table pow powtable_val 0 = 0 := by
      unfold PTM_BestColor.table
      rw [if_pos (by norm_num), h0]
    have hTpos : ∀ x, 1 ≤ x → x ≤ 255 → 0 < PTM_BestColor.table pow powtable_val x := by
      intro x hx1 hx2
      unfold PTM_BestColor.table
      rw [if_pos (by omega)]
      exact hpos x hx1 hx2
    have hcost := PTM_BestColor.fdist_spec pal r g b (PTM_BestColor.table pow powtable_val)
      hr' hg' hb' hT0 hTpos
    have hmin : IsFirstMin (PTM_BestColor.fdist pal r g b
        (PTM_BestColor.table pow powtable_val)) first num
        (PTM_BestColor pow dblMax (PTM_BestColor.after pow dblMax cs) pal r g b false
          powtable_val first num).1 := by
      rw [PTM_BestColor.fst_eq, htab]
      exact PTM_BestColor.loop_forward pal r g b _ first num (by omega)
        (fun i _ _ => (hcost i).1) (num - first) first 0 dblMax (le_refl _) (by omega)
        (Or.inl rfl)
    obtain ⟨h1, h2, h3, _⟩ := hmin
    refine ⟨h1, h2, ((hcost _).2).1 ?_⟩
    have h := h3 j hj1 hj2
    rw [((hcost j).2).2 hj] at h
    exact le_antisymm h (hcost _).1
  · obtain ⟨h1, h2, h3, _⟩ := BestColor.isNearest_of_init pal r g b first num (by omega)
      (fun i => BestColor.dist_lt_init pal r g b i hr' hg' hb')
    have hzero : BestColor.dist pal r g b (BestColor pal r g b first num) = 0 := by
      have h := h3 j hj1 hj2
      rw [(BestColor.dist_eq_zero_iff pal r g b j).2 hj] at h
      have := BestColor.dist_nonneg pal r g b (BestColor pal r g b first num)
      omega
    exact ⟨h1, h2, (BestColor.dist_eq_zero_iff pal r g b _).1 hzero⟩

/-- C16, amended, with the exponent 2 in exact arithmetic on the palette that
holds `(1,2,3)` at the indices 5 and 9: both searches over `[2, 12)` return an
index holding `(1,2,3)`. -/
theorem PTM_BestColor_exact_of_positive_witness :
    (PTM_BestColor.powQ 0 2 = 0 ∧ (∀ x, 1 ≤ x → x ≤ 255 → 0 < PTM_BestColor.powQ x 2)) ∧
    ((2 ≤ (PTM_BestColor PTM_BestColor.powQ DBL_MAX
        (PTM_BestColor.after PTM_BestColor.powQ DBL_MAX []) twoMatches 1 2 3 false
        2 2 12).1 ∧
      (PTM_BestColor PTM_BestColor.powQ DBL_MAX
        (PTM_BestColor.after PTM_BestColor.powQ DBL_MAX []) twoMatches 1 2 3 false
        2 2 12).1 < 12 ∧
      (PalEntry.r (twoMatches (PTM_BestColor PTM_BestColor.powQ DBL_MAX
        (PTM_BestColor.after PTM_BestColor.powQ DBL_MAX []) twoMatches 1 2 3 false
        2 2 12).1) : Int) = 1 ∧
      (PalEntry.g (twoMatches (PTM_BestColor PTM_BestColor.powQ DBL_MAX
        (PTM_BestColor.after PTM_BestColor.powQ DBL_MAX []) twoMatches 1 2 3 false
        2 2 12).1) : Int) = 2 ∧
      (PalEntry.b (twoMatches (PTM_BestColor PTM_BestColor.powQ DBL_MAX
        (PTM_BestColor.after PTM_BestColor.powQ DBL_MAX []) twoMatches 1 2 3 false
        2 2 12).1) : Int) = 3) ∧
    (2 ≤ BestColor twoMatches 1 2 3 2 12 ∧ BestColor twoMatches 1 2 3 2 12 < 12 ∧
      (PalEntry.r (twoMatches (BestColor twoMatches 1 2 3 2 12)) : Int) = 1 ∧
      (PalEntry.g (twoMatches (BestColor twoMatches 1 2 3 2 12)) : Int) = 2 ∧
      (PalEntry.b (twoMatches (BestColor twoMatches 1 2 3 2 12)) : Int) = 3)) :=
  ⟨⟨by norm_num [PTM_BestColor.powQ], fun x hx _ => by
      unfold PTM_BestColor.powQ
      have : (0 : ℚ) < (x : ℚ) := by exact_mod_cast hx
      positivity⟩,
    PTM_BestColor_exact_of_positive PTM_BestColor.powQ DBL_MAX [] twoMatches 1 2 3 2 2 12 9
      (by norm_num [PTM_BestColor.powQ]) (fun x hx _ => by
        unfold PTM_BestColor.powQ
        have : (0 : ℚ) < (x : ℚ) := by exact_mod_cast hx
        positivity)
      (by decide) (by decide) (by decide)⟩

/-! ## `MakeGoodRemap` -/

theorem sortforremap_le_iff (a b : Nat) :
    sortforremap a b ≤ 0 ↔ a &&& 0xFFFFFF ≤ b &&& 0xFFFFFF := by
  unfold sortforremap
  rw [and_mask_eq_mod, and_mask_eq_mod]
  have ha : a % 16777216 < 16777216 := Nat.mod_lt _ (by norm_num)
  have hb : b % 16777216 < 16777216 := Nat.mod_lt _ (by norm_num)
  have hbmod : Int.bmod (((a % 16777216 : Nat) : Int) - ((b % 16777216 : Nat) : Int))
      4294967296 = ((a % 16777216 : Nat) : Int) - ((b % 16777216 : Nat) : Int) := by
    unfold Int.bmod
    dsimp only
    split_ifs <;> omega
  rw [hbmod]
  omega

theorem refQsort32_sorts : SortsForRemap refQsort32 := by
  intro l
  refine ⟨List.perm_insertionSort _ l, ?_⟩
  have key : (refQsort32 l).Pairwise (fun a b => decide (sortforremap a b ≤ 0) = true) := by
    unfold refQsort32
    induction l with
    | nil => simp
    | cons a l ih =>
      rw [List.insertionSort]
      apply pairwise_orderedInsert _ a _ ih
      · intro b _ hab
        simp only [decide_eq_true_eq] at hab ⊢
        rw [sortforremap_le_iff] at hab ⊢
        omega
      · intro b _ c _ hab hbc
        simp only [decide_eq_true_eq] at hab hbc ⊢
        rw [sortforremap_le_iff] at hab hbc ⊢
        omega
  exact key.imp (fun h => of_decide_eq_true h)

/-- The identity loop writes `Remap[0 .. 256)`. -/
theorem MakeGoodRemap.identity_spec (Remap : Nat → Nat) (x : Nat) :
    MakeGoodRemap.identity Remap x = if x < 256 then x else Remap x := by
  have key : ∀ n, n ≤ 256 →
      (List.range n).foldl (fun m i => Function.update m i (i % 256)) Remap x =
      if x < n then x else Remap x := by
    intro n
    induction n with
    | zero => simp
    | succ n ih =>
      intro hn
      rw [List.range_succ, List.foldl_append]
      simp only [List.foldl_cons, List.foldl_nil]
      by_cases hx : x = n
      · subst hx
        rw [Function.update_same, if_pos (by omega)]
        omega
      · rw [Function.update_noteq hx, ih (by omega)]
        by_cases h : x < n
        · rw [if_pos h, if_pos (by omega)]
        · rw [if_neg h, if_neg (by omega)]
  exact key 256 (le_refl _)

/-- The first loop either finds no entry equal to `color0` and leaves `Remap`
as it is, or stores the lowest index that holds `color0` in `Remap[0]`. -/
theorem MakeGoodRemap.firstLoop_spec (BaseColors : Nat → Nat) (color0 : Nat) :
    ∀ (fuel i : Nat) (Remap : Nat → Nat), i + fuel = 256 →
      ((∀ j, i ≤ j → j < 256 → BaseColors j ≠ color0) ∧
        MakeGoodRemap.firstLoop BaseColors color0 fuel i Remap = Remap) ∨
      (∃ j, i ≤ j ∧ j < 256 ∧ BaseColors j = color0 ∧
        (∀ j', i ≤ j' → j' < j → BaseColors j' ≠ color0) ∧
        MakeGoodRemap.firstLoop BaseColors color0 fuel i Remap =
          Function.update Remap 0 j) := by
  intro fuel
  induction fuel with
  | zero =>
    intro i Remap hi
    left
    exact ⟨fun j h1 h2 => by omega, rfl⟩
  | succ fuel ih =>
    intro i Remap hi
    rw [MakeGoodRemap.firstLoop, if_pos (by omega)]
    by_cases h : BaseColors i = color0
    · right
      rw [if_pos h]
      refine ⟨i, le_refl _, by omega, h, fun j' h1 h2 => by omega, ?_⟩
      rw [Nat.mod_eq_of_lt (by omega)]
    · rw [if_neg h]
      rcases ih (i + 1) Remap (by omega) with ⟨h1, h2⟩ | ⟨j, h1, h2, h3, h4, h5⟩
      · left
        refine ⟨fun j hj1 hj2 => ?_, h2⟩
        by_cases hji : j = i
        · rw [hji]
          exact h
        · exact h1 j (by omega) hj2
      · right
        refine ⟨j, by omega, h2, h3, fun j' hj1 hj2 => ?_, h5⟩
        by_cases hji : j' = i
        · rw [hji]
          exact h
        · exact h4 j' (by omega) hj2

/-- The scan of the sorted array either finds no entry with the 24-bit colour
of the entry before it and leaves the buffers as they are, or writes the
buffers from the payload bytes of two such entries. -/
theorem MakeGoodRemap.scan_spec (l : List Nat) (color0 : Nat) :
    ∀ (i : Nat) (s : MakeGoodRemap.Buffers),
      ((∀ k, k < i → l.getD (k + 1) 0 &&& 0xFFFFFF ≠ l.getD k 0 &&& 0xFFFFFF) ∧
        MakeGoodRemap.scan l color0 i s = s) ∨
      (∃ k, k < i ∧ l.getD (k + 1) 0 &&& 0xFFFFFF = l.getD k 0 &&& 0xFFFFFF ∧
        MakeGoodRemap.scan l color0 i s =
          { BaseColors := Function.update s.BaseColors
              (min (PalEntry.a (l.getD (k + 1) 0)) (PalEntry.a (l.getD k 0))) color0,
            Remap := Function.update (Function.update s.Remap 0
              (min (PalEntry.a (l.getD (k + 1) 0)) (PalEntry.a (l.getD k 0))))
              (min (PalEntry.a (l.getD (k + 1) 0)) (PalEntry.a (l.getD k 0)))
              (max (PalEntry.a (l.getD (k + 1) 0)) (PalEntry.a (l.getD k 0))) }) := by
  intro i
  induction i with
  | zero =>
    intro s
    left
    exact ⟨fun k hk => by omega, rfl⟩
  | succ i ih =>
    intro s
    rw [MakeGoodRemap.scan]
    by_cases h : l.getD (i + 1) 0 &&& 0xFFFFFF = l.getD i 0 &&& 0xFFFFFF
    · right
      rw [if_pos h]
      refine ⟨i, by omega, h, ?_⟩
      have h1 : PalEntry.a (l.getD (i + 1) 0) < 256 := Nat.mod_lt _ (by norm_num)
      have h2 : PalEntry.a (l.getD i 0) < 256 := Nat.mod_lt _ (by norm_num)
      by_cases hgt : PalEntry.a (l.getD (i + 1) 0) > PalEntry.a (l.getD i 0)
      · simp only [if_pos hgt]
        rw [min_eq_right (le_of_lt hgt), max_eq_left (le_of_lt hgt),
          Nat.mod_eq_of_lt h1, Nat.mod_eq_of_lt h2]
      · simp only [if_neg hgt]
        rw [min_eq_left (by omega), max_eq_right (by omega),
          Nat.mod_eq_of_lt h1, Nat.mod_eq_of_lt h2]
    · rw [if_neg h]
      rcases ih s with ⟨h1, h2⟩ | ⟨k, h1, h2, h3⟩
      · left
        refine ⟨fun k hk => ?_, h2⟩
        by_cases hki : k = i
        · rw [hki]
          exact h
        · exact h1 k (by omega)
      · right
        exact ⟨k, by omega, h2, h3⟩

/-- The payload that the filling loop puts in the high byte does not change the
24-bit colour. -/
theorem MakeGoodRemap.packed_colour (BaseColors : Nat → Nat) (i : Nat) :
    MakeGoodRemap.packed BaseColors i &&& 0xFFFFFF = BaseColors i &&& 0xFFFFFF := by
  unfold MakeGoodRemap.packed
  rw [Nat.and_distrib_right, and_mask_eq_mod ((i <<< 24) % 4294967296), Nat.shiftLeft_eq]
  have : i * 2 ^ 24 % 4294967296 % 16777216 = 0 := by omega
  rw [this, Nat.or_zero]

/-- On an entry with the high byte 0 the payload byte of `sortcopy[i]` is
`i`. -/
theorem MakeGoodRemap.packed_payload (BaseColors : Nat → Nat) (i : Nat)
    (hx : BaseColors i < 16777216) (hi : i < 256) :
    PalEntry.a (MakeGoodRemap.packed BaseColors i) = i := by
  unfold MakeGoodRemap.packed
  rw [Nat.shiftLeft_eq, Nat.or_comm]
  have h := Nat.mul_add_lt_is_or (i := 24) (b := BaseColors i) (by norm_num; omega) i
  have e : i * 2 ^ 24 % 4294967296 = 2 ^ 24 * i := by omega
  rw [e, ← h]
  unfold PalEntry.a
  omega

/-- The sorted array, when the words of `sortcopy` are pairwise different: two
neighbours of the same 24-bit colour come from two palette entries of the same
24-bit colour, and two palette entries of the same 24-bit colour give two
neighbours of the same 24-bit colour. -/
theorem MakeGoodRemap.sorted_spec (qsort : List Nat → List Nat) (hq : SortsForRemap qsort)
    (BaseColors : Nat → Nat)
    (hinj : ∀ m n, m < 256 → n < 256 →
      MakeGoodRemap.packed BaseColors m = MakeGoodRemap.packed BaseColors n → m = n) :
    (∀ k, k < 255 →
      (qsort (MakeGoodRemap.sortcopy BaseColors)).getD (k + 1) 0 &&& 0xFFFFFF =
        (qsort (MakeGoodRemap.sortcopy BaseColors)).getD k 0 &&& 0xFFFFFF →
      ∃ m n, m < 256 ∧ n < 256 ∧ m ≠ n ∧
        (qsort (MakeGoodRemap.sortcopy BaseColors)).getD (k + 1) 0 =
          MakeGoodRemap.packed BaseColors m ∧
        (qsort (MakeGoodRemap.sortcopy BaseColors)).getD k 0 =
          MakeGoodRemap.packed BaseColors n ∧
        BaseColors m &&& 0xFFFFFF = BaseColors n &&& 0xFFFFFF) ∧
    (∀ m n, m < 256 → n < 256 → m ≠ n →
      BaseColors m &&& 0xFFFFFF = BaseColors n &&& 0xFFFFFF →
      ∃ k, k < 255 ∧
        (qsort (MakeGoodRemap.sortcopy BaseColors)).getD (k + 1) 0 &&& 0xFFFFFF =
          (qsort (MakeGoodRemap.sortcopy BaseColors)).getD k 0 &&& 0xFFFFFF) := by
  obtain ⟨hperm, hsorted⟩ := hq (MakeGoodRemap.sortcopy BaseColors)
  generalize qsort (MakeGoodRemap.sortcopy BaseColors) = l at hperm hsorted
  have hlen : l.length = 256 := by
    rw [hperm.length_eq]
    simp [MakeGoodRemap.sortcopy]
  have hnd : l.Nodup := by
    rw [hperm.nodup_iff]
    exact List.Nodup.map_on
      (fun x hx y hy h => hinj x y (List.mem_range.1 hx) (List.mem_range.1 hy) h)
      (List.nodup_range 256)
  have hmem : ∀ x, x ∈ l ↔ ∃ m, m < 256 ∧ MakeGoodRemap.packed BaseColors m = x := by
    intro x
    rw [hperm.mem_iff]
    unfold MakeGoodRemap.sortcopy
    simp only [List.mem_map, List.mem_range]
  have hget : ∀ k (hk : k < 256), l.getD k 0 = l[k] :=
    fun k hk => List.getD_eq_getElem l 0 (by omega)
  have hle : ∀ x y, x < y → y < 256 → l.getD x 0 &&& 0xFFFFFF ≤ l.getD y 0 &&& 0xFFFFFF := by
    intro x y hxy hy
    rw [hget x (by omega), hget y hy, ← sortforremap_le_iff]
    exact List.pairwise_iff_getElem.1 hsorted x y (by omega) (by omega) hxy
  constructor
  · intro k hk hkey
    obtain ⟨m, hm, hm'⟩ := (hmem (l.getD (k + 1) 0)).1 (by
      rw [hget (k + 1) (by omega)]
      exact List.getElem_mem _)
    obtain ⟨n, hn, hn'⟩ := (hmem (l.getD k 0)).1 (by
      rw [hget k (by omega)]
      exact List.getElem_mem _)
    refine ⟨m, n, hm, hn, ?_, hm'.symm, hn'.symm, ?_⟩
    · intro hmn
      rw [hmn, hn', hget k (by omega), hget (k + 1) (by omega)] at hm'
      have := (hnd.getElem_inj_iff).1 hm'
      omega
    · rw [← hm', ← hn', MakeGoodRemap.packed_colour, MakeGoodRemap.packed_colour] at hkey
      exact hkey
  · have aux : ∀ x y, x < y → y < 256 →
        l.getD x 0 &&& 0xFFFFFF = l.getD y 0 &&& 0xFFFFFF →
        l.getD (x + 1) 0 &&& 0xFFFFFF = l.getD x 0 &&& 0xFFFFFF := by
      intro x y hxy hy h
      by_cases hxy' : x + 1 = y
      · rw [hxy', h]
      · have h1 := hle x (x + 1) (by omega) (by omega)
        have h2 := hle (x + 1) y (by omega) hy
        omega
    intro m n hm hn hmn hkey
    obtain ⟨x, hx, hx'⟩ := List.getElem_of_mem
      ((hmem (MakeGoodRemap.packed BaseColors m)).2 ⟨m, hm, rfl⟩)
    obtain ⟨y, hy, hy'⟩ := List.getElem_of_mem
      ((hmem (MakeGoodRemap.packed BaseColors n)).2 ⟨n, hn, rfl⟩)
    have hxy : x ≠ y := by
      intro h
      subst h
      rw [hx'] at hy'
      exact hmn (hinj m n hm hn hy')
    have hkx : l.getD x 0 &&& 0xFFFFFF = BaseColors m &&& 0xFFFFFF := by
      rw [hget x (by omega), hx', MakeGoodRemap.packed_colour]
    have hky : l.getD y 0 &&& 0xFFFFFF = BaseColors n &&& 0xFFFFFF := by
      rw [hget y (by omega), hy', MakeGoodRemap.packed_colour]
    rcases Nat.lt_or_gt_of_ne hxy with h | h
    · exact ⟨x, by omega, aux x y h (by omega) (by rw [hkx, hky, hkey])⟩
    · exact ⟨y, by omega, aux y x h (by omega) (by rw [hkx, hky, hkey])⟩

/-- The first part of `MakeGoodRemap`: either the lowest index of `1..255` that
holds the word of entry 0 is stored in `Remap[0]` and nothing else is done, or
no index of `1..255` holds that word and the result is that of the scan of the
sorted array. -/
theorem MakeGoodRemap.first_spec (qsort : List Nat → List Nat) (BaseColors Remap : Nat → Nat) :
    (∃ j, 1 ≤ j ∧ j < 256 ∧ BaseColors j = BaseColors 0 ∧
      (∀ j', 1 ≤ j' → j' < j → BaseColors j' ≠ BaseColors 0) ∧
      MakeGoodRemap qsort BaseColors Remap =
        ⟨BaseColors, Function.update (MakeGoodRemap.identity Remap) 0 j⟩) ∨
    ((∀ j, 1 ≤ j → j < 256 → BaseColors j ≠ BaseColors 0) ∧
      MakeGoodRemap qsort BaseColors Remap =
        MakeGoodRemap.scan (qsort (MakeGoodRemap.sortcopy BaseColors)) (BaseColors 0) 255
          ⟨BaseColors, MakeGoodRemap.identity Remap⟩) := by
  unfold MakeGoodRemap
  simp only
  rcases MakeGoodRemap.firstLoop_spec BaseColors (BaseColors 0) 255 1
      (MakeGoodRemap.identity Remap) (by norm_num) with ⟨h1, h2⟩ | ⟨j, h1, h2, h3, h4, h5⟩
  · right
    refine ⟨h1, ?_⟩
    rw [h2, if_pos]
    rw [MakeGoodRemap.identity_spec, if_pos (by norm_num)]
  · left
    refine ⟨j, h1, h2, h3, h4, ?_⟩
    rw [h5, if_neg]
    rw [Function.update_same]
    omega

/-- The outcome of `MakeGoodRemap` when no index of `1..255` holds the word of
entry 0 and the words of `sortcopy` are pairwise different: with no two entries
of the same 24-bit colour the buffers hold the identity table and the palette
as it was; otherwise two entries `m`, `n` of the same 24-bit colour give the
payload bytes from which the buffers are written. -/
theorem MakeGoodRemap.sort_outcome (qsort : List Nat → List Nat) (hq : SortsForRemap qsort)
    (BaseColors Remap : Nat → Nat)
    (hinj : ∀ m n, m < 256 → n < 256 →
      MakeGoodRemap.packed BaseColors m = MakeGoodRemap.packed BaseColors n → m = n)
    (hno : ∀ j, 1 ≤ j → j < 256 → BaseColors j ≠ BaseColors 0) :
    ((∀ m n, m < 256 → n < 256 → m ≠ n →
        BaseColors m &&& 0xFFFFFF ≠ BaseColors n &&& 0xFFFFFF) ∧
      MakeGoodRemap qsort BaseColors Remap = ⟨BaseColors, MakeGoodRemap.identity Remap⟩) ∨
    (∃ m n, m < 256 ∧ n < 256 ∧ m ≠ n ∧
      BaseColors m &&& 0xFFFFFF = BaseColors n &&& 0xFFFFFF ∧
      PalEntry.a (MakeGoodRemap.packed BaseColors m) ≤
        PalEntry.a (MakeGoodRemap.packed BaseColors n) ∧
      MakeGoodRemap qsort BaseColors Remap =
        ⟨Function.update BaseColors (PalEntry.a (MakeGoodRemap.packed BaseColors m))
            (BaseColors 0),
          Function.update (Function.update (MakeGoodRemap.identity Remap) 0
            (PalEntry.a (MakeGoodRemap.packed BaseColors m)))
            (PalEntry.a (MakeGoodRemap.packed BaseColors m))
            (PalEntry.a (MakeGoodRemap.packed BaseColors n))⟩) := by
  obtain ⟨hs1, hs2⟩ := MakeGoodRemap.sorted_spec qsort hq BaseColors hinj
  rcases MakeGoodRemap.first_spec qsort BaseColors Remap with
    ⟨j, h1, h2, h3, _, _⟩ | ⟨_, hres⟩
  · exact absurd h3 (hno j h1 h2)
  · rw [hres]
    rcases MakeGoodRemap.scan_spec (qsort (MakeGoodRemap.sortcopy BaseColors)) (BaseColors 0)
        255 ⟨BaseColors, MakeGoodRemap.identity Remap⟩ with ⟨h1, h2⟩ | ⟨k, h1, h2, h3⟩
    · left
      refine ⟨fun m n hm hn hmn hkey => ?_, h2⟩
      obtain ⟨k, hk, hk'⟩ := hs2 m n hm hn hmn hkey
      exact h1 k hk hk'
    · right
      obtain ⟨m, n, hm, hn, hmn, hm', hn', hkey⟩ := hs1 k h1 h2
      rw [h3, hm', hn']
      by_cases hle : PalEntry.a (MakeGoodRemap.packed BaseColors m) ≤
          PalEntry.a (MakeGoodRemap.packed BaseColors n)
      · refine ⟨m, n, hm, hn, hmn, hkey, hle, ?_⟩
        rw [min_eq_left hle, max_eq_right hle]
      · refine ⟨n, m, hn, hm, Ne.symm hmn, hkey.symm, by omega, ?_⟩
        rw [min_eq_right (by omega), max_eq_left (by omega)]

/-- On a palette with zero high bytes, two entries have the same red, green and
blue bytes exactly when they are the same word. -/
theorem sameRGB_iff_eq (x y : Nat) (hx : x < 16777216) (hy : y < 16777216) :
    SameRGB x y ↔ x = y := by
  rw [← and_mask_eq_iff, and_mask_eq_mod, and_mask_eq_mod]
  omega

/-- The outcome of `MakeGoodRemap` on a palette with zero high bytes is one of
three: an index `j` of `1..255`, the lowest, has the colour of entry 0 and
`Remap[0] = j`; or no index has the colour of entry 0, two entries `m < n` have
the same colour, and `Remap[0] = m`, `Remap[m] = n`, `BaseColors[m]` is the
colour of entry 0; or the 256 colours are pairwise different and nothing but
the identity table is written. -/
theorem MakeGoodRemap.outcome (qsort : List Nat → List Nat) (hq : SortsForRemap qsort)
    (BaseColors Remap : Nat → Nat) (hz : ∀ i, i < 256 → BaseColors i < 16777216) :
    (∃ j, 1 ≤ j ∧ j < 256 ∧ BaseColors j = BaseColors 0 ∧
      (∀ j', 1 ≤ j' → j' < j → BaseColors j' ≠ BaseColors 0) ∧
      MakeGoodRemap qsort BaseColors Remap =
        ⟨BaseColors, Function.update (MakeGoodRemap.identity Remap) 0 j⟩) ∨
    ((∀ m n, m < 256 → n < 256 → m ≠ n → BaseColors m ≠ BaseColors n) ∧
      MakeGoodRemap qsort BaseColors Remap = ⟨BaseColors, MakeGoodRemap.identity Remap⟩) ∨
    ((∀ j, 1 ≤ j → j < 256 → BaseColors j ≠ BaseColors 0) ∧
      ∃ m n, 1 ≤ m ∧ m < n ∧ n < 256 ∧ BaseColors m = BaseColors n ∧
        MakeGoodRemap qsort BaseColors Remap =
          ⟨Function.update BaseColors m (BaseColors 0),
            Function.update (Function.update (MakeGoodRemap.identity Remap) 0 m) m n⟩) := by
  have hmask : ∀ i, i < 256 → BaseColors i &&& 0xFFFFFF = BaseColors i := by
    intro i hi
    rw [and_mask_eq_mod]
    exact Nat.mod_eq_of_lt (hz i hi)
  have hinj : ∀ m n, m < 256 → n < 256 →
      MakeGoodRemap.packed BaseColors m = MakeGoodRemap.packed BaseColors n → m = n := by
    intro m n hm hn h
    rw [← MakeGoodRemap.packed_payload BaseColors m (hz m hm) hm,
      ← MakeGoodRemap.packed_payload BaseColors n (hz n hn) hn, h]
  by_cases hno : ∀ j, 1 ≤ j → j < 256 → BaseColors j ≠ BaseColors 0
  · right
    rcases MakeGoodRemap.sort_outcome qsort hq BaseColors Remap hinj hno with
      ⟨h1, h2⟩ | ⟨m, n, hm, hn, hmn, hkey, hle, hres⟩
    · left
      refine ⟨fun m n hm hn hmn h => h1 m n hm hn hmn ?_, h2⟩
      rw [hmask m hm, hmask n hn]
      exact h
    · right
      rw [MakeGoodRemap.packed_payload BaseColors m (hz m hm) hm,
        MakeGoodRemap.packed_payload BaseColors n (hz n hn) hn] at hle hres
      rw [hmask m hm, hmask n hn] at hkey
      refine ⟨hno, m, n, ?_, by omega, hn, hkey, hres⟩
      by_contra h0
      have hm0 : m = 0 := by omega
      rw [hm0] at hkey
      exact hno n (by omega) hn hkey.symm
  · left
    rcases MakeGoodRemap.first_spec qsort BaseColors Remap with h | ⟨h, _⟩
    · exact h
    · exact absurd h hno

/-- The identity table and one more store, read at an index of the table. -/
theorem MakeGoodRemap.update_identity (Remap : Nat → Nat) (j i : Nat) (hi1 : 1 ≤ i)
    (hi2 : i < 256) : Function.update (MakeGoodRemap.identity Remap) 0 j i = i := by
  rw [Function.update_noteq (by omega), MakeGoodRemap.identity_spec, if_pos hi2]

/-- C11 fails when the high bytes differ: entry 1 of `highByteTwin` has the
red, green and blue bytes of entry 0 and is the only such entry, but with
every `qsort` that sorts, `MakeGoodRemap` stores 255 in `Remap[0]`, the index
of an entry of another colour. The first loop compares whole words and finds
nothing; the sorted copy then holds the entries 0 and 1 side by side with the
payload bytes 0 and 255. -/
theorem MakeGoodRemap_high_byte_counterexample :
    SameRGB (highByteTwin 1) (highByteTwin 0) ∧
    (∀ qsort : List Nat → List Nat, SortsForRemap qsort → ∀ Remap : Nat → Nat,
      (MakeGoodRemap qsort highByteTwin Remap).Remap 0 = 255) ∧
    (MakeGoodRemap refQsort32 highByteTwin (fun _ => 0)).Remap 0 = 255 ∧
    ¬ SameRGB (highByteTwin 255) (highByteTwin 0) := by
  refine ⟨by decide, ?_, by decide!, by decide⟩
  intro qsort hq Remap
  have hkey : ∀ m n, m < 256 → n < 256 → m ≠ n →
      highByteTwin m &&& 0xFFFFFF = highByteTwin n &&& 0xFFFFFF →
      (m = 0 ∧ n = 1) ∨ (m = 1 ∧ n = 0) := by
    intro m n hm hn hmn h
    rw [and_mask_eq_mod, and_mask_eq_mod] at h
    unfold highByteTwin at h
    split_ifs at h <;> omega
  have h01 : MakeGoodRemap.packed highByteTwin 0 ≠ MakeGoodRemap.packed highByteTwin 1 := by
    decide
  have hinj : ∀ m n, m < 256 → n < 256 →
      MakeGoodRemap.packed highByteTwin m = MakeGoodRemap.packed highByteTwin n → m = n := by
    intro m n hm hn h
    by_contra hmn
    have hk : highByteTwin m &&& 0xFFFFFF = highByteTwin n &&& 0xFFFFFF := by
      rw [← MakeGoodRemap.packed_colour highByteTwin m,
        ← MakeGoodRemap.packed_colour highByteTwin n, h]
    rcases hkey m n hm hn hmn hk with ⟨h1, h2⟩ | ⟨h1, h2⟩
    · rw [h1, h2] at h
      exact h01 h
    · rw [h1, h2] at h
      exact h01 h.symm
  have hno : ∀ j, 1 ≤ j → j < 256 → highByteTwin j ≠ highByteTwin 0 := by
    intro j hj1 hj2
    unfold highByteTwin
    split_ifs <;> omega
  rcases MakeGoodRemap.sort_outcome qsort hq highByteTwin Remap hinj hno with
    ⟨h1, _⟩ | ⟨m, n, hm, hn, hmn, hk, hle, hres⟩
  · exact absurd (by decide) (h1 0 1 (by norm_num) (by norm_num) (by norm_num))
  · rcases hkey m n hm hn hmn hk with ⟨h1, h2⟩ | ⟨h1, h2⟩
    · rw [hres, h1, h2]
      have e0 : PalEntry.a (MakeGoodRemap.packed highByteTwin 0) = 0 := by decide
      have e1 : PalEntry.a (MakeGoodRemap.packed highByteTwin 1) = 255 := by decide
      simp only
      rw [e0, e1, Function.update_same]
    · rw [h1, h2] at hle
      exact absurd hle (by decide)

/-- C11, amended: for every palette of 32-bit words, if some index of `1..255`
holds the same word as entry 0 (red, green, blue and high byte), then after
`MakeGoodRemap` the entry `Remap[0]` is the lowest such index, `Remap[i] = i`
for every `i` in `1..255`, and the palette is as it was; on a palette with
zero high bytes that index is the lowest of `1..255` with the red, green and
blue bytes of entry 0. -/
theorem MakeGoodRemap_word_match (qsort : List Nat → List Nat) (BaseColors Remap : Nat → Nat)
    (hex : ∃ i, 1 ≤ i ∧ i < 256 ∧ BaseColors i = BaseColors 0) :
    ∃ j, 1 ≤ j ∧ j < 256 ∧ BaseColors j = BaseColors 0 ∧
      (∀ j', 1 ≤ j' → j' < j → BaseColors j' ≠ BaseColors 0) ∧
      (MakeGoodRemap qsort BaseColors Remap).Remap 0 = j ∧
      (∀ i, 1 ≤ i → i < 256 → (MakeGoodRemap qsort BaseColors Remap).Remap i = i) ∧
      (MakeGoodRemap qsort BaseColors Remap).BaseColors = BaseColors ∧
      ((∀ i, i < 256 → BaseColors i < 16777216) →
        SameRGB (BaseColors j) (BaseColors 0) ∧
        ∀ j', 1 ≤ j' → j' < j → ¬ SameRGB (BaseColors j') (BaseColors 0)) := by
  obtain ⟨i, hi1, hi2, hi⟩ := hex
  rcases MakeGoodRemap.first_spec qsort BaseColors Remap with
    ⟨j, h1, h2, h3, h4, h5⟩ | ⟨h, _⟩
  · refine ⟨j, h1, h2, h3, h4, ?_, ?_, ?_, ?_⟩
    · rw [h5]
      simp only
      rw [Function.update_same]
    · intro i hi1 hi2
      rw [h5]
      exact MakeGoodRemap.update_identity Remap j i hi1 hi2
    · rw [h5]
    · intro hz
      refine ⟨(sameRGB_iff_eq _ _ (hz j h2) (hz 0 (by norm_num))).2 h3, fun j' hj1 hj2 hs => ?_⟩
      exact h4 j' hj1 hj2 ((sameRGB_iff_eq _ _ (hz j' (by omega)) (hz 0 (by norm_num))).1 hs)
  · exact absurd hi (h i hi1 hi2)

/-- C11, amended, on a palette whose entry 7 is the only one that is black like
entry 0: `Remap[0] = 7`. -/
theorem MakeGoodRemap_word_match_witness :
    (∃ i, 1 ≤ i ∧ i < 256 ∧ blackAtSeven i = blackAtSeven 0) ∧
    (MakeGoodRemap refQsort32 blackAtSeven (fun _ => 0)).Remap 0 = 7 ∧
    (∃ j, 1 ≤ j ∧ j < 256 ∧ blackAtSeven j = blackAtSeven 0 ∧
      (∀ j', 1 ≤ j' → j' < j → blackAtSeven j' ≠ blackAtSeven 0) ∧
      (MakeGoodRemap refQsort32 blackAtSeven (fun _ => 0)).Remap 0 = j ∧
      (∀ i, 1 ≤ i → i < 256 →
        (MakeGoodRemap refQsort32 blackAtSeven (fun _ => 0)).Remap i = i) ∧
      (MakeGoodRemap refQsort32 blackAtSeven (fun _ => 0)).BaseColors = blackAtSeven ∧
      ((∀ i, i < 256 → blackAtSeven i < 16777216) →
        SameRGB (blackAtSeven j) (blackAtSeven 0) ∧
        ∀ j', 1 ≤ j' → j' < j → ¬ SameRGB (blackAtSeven j') (blackAtSeven 0))) :=
  ⟨⟨7, by decide, by decide, by decide⟩, by decide!,
    MakeGoodRemap_word_match refQsort32 blackAtSeven (fun _ => 0)
      ⟨7, by decide, by decide, by decide⟩⟩

/-- The entries of `hexenLike` have zero high bytes. -/
theorem hexenLike_lt (i : Nat) : hexenLike i < 16777216 := by
  unfold hexenLike
  split_ifs <;> omega

/-- The only two entries of `hexenLike` of the same colour are 209 and 229. -/
theorem hexenLike_sameRGB (m n : Nat) (hm : m < 256) (hn : n < 256) :
    SameRGB (hexenLike m) (hexenLike n) ↔
      m = n ∨ (m = 209 ∧ n = 229) ∨ (m = 229 ∧ n = 209) := by
  rw [sameRGB_iff_eq _ _ (hexenLike_lt m) (hexenLike_lt n)]
  unfold hexenLike
  split_ifs <;> omega

/-- C12: for every palette with zero high bytes in which no index of `1..255`
has the colour of entry 0 and `p < q` is the only pair of indices of `1..255`
of the same colour, and every `qsort` that sorts, after `MakeGoodRemap`:
`Remap[0] = p`, `Remap[p] = q`, `BaseColors[p]` is the colour that entry 0 had,
`Remap[i] = i` for every other `i` of `0..255`, and every other entry of the
palette is as it was. -/
theorem MakeGoodRemap_single_pair (qsort : List Nat → List Nat) (hq : SortsForRemap qsort)
    (BaseColors Remap : Nat → Nat) (hz : ∀ i, i < 256 → BaseColors i < 16777216)
    (p q : Nat) (hp : 1 ≤ p) (hpq : p < q) (hq2 : q < 256)
    (hno : ∀ j, 1 ≤ j → j < 256 → ¬ SameRGB (BaseColors j) (BaseColors 0))
    (hpair : SameRGB (BaseColors p) (BaseColors q))
    (huniq : ∀ m n, 1 ≤ m → m < n → n < 256 → SameRGB (BaseColors m) (BaseColors n) →
      m = p ∧ n = q) :
    (MakeGoodRemap qsort BaseColors Remap).Remap 0 = p ∧
    (MakeGoodRemap qsort BaseColors Remap).Remap p = q ∧
    (MakeGoodRemap qsort BaseColors Remap).BaseColors p = BaseColors 0 ∧
    (∀ i, i < 256 → i ≠ 0 → i ≠ p → (MakeGoodRemap qsort BaseColors Remap).Remap i = i) ∧
    (∀ i, i ≠ p → (MakeGoodRemap qsort BaseColors Remap).BaseColors i = BaseColors i) := by
  rcases MakeGoodRemap.outcome qsort hq BaseColors Remap hz with
    ⟨j, h1, h2, h3, _, _⟩ | ⟨h, _⟩ | ⟨_, m, n, hm, hmn, hn, hcol, hres⟩
  · exact absurd ((sameRGB_iff_eq _ _ (hz j h2) (hz 0 (by norm_num))).2 h3) (hno j h1 h2)
  · exact absurd ((sameRGB_iff_eq _ _ (hz p (by omega)) (hz q hq2)).1 hpair)
      (h p q (by omega) hq2 (by omega))
  · obtain ⟨e1, e2⟩ := huniq m n hm hmn hn
      ((sameRGB_iff_eq _ _ (hz m (by omega)) (hz n hn)).2 hcol)
    subst e1 e2
    rw [hres]
    refine ⟨?_, ?_, ?_, ?_, ?_⟩
    · simp only
      rw [Function.update_noteq (by omega), Function.update_same]
    · simp only
      rw [Function.update_same]
    · simp only
      rw [Function.update_same]
    · intro i hi1 hi2 hi3
      simp only
      rw [Function.update_noteq hi3, Function.update_noteq hi2, MakeGoodRemap.identity_spec,
        if_pos hi1]
    · intro i hi
      simp only
      rw [Function.update_noteq hi]

/-- C12 on a palette whose only entries of the same colour are 209 and 229:
`Remap[0] = 209`, `Remap[209] = 229` and entry 209 of the palette becomes the
colour of entry 0. -/
theorem MakeGoodRemap_single_pair_witness :
    (MakeGoodRemap refQsort32 hexenLike (fun _ => 0)).Remap 0 = 209 ∧
    (MakeGoodRemap refQsort32 hexenLike (fun _ => 0)).Remap 209 = 229 ∧
    (MakeGoodRemap refQsort32 hexenLike (fun _ => 0)).BaseColors 209 = hexenLike 0 ∧
    (∀ i, i < 256 → i ≠ 0 → i ≠ 209 →
      (MakeGoodRemap refQsort32 hexenLike (fun _ => 0)).Remap i = i) ∧
    (∀ i, i ≠ 209 →
      (MakeGoodRemap refQsort32 hexenLike (fun _ => 0)).BaseColors i = hexenLike i) :=
  MakeGoodRemap_single_pair refQsort32 refQsort32_sorts hexenLike (fun _ => 0)
    (fun i _ => hexenLike_lt i) 209 229 (by decide) (by decide) (by decide)
    (fun j hj1 hj2 h => by
      rw [hexenLike_sameRGB j 0 hj2 (by norm_num)] at h
      omega)
    ((hexenLike_sameRGB 209 229 (by norm_num) (by norm_num)).2 (by omega))
    (fun m n hm hmn hn h => by
      rw [hexenLike_sameRGB m n (by omega) hn] at h
      omega)

/-- C13: for every palette with zero high bytes and every `qsort` that sorts,
if the 256 colours are pairwise different then `MakeGoodRemap` leaves
`Remap[i] = i` for every `i` in `0..255` and the palette as it was; and if two
entries of the palette have the same colour then `Remap[0]` is not 0 after the
call. -/
theorem MakeGoodRemap_identity_iff_distinct (qsort : List Nat → List Nat)
    (hq : SortsForRemap qsort) (BaseColors Remap : Nat → Nat)
    (hz : ∀ i, i < 256 → BaseColors i < 16777216) :
    ((∀ m n, m < 256 → n < 256 → m ≠ n → ¬ SameRGB (BaseColors m) (BaseColors n)) →
      (∀ i, i < 256 → (MakeGoodRemap qsort BaseColors Remap).Remap i = i) ∧
      (MakeGoodRemap qsort BaseColors Remap).BaseColors = BaseColors) ∧
    ((∃ m n, m < 256 ∧ n < 256 ∧ m ≠ n ∧ SameRGB (BaseColors m) (BaseColors n)) →
      (MakeGoodRemap qsort BaseColors Remap).Remap 0 ≠ 0) := by
  have hsame : ∀ m n, m < 256 → n < 256 → BaseColors m = BaseColors n →
      SameRGB (BaseColors m) (BaseColors n) :=
    fun m n hm hn h => (sameRGB_iff_eq _ _ (hz m hm) (hz n hn)).2 h
  rcases MakeGoodRemap.outcome qsort hq BaseColors Remap hz with
    ⟨j, h1, h2, h3, _, hres⟩ | ⟨h, hres⟩ | ⟨_, m, n, hm, hmn, hn, hcol, hres⟩
  · constructor
    · intro hd
      exact absurd (hsame j 0 h2 (by norm_num) h3) (hd j 0 h2 (by norm_num) (by omega))
    · intro _
      rw [hres]
      simp only
      rw [Function.update_same]
      omega
  · constructor
    · intro _
      rw [hres]
      refine ⟨fun i hi => ?_, rfl⟩
      simp only
      rw [MakeGoodRemap.identity_spec, if_pos hi]
    · rintro ⟨m, n, hm, hn, hmn, hs⟩
      exact absurd ((sameRGB_iff_eq _ _ (hz m hm) (hz n hn)).1 hs) (h m n hm hn hmn)
  · constructor
    · intro hd
      exact absurd (hsame m n (by omega) hn hcol) (hd m n (by omega) hn (by omega))
    · intro _
      rw [hres]
      simp only
      rw [Function.update_noteq (by omega), Function.update_same]
      omega

/-- C13 on the ramp of 256 different blues, where the table is the identity,
and on a palette whose entries 209 and 229 have the same colour, where
`Remap[0]` is not 0. -/
theorem MakeGoodRemap_identity_iff_distinct_witness :
    ((∀ i, i < 256 → (MakeGoodRemap refQsort32 blueRamp (fun _ => 0)).Remap i = i) ∧
      (MakeGoodRemap refQsort32 blueRamp (fun _ => 0)).BaseColors = blueRamp) ∧
    (MakeGoodRemap refQsort32 hexenLike (fun _ => 0)).Remap 0 ≠ 0 :=
  ⟨(MakeGoodRemap_identity_iff_distinct refQsort32 refQsort32_sorts blueRamp (fun _ => 0)
      (fun i _ => by unfold blueRamp; omega)).1
      (fun m n hm hn hmn h => by
        rw [sameRGB_iff_eq _ _ (by unfold blueRamp; omega) (by unfold blueRamp; omega)] at h
        unfold blueRamp at h
        omega),
    (MakeGoodRemap_identity_iff_distinct refQsort32 refQsort32_sorts hexenLike (fun _ => 0)
      (fun i _ => hexenLike_lt i)).2
      ⟨209, 229, by decide, by decide, by decide,
        (hexenLike_sameRGB 209 229 (by norm_num) (by norm_num)).2 (by omega)⟩⟩

/-- C19: for every palette with zero high bytes, every `qsort` that sorts and
every index `i` of `0..255`, the entry `Remap[i]` after `MakeGoodRemap` is an
index of `0..255`, and the palette after the call holds there the red, green
and blue bytes that the palette before the call held at `i`. -/
theorem MakeGoodRemap_preserves_colours (qsort : List Nat → List Nat)
    (hq : SortsForRemap qsort) (BaseColors Remap : Nat → Nat)
    (hz : ∀ i, i < 256 → BaseColors i < 16777216) (i : Nat) (hi : i < 256) :
    (MakeGoodRemap qsort BaseColors Remap).Remap i < 256 ∧
    SameRGB ((MakeGoodRemap qsort BaseColors Remap).BaseColors
      ((MakeGoodRemap qsort BaseColors Remap).Remap i)) (BaseColors i) := by
  have hrefl : ∀ x y : Nat, x = y → SameRGB x y := by
    intro x y h
    rw [h]
    exact ⟨rfl, rfl, rfl⟩
  rcases MakeGoodRemap.outcome qsort hq BaseColors Remap hz with
    ⟨j, h1, h2, h3, _, hres⟩ | ⟨_, hres⟩ | ⟨_, m, n, hm, hmn, hn, hcol, hres⟩
  · rw [hres]
    simp only
    by_cases h0 : i = 0
    · subst h0
      rw [Function.update_same]
      exact ⟨h2, hrefl _ _ h3⟩
    · rw [Function.update_noteq h0, MakeGoodRemap.identity_spec, if_pos hi]
      exact ⟨hi, hrefl _ _ rfl⟩
  · rw [hres]
    simp only
    rw [MakeGoodRemap.identity_spec, if_pos hi]
    exact ⟨hi, hrefl _ _ rfl⟩
  · rw [hres]
    simp only
    by_cases hm' : i = m
    · subst hm'
      rw [Function.update_same, Function.update_noteq (by omega)]
      exact ⟨hn, hrefl _ _ hcol.symm⟩
    · rw [Function.update_noteq hm']
      by_cases h0 : i = 0
      · subst h0
        rw [Function.update_same, Function.update_same]
        exact ⟨by omega, hrefl _ _ rfl⟩
      · rw [Function.update_noteq h0, MakeGoodRemap.identity_spec, if_pos hi,
          Function.update_noteq hm']
        exact ⟨hi, hrefl _ _ rfl⟩

/-- C19 on a palette whose entries 209 and 229 have the same colour, at the
indices 0 and 209, which the call remaps to 209 and 229. -/
theorem MakeGoodRemap_preserves_colours_witness :
    ((MakeGoodRemap refQsort32 hexenLike (fun _ => 0)).Remap 0 = 209 ∧
      (MakeGoodRemap refQsort32 hexenLike (fun _ => 0)).Remap 209 = 229) ∧
    ((MakeGoodRemap refQsort32 hexenLike (fun _ => 0)).Remap 0 < 256 ∧
      SameRGB ((MakeGoodRemap refQsort32 hexenLike (fun _ => 0)).BaseColors
        ((MakeGoodRemap refQsort32 hexenLike (fun _ => 0)).Remap 0)) (hexenLike 0)) ∧
    ((MakeGoodRemap refQsort32 hexenLike (fun _ => 0)).Remap 209 < 256 ∧
      SameRGB ((MakeGoodRemap refQsort32 hexenLike (fun _ => 0)).BaseColors
        ((MakeGoodRemap refQsort32 hexenLike (fun _ => 0)).Remap 209)) (hexenLike 209)) :=
  ⟨⟨by decide!, by decide!⟩,
    MakeGoodRemap_preserves_colours refQsort32 refQsort32_sorts hexenLike (fun _ => 0)
      (fun i _ => hexenLike_lt i) 0 (by decide),
    MakeGoodRemap_preserves_colours refQsort32 refQsort32_sorts hexenLike (fun _ => 0)
      (fun i _ => hexenLike_lt i) 209 (by decide)⟩

/-! ## Facts about the colour space conversion -/

/-- With `fuel ≥ n` the halving loop gives the binary logarithm of `n ≥ 1`
rounded down. -/
theorem Binary32.log2_spec :
    ∀ (fuel n : Nat), n ≤ fuel → 1 ≤ n →
      2 ^ Binary32.log2 fuel n ≤ n ∧ n < 2 ^ (Binary32.log2 fuel n + 1) := by
  intro fuel
  induction fuel with
  | zero =>
    intro n h1 h2
    omega
  | succ fuel ih =>
    intro n h1 h2
    rw [Binary32.log2]
    by_cases h : n < 2
    · rw [if_pos h]
      norm_num
      omega
    · rw [if_neg h]
      obtain ⟨ih1, ih2⟩ := ih (n / 2) (by omega) (by omega)
      rw [pow_succ] at ih2 ⊢
      rw [pow_succ]
      constructor
      · omega
      · rw [pow_succ]
        omega

/-- Known values of the rounding: the `float` nearest to `1/3` and to `1/10`,
ties going to the even neighbour, the least positive `float` `2^-149`, and the
overflow threshold `2^128 - 2^103`. -/
theorem Binary32.round_values :
    Binary32.round (1 / 3) = some (11184811 / 33554432) ∧
    Binary32.round (1 / 10) = some (13421773 / 134217728) ∧
    Binary32.round (1 + 1 / 16777216) = some 1 ∧
    Binary32.round (1 + 3 / 16777216) = some (1 + 1 / 4194304) ∧
    Binary32.round (-(1 + 3 / 16777216)) = some (-(1 + 1 / 4194304)) ∧
    Binary32.round (Binary32.pow2 (-149)) = some (Binary32.pow2 (-149)) ∧
    Binary32.round (Binary32.pow2 (-150)) = some 0 ∧
    Binary32.round (3 * Binary32.pow2 (-150)) = some (Binary32.pow2 (-148)) ∧
    Binary32.round (Binary32.pow2 128 - Binary32.pow2 104) =
      some (Binary32.pow2 128 - Binary32.pow2 104) ∧
    Binary32.round (Binary32.pow2 128 - Binary32.pow2 103) = none ∧
    Binary32.round (Binary32.pow2 128 - Binary32.pow2 103 - 1) =
      some (Binary32.pow2 128 - Binary32.pow2 104) := by
  decide!

/-- The steps of `RGBtoHSV` on `(1, 0.5, 0.5 + 2^-24)`: every operation is
exact until `*h += 360`, whose exact result `360 - 15/2^21` lies between the
neighbouring `float` `360 - 2^-15` and `360` and is nearer to `360`. -/
theorem RGBtoHSV.steps_near_360 :
    Binary32.sub 1 (1 / 2) = some (1 / 2) ∧
    Binary32.div (1 / 2) 1 = some (1 / 2) ∧
    Binary32.sub (1 / 2) (8388609 / 16777216) = some (-1 / 16777216) ∧
    Binary32.div (-1 / 16777216) (1 / 2) = some (-1 / 8388608) ∧
    Binary32.mul (-1 / 8388608) 60 = some (-15 / 2097152) ∧
    Binary32.add (-15 / 2097152) 360 = some 360 ∧
    Binary32.round (360 - 1 / 32768) = some (360 - 1 / 32768) := by
  decide!

/-- C17 fails on the code, which computes in `float`: for the colour
`(1, 0.5, 0.5 + 2^-24)`, three `float` in `[0,1]` that are not all equal,
`RGBtoHSV` gives `s = 0.5 > 0` and the hue `360`, because `*h += 360` rounds
`360 - 15/2^21` up to `360.0f`; `HSVtoRGB` then divides the hue into sector 6,
takes the `default` branch with `f = 0`, and returns `(1, 0.5, 1)`, which is
off by almost `0.5` in the blue channel. Likewise `(1, 0, 2^-24)` comes back as
`(1, 0, 1)`. The grey half of the claim holds: `RGBtoHSV` gives `(0, 0, x)`
for a grey `x` and `HSVtoRGB` gives back `(x, x, x)`. -/
theorem HSVtoRGB_RGBtoHSV_hue_360 :
    (Binary32.round 1 = some 1 ∧ Binary32.round (1 / 2) = some (1 / 2) ∧
      Binary32.round (8388609 / 16777216) = some (8388609 / 16777216)) ∧
    RGBtoHSV 1 (1 / 2) (8388609 / 16777216) = some (360, 1 / 2, 1) ∧
    Binary32.div 360 60 = some 6 ∧ Int.floor (6 : ℚ) = 6 ∧
    HSVtoRGB 360 (1 / 2) 1 = some (1, 1 / 2, 1) ∧
    (RGBtoHSV 1 (1 / 2) (8388609 / 16777216)).bind
        (fun hsv => HSVtoRGB hsv.1 hsv.2.1 hsv.2.2) ≠
      some (1, 1 / 2, 8388609 / 16777216) ∧
    (Binary32.round (1 / 16777216) = some (1 / 16777216) ∧
      RGBtoHSV 1 0 (1 / 16777216) = some (360, 1, 1) ∧
      HSVtoRGB 360 1 1 = some (1, 0, 1)) ∧
    (∀ x : ℚ, RGBtoHSV x x x = some (0, 0, x) ∧ HSVtoRGB 0 0 x = some (x, x, x)) := by
  refine ⟨by decide!, by decide!, by decide!, by decide!, by decide!, by decide!, by decide!,
    fun x => ⟨?_, ?_⟩⟩
  · unfold RGBtoHSV
    rw [if_pos ⟨rfl, rfl⟩]
  · unfold HSVtoRGB
    rw [if_pos rfl]

end Palette
